import Mathlib

/-!
# PodWatch: detection and response pipeline

A shallow embedding of the PodWatch sources:

* `pkg/models/types.go`   : the event / alert / rule data model;
* `pkg/logging`           : the response constants and the structured log record;
* `respond/main.go`       : the response orchestrator (`handleAlert` and the four executors);
* `detect/matcher`        : the rule engine (`NewRuleEngine`, `CompileAll`, `Evaluate`);
* `detect/correlator`     : the stateful correlator (`TrackEvent`, `CheckThreshold`,
  `TrackSequenceStep`, `CheckSequenceComplete`) over a model of the key-value store;
* `enrich/main.go`        : the container index (`updateCache`) and `enrichEvent`;
* `incident/main.go`      : the handlers `updateIncident` and `getIncidentTimeline` over the
  three tables of the incident database;
* the JSON encoding of `RuntimeEvent` that the struct tags of `pkg/models/types.go` fix
  (namespace `models`, on Go values in full: byte strings, nil and empty slices, and a
  `time.Time` with its monotonic reading and location).

Go structs become Lean structures with the Go field names, nil-able pointers become
`Option`, Go maps become association lists read with `List.lookup`, and the package-level
singletons (`db`, `clientset`, `logger`) become one explicit `World` value that every
effectful function threads through. The correlator threads the store `Redis` and reads the
wall clock as an explicit argument `now`, in whole seconds. A `time.Time` is its instant
together with the offset of its zone, and `int64` arithmetic that can leave the range is
reduced with `wrap64`.
-/

namespace PodWatch

/-! ## pkg/models/types.go -/

/-- A `time.Time`: the instant, in nanoseconds since the Unix epoch, and the offset, in
seconds east of UTC, of the zone the value carries (0 for UTC). The monotonic reading and
the name of the zone are left out: no function of the repository reads them, and the JSON
text of a time does not hold them. -/
structure Time where
  unixNano : Int
  offset : Int := 0
  deriving DecidableEq, Repr, Inhabited

/-- A numeral read as a time: that many nanoseconds after the Unix epoch, in UTC. -/
instance (n : Nat) : OfNat Time n := ⟨{ unixNano := n }⟩

/-- The zero value of `time.Time`: January 1, year 1, 00:00 UTC. -/
def zeroTime : Time := { unixNano := -62135596800000000000 }

/-- The value an `int64` holds after an arithmetic result `x`: `x` reduced modulo 2^64
into the range -2^63 .. 2^63 - 1. -/
def wrap64 (x : Int) : Int := (x + 9223372036854775808) % 18446744073709551616 - 9223372036854775808

/-- The `float64` nearest to an integer, ties going to the even mantissa: the integer
itself up to 2^53 in magnitude, beyond that a multiple of a power of two. -/
def float64 (n : Int) : Int :=
  if n.natAbs ≤ 9007199254740992 then n
  else
    Int.sign n *
      ((if 2 ^ (Nat.log2 n.natAbs - 52) < 2 * (n.natAbs % 2 ^ (Nat.log2 n.natAbs - 52)) ∨
          (2 * (n.natAbs % 2 ^ (Nat.log2 n.natAbs - 52)) = 2 ^ (Nat.log2 n.natAbs - 52) ∧
            n.natAbs / 2 ^ (Nat.log2 n.natAbs - 52) % 2 = 1)
        then n.natAbs / 2 ^ (Nat.log2 n.natAbs - 52) + 1
        else n.natAbs / 2 ^ (Nat.log2 n.natAbs - 52) : Nat) *
        (2 ^ (Nat.log2 n.natAbs - 52) : Nat))

namespace Time

/-- The method `Unix`: whole seconds since the epoch, rounded down. -/
def Unix (t : Time) : Int := t.unixNano / 1000000000

/-- The method `Nanosecond`: the nanoseconds within the second. -/
def Nanosecond (t : Time) : Int := t.unixNano % 1000000000

/-- The civil date (year, month, day) of the day that lies `days` days after 1970-01-01,
in the proleptic Gregorian calendar of package `time`. -/
def civil (days : Int) : Int × Int × Int :=
  let z := days + 719468
  let era := z / 146097
  let doe := z - era * 146097
  let yoe := (doe - doe / 1460 + doe / 36524 - doe / 146096) / 365
  let doy := doe - (365 * yoe + yoe / 4 - yoe / 100)
  let mp := (5 * doy + 2) / 153
  let d := doy - (153 * mp + 2) / 5 + 1
  let m := if mp < 10 then mp + 3 else mp - 9
  (if m ≤ 2 then yoe + era * 400 + 1 else yoe + era * 400, m, d)

/-- Seconds since the epoch as the clock of the time's own zone shows them. -/
def localSeconds (t : Time) : Int := t.Unix + t.offset

/-- The method `Year`: the year in the time's own zone. -/
def Year (t : Time) : Int := (civil (t.localSeconds / 86400)).1

/-- The helper `appendInt`: the decimal text of `x`, padded with zeros to `width` digits,
after a `-` when `x` is negative. -/
def appendInt (x : Int) (width : Nat) : String :=
  (if x < 0 then "-" else "") ++
    String.mk (List.replicate (width - (toString x.natAbs).length) '0') ++ toString x.natAbs

/-- The helper `appendNano` for the layout `.999999999`: nothing for a whole second,
otherwise the nine digits without their trailing zeros. -/
def appendNano (nanosec : Int) : String :=
  if nanosec = 0 then ""
  else "." ++ String.mk (((appendInt nanosec 9).data.reverse.dropWhile (fun c => c = '0')).reverse)

/-- What the layout `Z07:00` writes of an offset: nothing but `Z` for offset 0 (`none`),
otherwise the offset in whole minutes; the seconds of the offset are cut. -/
def zoneMinutes (offset : Int) : Option Int :=
  if offset = 0 then none else some (Int.tdiv offset 60)

/-- The zone suffix of the layout `Z07:00`: `Z`, or sign, hours and minutes. -/
def zoneSuffix (zone : Option Int) : String :=
  match zone with
  | none => "Z"
  | some minutes =>
    (if minutes < 0 then "-" else "+") ++
      appendInt (minutes.natAbs / 60 : Nat) 2 ++ ":" ++ appendInt (minutes.natAbs % 60 : Nat) 2

/-- The zone suffix written for an offset. -/
def zoneText (offset : Int) : String := zoneSuffix (zoneMinutes offset)

/-- The date and the time of day in the layout `RFC3339Nano`, for a clock that shows
`seconds` seconds and `nanosec` nanoseconds since 1970-01-01T00:00:00. -/
def clockText (seconds nanosec : Int) : String :=
  appendInt (civil (seconds / 86400)).1 4 ++ "-" ++
    appendInt (civil (seconds / 86400)).2.1 2 ++ "-" ++
    appendInt (civil (seconds / 86400)).2.2 2 ++ "T" ++
    appendInt (seconds % 86400 / 3600) 2 ++ ":" ++
    appendInt (seconds % 3600 / 60) 2 ++ ":" ++
    appendInt (seconds % 60) 2 ++
    appendNano nanosec

/-- The text of a time in the layout `RFC3339Nano`. -/
def formatRFC3339 (t : Time) : String :=
  clockText t.localSeconds t.Nanosecond ++ zoneText t.offset

/-- The method `MarshalJSON`: the RFC 3339 text, refused when the year in the time's own
zone lies outside 0..9999 or the zone is 24 hours or more from UTC. -/
def MarshalJSON (t : Time) : Except String String :=
  if t.Year < 0 ∨ 9999 < t.Year then
    .error "Time.MarshalJSON: year outside of range [0,9999]"
  else if 24 ≤ (Int.tdiv t.offset 60).natAbs / 60 then
    .error "Time.MarshalJSON: timezone hour outside of range [0,23]"
  else .ok (formatRFC3339 t)

end Time

/-- Process sub-document. `CapabilitiesAdded` identifies the nil and the empty slice (both have length 0 and both
are left out of the JSON encoding). -/
structure ProcessInfo where
  PID : Int
  PPID : Int
  UID : Int
  GID : Int
  Exe : String
  Cmdline : String
  Cwd : String
  HasTTY : Bool
  CapabilitiesAdded : List String
  deriving DecidableEq, Repr, Inhabited

/-- Container sub-document. `Labels` is `none` for the nil map (encoded as JSON `null`). -/
structure ContainerInfo where
  ContainerID : String
  Image : String
  ImageDigest : String
  Pod : String
  Namespace : String
  ServiceAccount : String
  Labels : Option (List (String × String))
  deriving DecidableEq, Repr, Inhabited

structure NetworkInfo where
  DstIP : String
  DstPort : Int
  Proto : String
  DstDomain : String
  deriving DecidableEq, Repr, Inhabited

structure RuntimeEvent where
  Timestamp : Time
  ClusterID : String
  NodeID : String
  EventType : String
  EventID : String
  Process : Option ProcessInfo
  Container : Option ContainerInfo
  Network : Option NetworkInfo
  RawRef : String
  deriving DecidableEq, Repr, Inhabited

structure Alert where
  ID : String
  Timestamp : Time
  RuleName : String
  Severity : String
  Description : String
  Event : Option RuntimeEvent
  IncidentID : String
  Response : String
  deriving DecidableEq, Repr, Inhabited

structure Rule where
  ID : String
  Name : String
  Description : String
  Severity : String
  Condition : String
  Response : String
  Enabled : Bool
  deriving DecidableEq, Repr, Inhabited

/-! ## pkg/logging -/

namespace logging

def ResponseKillPod : String := "kill_pod"
def ResponseQuarantineNS : String := "quarantine_namespace"
def ResponseIsolateNode : String := "isolate_node"
def ResponseEvidenceBundle : String := "evidence_bundle"
def ResponseNotify : String := "notify"
def ResponseBlockNetwork : String := "block_network"
def ResponseRevokeCredentials : String := "revoke_credentials"

def StatusPending : String := "pending"
def StatusExecuting : String := "executing"
def StatusSuccess : String := "success"
def StatusFailed : String := "failed"
def StatusBlocked : String := "blocked"
def StatusSkipped : String := "skipped"

def LevelInfo : String := "INFO"
def LevelError : String := "ERROR"

/-- The fields of `logging.TargetInfo` that the orchestrator fills; the process, network and
file fields of the Go struct keep their zero value in every record it writes. -/
structure TargetInfo where
  ClusterID : String := ""
  Namespace : String := ""
  Pod : String := ""
  ContainerID : String := ""
  Node : String := ""
  Image : String := ""
  deriving DecidableEq, Repr, Inhabited

structure ResponseInfo where
  Action : String
  Status : String
  Reason : String
  Blocked : Bool := false
  BlockReason : String := ""
  Duration : Int := 0
  Playbook : String := ""
  deriving DecidableEq, Repr, Inhabited

/-- One structured log entry as `Logger.Log` encodes it. The `Timestamp` the logger stamps
from the wall clock is left out. -/
structure SecurityEvent where
  Level : String
  Service : String := ""
  Component : String := ""
  Message : String
  IncidentID : String := ""
  Target : Option TargetInfo := none
  Response : Option ResponseInfo := none
  Metadata : List (String × String) := []
  deriving DecidableEq, Repr, Inhabited

end logging

/-! ## The orchestrator API as seen by `respond/main.go` -/

/-- A pod object held by the API server. -/
structure Pod where
  Namespace : String
  Name : String
  Labels : List (String × String)
  deriving DecidableEq, Repr, Inhabited

/-- A node object held by the API server; `Unschedulable` is `node.Spec.Unschedulable`. -/
structure Node where
  Name : String
  Labels : List (String × String)
  Unschedulable : Bool
  deriving DecidableEq, Repr, Inhabited

/-- The state of the cluster behind `clientset`: the stored objects, and for each kind of
request the error the API server answers with while it refuses or cannot serve that kind
(network failure, time-out, authorisation, admission, write conflict): `refuseGet` for
reads, `refuseDelete` and `refuseUpdate` for mutations. -/
structure Cluster where
  pods : List Pod
  nodes : List Node
  refuseGet : Option String := none
  refuseDelete : Option String := none
  refuseUpdate : Option String := none
  deriving DecidableEq, Repr, Inhabited

namespace Cluster

/-- The pod the cluster stores under a namespace and a name, if any. -/
def findPod (c : Cluster) (ns name : String) : Option Pod :=
  c.pods.find? (fun p => p.Namespace = ns ∧ p.Name = name)

/-- The node the cluster stores under a name, if any. -/
def findNode (c : Cluster) (name : String) : Option Node :=
  c.nodes.find? (fun n => n.Name = name)

/-- The call `Pods(namespace).Get(ctx, name, ...)`: the stored pod, or a not-found error, or
the error of a request that was not served. -/
def getPod (c : Cluster) (ns name : String) : Except String Pod :=
  match c.refuseGet with
  | some e => .error e
  | none =>
    match c.findPod ns name with
    | some p => .ok p
    | none => .error ("pods \"" ++ name ++ "\" not found")

/-- The call `Pods(namespace).Delete(ctx, name, ...)`: removes the stored pod; the API server
answers a not-found error when no such pod is stored. -/
def deletePod (c : Cluster) (ns name : String) : Except String Cluster :=
  match c.refuseDelete with
  | some e => .error e
  | none =>
    match c.findPod ns name with
    | none => .error ("pods \"" ++ name ++ "\" not found")
    | some _ => .ok { c with pods := c.pods.filter (fun p => ¬ (p.Namespace = ns ∧ p.Name = name)) }

/-- The call `Nodes().Get(ctx, name, ...)`. -/
def getNode (c : Cluster) (name : String) : Except String Node :=
  match c.refuseGet with
  | some e => .error e
  | none =>
    match c.findNode name with
    | some n => .ok n
    | none => .error ("nodes \"" ++ name ++ "\" not found")

/-- The call `Nodes().Update(ctx, node, ...)`: replaces the stored node of the same name. -/
def updateNode (c : Cluster) (node : Node) : Except String Cluster :=
  match c.refuseUpdate with
  | some e => .error e
  | none =>
    match c.findNode node.Name with
    | none => .error ("nodes \"" ++ node.Name ++ "\" not found")
    | some _ => .ok { c with nodes := c.nodes.map (fun n => if n.Name = node.Name then node else n) }

end Cluster

/-- A mutating request issued to the API server. -/
inductive ApiCall where
  | deletePod (ns name : String)
  | updateNode (node : Node)
  deriving DecidableEq, Repr

/-- A row of the `action_logs` table, as inserted by `logResponseAction`. -/
structure ActionLog where
  id : String
  incident_id : String
  action_type : String
  target : String
  status : String
  message : String
  deriving DecidableEq, Repr, Inhabited

/-- Everything `respond/main.go` reads and writes: the cluster behind `clientset`, the
`action_logs` table behind `db` with the error `db.Exec` answers with while the database
cannot take the statement, the entries written by `logger`, the mutating requests sent to
the API server so far (in order), the stream `uuid.New()` draws from, and the reading of
`time.Since(startTime).Milliseconds()`. -/
structure World where
  cluster : Cluster
  action_logs : List ActionLog := []
  dbFault : Option String := none
  output : List logging.SecurityEvent := []
  calls : List ApiCall := []
  uuids : Nat → String := fun n => "uuid-" ++ toString n
  drawn : Nat := 0
  elapsedMs : Int := 0

/-! ## respond/main.go -/

namespace respond

open logging

/-- Guardrails - protected namespaces. -/
def protectedNamespaces : List (String × Bool) :=
  [("kube-system", true), ("security-system", true)]

/-- The Go map read `protectedNamespaces[namespace]` (false for an absent key). -/
def isProtected (ns : String) : Bool :=
  (protectedNamespaces.lookup ns).getD false

/-- The Go comma-ok map read `_, ok := labels[key]`: whether the key is present. -/
def hasLabel (labels : List (String × String)) (key : String) : Bool :=
  (labels.lookup key).isSome

/-- The call `uuid.New().String()`: the next element of the stream. -/
def uuidNew (w : World) : String × World :=
  (w.uuids w.drawn, { w with drawn := w.drawn + 1 })

/-- The method `Logger.Log` of the logger built by `NewLogger("podwatch-respond", "orchestrator")`. -/
def loggerLog (event : SecurityEvent) (w : World) : World :=
  { w with output := w.output ++
      [{ event with Service := "podwatch-respond", Component := "orchestrator" }] }

/-- The method `Logger.Response`. -/
def loggerResponse (msg : String) (response : ResponseInfo) (target : TargetInfo)
    (incidentID : String) (w : World) : World :=
  loggerLog { Level := LevelInfo, Message := msg, Response := some response,
              Target := some target, IncidentID := incidentID } w

/-- The method `Logger.Info`. -/
def loggerInfo (msg : String) (metadata : List (String × String)) (w : World) : World :=
  loggerLog { Level := LevelInfo, Message := msg, Metadata := metadata } w

/-- The method `Logger.Error`. -/
def loggerError (msg : String) (err : String) (metadata : List (String × String))
    (w : World) : World :=
  loggerLog { Level := LevelError, Message := msg, Metadata := metadata ++ [("error", err)] } w

/-- The rows the INSERT of `row` adds to the table `action_logs`: the row, or nothing while
the database does not take the statement. -/
def inserted (w : World) (row : ActionLog) : List ActionLog :=
  match w.dbFault with
  | none => [row]
  | some _ => []

/-- The function `logResponseAction`: one INSERT into `action_logs`, whose failure is only
written to the logger, and one structured log entry. -/
def logResponseAction (incidentID actionType targetStr status message : String)
    (blocked : Bool) (blockReason : String) (target : TargetInfo) (w : World) : World :=
  let (actionID, w1) := uuidNew w
  -- Log to database
  let w2 : World :=
    match w1.dbFault with
    | none =>
      { w1 with action_logs := w1.action_logs ++
          [{ id := actionID, incident_id := incidentID, action_type := actionType,
             target := targetStr, status := status, message := message }] }
    | some err =>
      loggerError "Failed to log action to database" err [("action_id", actionID)] w1
  -- Structured log
  loggerLog { Level := LevelInfo, Message := message, IncidentID := incidentID,
              Target := some target,
              Response := some { Action := actionType, Status := status, Reason := message,
                                 Blocked := blocked, BlockReason := blockReason },
              Metadata := [("action_id", actionID)] } w2

def executeKillPod (alert : Alert) (ns podName : String) (target : TargetInfo)
    (w : World) : World :=
  if isProtected ns then
    logResponseAction alert.IncidentID ResponseKillPod podName StatusBlocked
      "Protected namespace" true "Namespace is protected" target w
  else if ns = "" ∨ podName = "" then
    logResponseAction alert.IncidentID ResponseKillPod "unknown" StatusFailed
      "Missing namespace or pod name" false "" target w
  else
    let w1 : World := { w with calls := w.calls ++ [ApiCall.deletePod ns podName] }
    let duration := w1.elapsedMs
    match w1.cluster.deletePod ns podName with
    | .error err =>
      let w2 := logResponseAction alert.IncidentID ResponseKillPod (ns ++ "/" ++ podName)
        StatusFailed err false "" target w1
      loggerResponse "Pod termination failed"
        { Action := ResponseKillPod, Status := StatusFailed, Reason := err,
          Duration := duration } target alert.IncidentID w2
    | .ok c =>
      let w2 := logResponseAction alert.IncidentID ResponseKillPod (ns ++ "/" ++ podName)
        StatusSuccess "Pod terminated" false "" target { w1 with cluster := c }
      loggerResponse "Pod terminated successfully"
        { Action := ResponseKillPod, Status := StatusSuccess,
          Reason := "Malicious activity detected", Duration := duration }
        target alert.IncidentID w2

def executeQuarantineNamespace (alert : Alert) (ns : String) (target : TargetInfo)
    (w : World) : World :=
  if isProtected ns then
    logResponseAction alert.IncidentID ResponseQuarantineNS ns StatusBlocked
      "Protected namespace" true "Namespace is protected" target w
  else if ns = "" then
    logResponseAction alert.IncidentID ResponseQuarantineNS "unknown" StatusFailed
      "Missing namespace" false "" target w
  else
    let duration := w.elapsedMs
    let w1 := logResponseAction alert.IncidentID ResponseQuarantineNS ns StatusSuccess
      "NetworkPolicy applied" false "" target w
    loggerResponse "Namespace quarantined"
      { Action := ResponseQuarantineNS, Status := StatusSuccess,
        Reason := "Lateral movement prevention", Duration := duration,
        Playbook := "quarantine_namespace" } target alert.IncidentID w1

def executeIsolateNode (alert : Alert) (nodeName : String) (target : TargetInfo)
    (w : World) : World :=
  if nodeName = "" then
    logResponseAction alert.IncidentID ResponseIsolateNode "unknown" StatusFailed
      "Missing node name" false "" target w
  else
    match w.cluster.getNode nodeName with
    | .error err =>
      logResponseAction alert.IncidentID ResponseIsolateNode nodeName StatusFailed
        err false "" target w
    | .ok node =>
      -- Never isolate control plane
      if hasLabel node.Labels "node-role.kubernetes.io/control-plane" then
        logResponseAction alert.IncidentID ResponseIsolateNode nodeName StatusBlocked
          "Control plane node" true "Cannot isolate control plane" target w
      else if hasLabel node.Labels "node-role.kubernetes.io/master" then
        logResponseAction alert.IncidentID ResponseIsolateNode nodeName StatusBlocked
          "Master node" true "Cannot isolate master node" target w
      else
        let node1 : Node := { node with Unschedulable := true }
        let w1 : World := { w with calls := w.calls ++ [ApiCall.updateNode node1] }
        let duration := w1.elapsedMs
        match w1.cluster.updateNode node1 with
        | .error err =>
          logResponseAction alert.IncidentID ResponseIsolateNode nodeName StatusFailed
            err false "" target w1
        | .ok c =>
          let w2 := logResponseAction alert.IncidentID ResponseIsolateNode nodeName
            StatusSuccess "Node cordoned" false "" target { w1 with cluster := c }
          loggerResponse "Node isolated"
            { Action := ResponseIsolateNode, Status := StatusSuccess,
              Reason := "Contain potential breach", Duration := duration,
              Playbook := "isolate_node" } target alert.IncidentID w2

def executeEvidenceBundle (alert : Alert) (target : TargetInfo) (w : World) : World :=
  let (bundleID, w1) := uuidNew w
  let w2 := logResponseAction alert.IncidentID ResponseEvidenceBundle bundleID StatusSuccess
    "Evidence collected" false "" target w1
  loggerResponse "Evidence bundle created"
    { Action := ResponseEvidenceBundle, Status := StatusSuccess,
      Reason := "Forensic preservation", Playbook := "evidence_bundle" }
    target alert.IncidentID w2

/-- The namespace, pod name, node name and target record that `handleAlert` reads off the
alert (the block under "Build target info"). -/
def buildTarget (alert : Alert) : String × String × String × TargetInfo :=
  match alert.Event with
  | none => ("", "", "", {})
  | some ev =>
    match ev.Container with
    | none => ("", "", ev.NodeID, { Node := ev.NodeID, ClusterID := ev.ClusterID })
    | some ct =>
      (ct.Namespace, ct.Pod, ev.NodeID,
        { Namespace := ct.Namespace, Pod := ct.Pod, ContainerID := ct.ContainerID,
          Image := ct.Image, Node := ev.NodeID, ClusterID := ev.ClusterID })

/-- The switch of `handleAlert` under "Execute response". -/
def executeResponse (alert : Alert) (ns podName nodeName : String) (target : TargetInfo)
    (w : World) : World :=
  if alert.Response = "kill_pod" then executeKillPod alert ns podName target w
  else if alert.Response = "quarantine_namespace" then
    executeQuarantineNamespace alert ns target w
  else if alert.Response = "isolate_node" then executeIsolateNode alert nodeName target w
  else if alert.Response = "evidence_bundle" then executeEvidenceBundle alert target w
  else
    loggerInfo "Unknown response action"
      [("action", alert.Response), ("alert_id", alert.ID), ("incident_id", alert.IncidentID)] w

/-- The handler `handleAlert`; `decoded` is the outcome of `json.Unmarshal(msg.Data, &alert)`. -/
def handleAlert (decoded : Except String Alert) (w : World) : World :=
  match decoded with
  | .error err => loggerError "Failed to decode alert" err [] w
  | .ok alert =>
    if alert.Response = "" then w
    else
      match buildTarget alert with
      | (ns, podName, nodeName, target) =>
        -- Check manual response label
        if ns ≠ "" ∧ podName ≠ "" then
          match w.cluster.getPod ns podName with
          | .ok pod =>
            if (pod.Labels.lookup "security.response").getD "" = "manual" then
              logResponseAction alert.IncidentID alert.Response podName StatusSkipped
                "Pod has security.response=manual label" true "Manual override label" target w
            else executeResponse alert ns podName nodeName target w
          | .error _ => executeResponse alert ns podName nodeName target w
        else executeResponse alert ns podName nodeName target w

/-- The manual-override guardrail as `handleAlert` decides it: the alert names a pod
(non-empty namespace and pod name), the `Get` of that pod is answered with a pod, and the
pod carries the label `security.response=manual`. -/
def manualOverride (c : Cluster) (ns podName : String) : Bool :=
  ns ≠ "" && podName ≠ "" &&
    match c.getPod ns podName with
    | .ok pod => pod.Labels.lookup "security.response" == some "manual"
    | .error _ => false

/-! ### Concrete alerts and worlds used to evaluate the orchestrator -/

/-- A container record for pod `podName` in namespace `ns`. -/
def containerIn (ns podName : String) : ContainerInfo :=
  { ContainerID := "containerd://abc123", Image := "nginx:1.25", ImageDigest := "",
    Pod := podName, Namespace := ns, ServiceAccount := "default", Labels := none }

/-- A process-exec event observed on node `nodeName` in the given container. -/
def eventOn (nodeName : String) (ct : Option ContainerInfo) : RuntimeEvent :=
  { Timestamp := 0, ClusterID := "kind-local", NodeID := nodeName, EventType := "process_exec",
    EventID := "test-001", Process := none, Container := ct, Network := none, RawRef := "" }

/-- An alert of incident `inc-1` asking for `response` on the given event. -/
def alertFor (response : String) (ev : Option RuntimeEvent) : Alert :=
  { ID := "alert-1", Timestamp := 0, RuleName := "Shell Spawn in Prod", Severity := "high",
    Description := "Shell spawned in production", Event := ev, IncidentID := "inc-1",
    Response := response }

/-- A world over the given cluster, with empty tables and logs. -/
def worldOf (c : Cluster) : World := { cluster := c }

/-- A cluster with one control-plane node and one worker node, and one workload pod. -/
def smallCluster : Cluster :=
  { pods := [{ Namespace := "prod", Name := "p1", Labels := [("app", "web")] }],
    nodes := [{ Name := "cp-1", Labels := [("node-role.kubernetes.io/control-plane", "")],
                Unschedulable := false },
              { Name := "worker-1", Labels := [], Unschedulable := false }] }

end respond

/-! ## detect/matcher/matcher.go -/

namespace matcher

/-- A dynamically typed value: what `json.Unmarshal` builds in an `interface{}` and what a
CEL program reads and returns. -/
inductive Value where
  | null
  | bool (b : Bool)
  | num (n : Int)
  | str (s : String)
  | list (xs : List Value)
  | map (kvs : List (String × Value))
  deriving Repr, Inhabited

/-- JSON object of a `ProcessInfo` (`capabilities_added` is `omitempty`). -/
def processJSON (p : ProcessInfo) : Value :=
  .map ([("pid", .num p.PID), ("ppid", .num p.PPID), ("uid", .num p.UID), ("gid", .num p.GID),
         ("exe", .str p.Exe), ("cmdline", .str p.Cmdline), ("cwd", .str p.Cwd),
         ("has_tty", .bool p.HasTTY)] ++
        (if p.CapabilitiesAdded = [] then []
         else [("capabilities_added", .list (p.CapabilitiesAdded.map Value.str))]))

/-- JSON object of a `ContainerInfo` (a nil `labels` map is written as `null`). -/
def containerJSON (c : ContainerInfo) : Value :=
  .map [("container_id", .str c.ContainerID), ("image", .str c.Image),
        ("image_digest", .str c.ImageDigest), ("pod", .str c.Pod),
        ("namespace", .str c.Namespace), ("service_account", .str c.ServiceAccount),
        ("labels", match c.Labels with
                   | none => .null
                   | some kvs => .map (kvs.map (fun kv => (kv.1, Value.str kv.2))))]

/-- JSON object of a `NetworkInfo`. -/
def networkJSON (n : NetworkInfo) : Value :=
  .map [("dst_ip", .str n.DstIP), ("dst_port", .num n.DstPort), ("proto", .str n.Proto),
        ("dst_domain", .str n.DstDomain)]

/-- The JSON object the struct tags of `RuntimeEvent` describe, with the RFC 3339 text of
the timestamp. The three sub-documents and `raw_ref` are `omitempty`. -/
def eventJSON (e : RuntimeEvent) : Value :=
  .map ([("ts", .str e.Timestamp.formatRFC3339), ("cluster_id", .str e.ClusterID),
         ("node_id", .str e.NodeID), ("event_type", .str e.EventType),
         ("event_id", .str e.EventID)] ++
        (match e.Process with
         | none => []
         | some p => [("process", processJSON p)]) ++
        (match e.Container with
         | none => []
         | some c => [("container", containerJSON c)]) ++
        (match e.Network with
         | none => []
         | some n => [("network", networkJSON n)]) ++
        (if e.RawRef = "" then [] else [("raw_ref", .str e.RawRef)]))

mutual
/-- What `json.Unmarshal` builds in an `interface{}` from a document: the same value, with
every number a `float64`. -/
def Value.decoded : Value → Value
  | .null => .null
  | .bool b => .bool b
  | .num n => .num (float64 n)
  | .str s => .str s
  | .list xs => .list (Value.decodedList xs)
  | .map kvs => .map (Value.decodedMap kvs)
/-- The elements of a decoded array. -/
def Value.decodedList : List Value → List Value
  | [] => []
  | x :: xs => Value.decoded x :: Value.decodedList xs
/-- The entries of a decoded object. -/
def Value.decodedMap : List (String × Value) → List (String × Value)
  | [] => []
  | (k, x) :: xs => (k, Value.decoded x) :: Value.decodedMap xs
end

/-- The `inputMap` of `Evaluate`: the event after `json.Marshal` and `json.Unmarshal` into
a `map[string]interface{}`. -/
def inputMap (e : RuntimeEvent) : Value := (eventJSON e).decoded

/-- The call `json.Marshal(event)`, read as a JSON document: the object `eventJSON`, unless
`Time.MarshalJSON` refuses the timestamp. No other field of a `RuntimeEvent` has an
encoding that can fail. -/
def Marshal (e : RuntimeEvent) : Except String Value :=
  match e.Timestamp.MarshalJSON with
  | .error err => .error ("json: error calling MarshalJSON for type time.Time: " ++ err)
  | .ok _ => .ok (eventJSON e)

/-- The CEL environment `cel.NewEnv` returns for the fixed declaration of the variable
`event` as `map(string, dyn)`, with the three library calls the engine makes on it:
`env.Compile` (an error stands for `issues.Err() != nil`), `env.Program`, and `prg.Eval`
(the result `none` stands for a nil `out`). The library itself is outside the repository,
so the engine is modelled over an arbitrary such environment. -/
structure CelEnv where
  Ast : Type
  Prg : Type
  Compile : String → Except String Ast
  Program : Ast → Except String Prg
  Eval : Prg → Value → Except String (Option Value)

/-- The Go map write `m[key] = value`. -/
def mapSet {β : Type} (m : List (String × β)) (key : String) (value : β) : List (String × β) :=
  (key, value) :: m.filter (fun kv => kv.1 ≠ key)

structure RuleEngine (env : CelEnv) where
  rules : List Rule
  programs : List (String × env.Prg)

/-- The loop of `CompileAll` over the remaining rules: the programs map as it stands when
the loop ends, and the error it returns, if any. -/
def compileLoop (env : CelEnv) :
    List Rule → List (String × env.Prg) → List (String × env.Prg) × Option String
  | [], programs => (programs, none)
  | rule :: rest, programs =>
    if ¬ rule.Enabled then compileLoop env rest programs
    else
      match env.Compile rule.Condition with
      | .error e => (programs, some ("rule " ++ rule.Name ++ " compile error: " ++ e))
      | .ok ast =>
        match env.Program ast with
        | .error e => (programs, some ("rule " ++ rule.Name ++ " program error: " ++ e))
        | .ok prg => compileLoop env rest (mapSet programs rule.ID prg)

/-- The method `CompileAll`: fills `re.programs` in place and returns the error, if any. -/
def RuleEngine.CompileAll {env : CelEnv} (re : RuleEngine env) : RuleEngine env × Option String :=
  ({ re with programs := (compileLoop env re.rules re.programs).1 },
    (compileLoop env re.rules re.programs).2)

/-- The constructor `NewRuleEngine`, over the environment `cel.NewEnv` produced. -/
def NewRuleEngine (env : CelEnv) (rules : List Rule) : Except String (RuleEngine env) :=
  let re : RuleEngine env := { rules := rules, programs := [] }
  match re.CompileAll with
  | (_, some err) => .error err
  | (re1, none) => .ok re1

/-- The alert `Evaluate` appends when `rule` matches `event` (`ID` and `IncidentID` are
assigned later, `Timestamp` keeps the zero value). -/
def alertOf (event : RuntimeEvent) (rule : Rule) : Alert :=
  { ID := "", Timestamp := zeroTime, RuleName := rule.Name, Severity := rule.Severity,
    Description := rule.Description, Event := some event, IncidentID := "",
    Response := rule.Response }

/-- The loop of `Evaluate` over the remaining rules, `alerts` being the slice built so far.
The line `log.Printf` writes on an evaluation error is not modelled. -/
def evaluateLoop (env : CelEnv) (programs : List (String × env.Prg)) (input : Value)
    (event : RuntimeEvent) : List Rule → List Alert → List Alert
  | [], alerts => alerts
  | rule :: rest, alerts =>
    if ¬ rule.Enabled then evaluateLoop env programs input event rest alerts
    else
      match programs.lookup rule.ID with
      | none => evaluateLoop env programs input event rest alerts
      | some prg =>
        match env.Eval prg input with
        | .error _ => evaluateLoop env programs input event rest alerts
        | .ok none => evaluateLoop env programs input event rest alerts
        | .ok (some (.bool true)) =>
          evaluateLoop env programs input event rest (alerts ++ [alertOf event rule])
        | .ok (some _) => evaluateLoop env programs input event rest alerts

/-- The method `Evaluate`. When `json.Marshal` refuses the event, the method returns the
error and no alert. The second early return, on `json.Unmarshal`, is never taken: the text
`json.Marshal` wrote for a struct is a JSON object, which decodes into a
`map[string]interface{}`. -/
def RuleEngine.Evaluate {env : CelEnv} (re : RuleEngine env) (event : RuntimeEvent) :
    Except String (List Alert) :=
  -- Convert event to map for CEL evaluation
  match Marshal event with
  | .error err => .error err
  | .ok eventJSON =>
    let inputMap := eventJSON.decoded
    let input : Value := .map [("event", inputMap)]
    .ok (evaluateLoop env re.programs input event re.rules [])

/-- Compiling one condition: `env.Compile` followed by `env.Program`. -/
def compileRule (env : CelEnv) (condition : String) : Option env.Prg :=
  match env.Compile condition with
  | .error _ => none
  | .ok ast =>
    match env.Program ast with
    | .error _ => none
    | .ok prg => some prg

/-- Whether the rule's own condition compiles and evaluates to the boolean `true` on the
event. -/
def ruleHolds (env : CelEnv) (event : RuntimeEvent) (rule : Rule) : Bool :=
  match compileRule env rule.Condition with
  | none => false
  | some prg =>
    match env.Eval prg (.map [("event", inputMap event)]) with
    | .ok (some (.bool true)) => true
    | _ => false

/-! ### A concrete environment: the rules of `BenchmarkRuleEvaluation` -/

mutual
/-- Equality of dynamic values, as the CEL operator `==` decides it. -/
def Value.beq : Value → Value → Bool
  | .null, .null => true
  | .bool a, .bool b => a == b
  | .num a, .num b => a == b
  | .str a, .str b => a == b
  | .list xs, .list ys => Value.beqList xs ys
  | .map xs, .map ys => Value.beqMap xs ys
  | _, _ => false
/-- Equality of lists of dynamic values. -/
def Value.beqList : List Value → List Value → Bool
  | [], [] => true
  | x :: xs, y :: ys => Value.beq x y && Value.beqList xs ys
  | _, _ => false
/-- Equality of the entry lists of two maps. -/
def Value.beqMap : List (String × Value) → List (String × Value) → Bool
  | [], [] => true
  | (k, x) :: xs, (l, y) :: ys => k == l && Value.beq x y && Value.beqMap xs ys
  | _, _ => false
end

/-- The expressions the benchmark rules are made of: literals, the variable, field
selection and equality. -/
inductive Expr where
  | lit (v : Value)
  | ident (name : String)
  | select (operand : Expr) (field : String)
  | eq (lhs rhs : Expr)
  deriving Repr, Inhabited

/-- Evaluation of an expression on the activation `vars`; selecting a field that the map
does not hold is an evaluation error. -/
def Expr.eval (vars : Value) : Expr → Except String Value
  | .lit v => .ok v
  | .ident name =>
    match vars with
    | .map kvs =>
      match kvs.lookup name with
      | some v => .ok v
      | none => .error ("undeclared reference to " ++ name)
    | _ => .error ("undeclared reference to " ++ name)
  | .select operand field =>
    match operand.eval vars with
    | .error e => .error e
    | .ok (.map kvs) =>
      match kvs.lookup field with
      | some v => .ok v
      | none => .error ("no such key: " ++ field)
    | .ok _ => .error ("no such key: " ++ field)
  | .eq lhs rhs =>
    match lhs.eval vars with
    | .error e => .error e
    | .ok x =>
      match rhs.eval vars with
      | .error e => .error e
      | .ok y => .ok (.bool (Value.beq x y))

/-- The field path `event.a.b`. -/
def eventField (a b : String) : Expr := .select (.select (.ident "event") a) b

/-- An environment that compiles the three rule texts of `BenchmarkRuleEvaluation` and
rejects every other text with a compile error. -/
def benchEnv : CelEnv where
  Ast := Expr
  Prg := Expr
  Compile := fun src =>
    if src = "event.process.exe == '/bin/bash'" then
      .ok (.eq (eventField "process" "exe") (.lit (.str "/bin/bash")))
    else if src = "event.container.namespace == 'prod'" then
      .ok (.eq (eventField "container" "namespace") (.lit (.str "prod")))
    else if src = "event.process.uid == 0" then
      .ok (.eq (eventField "process" "uid") (.lit (.num 0)))
    else .error "Syntax error"
  Program := fun ast => .ok ast
  Eval := fun prg input => (prg.eval input).map some

/-- A rule with the given id, name, condition and enabled flag. -/
def benchRule (id name condition : String) (enabled : Bool) : Rule :=
  { ID := id, Name := name, Description := "", Severity := "high", Condition := condition,
    Response := "", Enabled := enabled }

/-- The rule list of `BenchmarkRuleEvaluation`. -/
def benchRules : List Rule :=
  [benchRule "r1" "Rule 1" "event.process.exe == '/bin/bash'" true,
   benchRule "r2" "Rule 2" "event.container.namespace == 'prod'" true,
   benchRule "r3" "Rule 3" "event.process.uid == 0" true]

/-- The engine `NewRuleEngine` builds from `benchRules`. -/
def benchEngine : RuleEngine benchEnv :=
  { rules := benchRules,
    programs :=
      [("r3", .eq (eventField "process" "uid") (.lit (.num 0))),
       ("r2", .eq (eventField "container" "namespace") (.lit (.str "prod"))),
       ("r1", .eq (eventField "process" "exe") (.lit (.str "/bin/bash")))] }

/-- An event of `/bin/bash` run by uid 0 in a container of the given namespace. -/
def benchEvent (ns : String) : RuntimeEvent :=
  { Timestamp := 0, ClusterID := "", NodeID := "", EventType := "", EventID := "",
    Process := some { PID := 0, PPID := 0, UID := 0, GID := 0, Exe := "/bin/bash",
                      Cmdline := "", Cwd := "", HasTTY := false, CapabilitiesAdded := [] },
    Container := some { ContainerID := "", Image := "", ImageDigest := "", Pod := "",
                        Namespace := ns, ServiceAccount := "", Labels := none },
    Network := none, RawRef := "" }

/-- The first instant of the year 10000, in UTC: a time `Time.MarshalJSON` refuses. -/
def yearTenThousand : Time := { unixNano := 253402300800 * 1000000000 }

/-- The event `e` stamped at the first instant of the year 10000. -/
def stampedLate (e : RuntimeEvent) : RuntimeEvent := { e with Timestamp := yearTenThousand }

/-! ### The predicate language: the fragment of CEL the rules of the repository use

The library `cel-go` is outside the repository. `celEnv` below is an executable model of
the environment it provides, for the fragment the rule texts of `detect/main.go` and of
the tests are written in: literals, list literals, field selection, `==`, `!=`, `in`,
`&&`, `||`, `!`, the string functions and the macro `exists`. -/

/-- Tokens of the predicate language. -/
inductive Token where
  | ident (name : String)
  | str (s : String)
  | int (n : Nat)
  | sym (s : String)
  deriving DecidableEq, Repr, Inhabited

/-- Splitting the source text into tokens; `none` on a character no token starts with, on
an unterminated string literal and on an escape sequence. -/
def tokenize : Nat → List Char → Option (List Token)
  | 0, _ => none
  | _ + 1, [] => some []
  | fuel + 1, c :: cs =>
    if c.isWhitespace then tokenize fuel cs
    else if c = Char.ofNat 39 ∨ c = Char.ofNat 34 then
      let body := cs.takeWhile (fun x => x ≠ c)
      if body.contains (Char.ofNat 92) then none
      else
        match cs.dropWhile (fun x => x ≠ c) with
        | [] => none
        | _ :: rest => (tokenize fuel rest).map (fun ts => Token.str (String.mk body) :: ts)
    else if c.isDigit then
      let digits := c :: cs.takeWhile Char.isDigit
      (tokenize fuel (cs.dropWhile Char.isDigit)).map
        (fun ts => Token.int (digits.foldl (fun a d => 10 * a + (d.toNat - 48)) 0) :: ts)
    else if c.isAlpha ∨ c = '_' then
      let name := c :: cs.takeWhile (fun x => x.isAlphanum ∨ x = '_')
      (tokenize fuel (cs.dropWhile (fun x => x.isAlphanum ∨ x = '_'))).map
        (fun ts => Token.ident (String.mk name) :: ts)
    else
      match c, cs with
      | '=', '=' :: rest => (tokenize fuel rest).map (fun ts => Token.sym "==" :: ts)
      | '!', '=' :: rest => (tokenize fuel rest).map (fun ts => Token.sym "!=" :: ts)
      | '&', '&' :: rest => (tokenize fuel rest).map (fun ts => Token.sym "&&" :: ts)
      | '|', '|' :: rest => (tokenize fuel rest).map (fun ts => Token.sym "||" :: ts)
      | _, _ =>
        if c = '.' ∨ c = ',' ∨ c = '(' ∨ c = ')' ∨ c = '[' ∨ c = ']' ∨ c = '!' then
          (tokenize fuel cs).map (fun ts => Token.sym (String.mk [c]) :: ts)
        else none


/-- Expressions of the predicate language. -/
inductive CelExpr where
  | lit (v : Value)
  | ident (name : String)
  | select (operand : CelExpr) (field : String)
  | call (target : CelExpr) (method : String) (arg : CelExpr)
  | exists (range : CelExpr) (var : String) (body : CelExpr)
  | not (operand : CelExpr)
  | and (lhs rhs : CelExpr)
  | or (lhs rhs : CelExpr)
  | eq (lhs rhs : CelExpr)
  | ne (lhs rhs : CelExpr)
  | isIn (lhs rhs : CelExpr)
  deriving Repr, Inhabited

/-- The elements of a list literal after `[`: literals separated by commas, up to `]`. -/
def parseItems : Nat → List Token → Option (List Value × List Token)
  | 0, _ => none
  | _ + 1, Token.sym "]" :: rest => some ([], rest)
  | fuel + 1, Token.str s :: Token.sym "," :: rest =>
    (parseItems fuel rest).map (fun r => (Value.str s :: r.1, r.2))
  | fuel + 1, Token.int n :: Token.sym "," :: rest =>
    (parseItems fuel rest).map (fun r => (Value.num n :: r.1, r.2))
  | _ + 1, Token.str s :: Token.sym "]" :: rest => some ([Value.str s], rest)
  | _ + 1, Token.int n :: Token.sym "]" :: rest => some ([Value.num n], rest)
  | _, _ => none

mutual
/-- Disjunctions: `a || b || ...`. -/
def parseOr : Nat → List Token → Option (CelExpr × List Token)
  | 0, _ => none
  | fuel + 1, ts =>
    match parseAnd fuel ts with
    | none => none
    | some (lhs, rest) => parseOrRest fuel lhs rest
/-- The operands of a disjunction after the first. -/
def parseOrRest : Nat → CelExpr → List Token → Option (CelExpr × List Token)
  | 0, _, _ => none
  | fuel + 1, lhs, Token.sym "||" :: ts =>
    match parseAnd fuel ts with
    | none => none
    | some (rhs, rest) => parseOrRest fuel (.or lhs rhs) rest
  | _ + 1, lhs, ts => some (lhs, ts)
/-- Conjunctions: `a && b && ...`. -/
def parseAnd : Nat → List Token → Option (CelExpr × List Token)
  | 0, _ => none
  | fuel + 1, ts =>
    match parseRel fuel ts with
    | none => none
    | some (lhs, rest) => parseAndRest fuel lhs rest
/-- The operands of a conjunction after the first. -/
def parseAndRest : Nat → CelExpr → List Token → Option (CelExpr × List Token)
  | 0, _, _ => none
  | fuel + 1, lhs, Token.sym "&&" :: ts =>
    match parseRel fuel ts with
    | none => none
    | some (rhs, rest) => parseAndRest fuel (.and lhs rhs) rest
  | _ + 1, lhs, ts => some (lhs, ts)
/-- Relations: `a == b`, `a != b`, `a in b`. -/
def parseRel : Nat → List Token → Option (CelExpr × List Token)
  | 0, _ => none
  | fuel + 1, ts =>
    match parseUnary fuel ts with
    | none => none
    | some (lhs, Token.sym "==" :: rest) =>
      (parseUnary fuel rest).map (fun r => (.eq lhs r.1, r.2))
    | some (lhs, Token.sym "!=" :: rest) =>
      (parseUnary fuel rest).map (fun r => (.ne lhs r.1, r.2))
    | some (lhs, Token.ident "in" :: rest) =>
      (parseUnary fuel rest).map (fun r => (.isIn lhs r.1, r.2))
    | some (lhs, rest) => some (lhs, rest)
/-- Negations: `!a`. -/
def parseUnary : Nat → List Token → Option (CelExpr × List Token)
  | 0, _ => none
  | fuel + 1, Token.sym "!" :: ts => (parseUnary fuel ts).map (fun r => (.not r.1, r.2))
  | fuel + 1, ts =>
    match parsePrimary fuel ts with
    | none => none
    | some (e, rest) => parseMember fuel e rest
/-- Field selections and method calls after an operand: `e.f`, `e.m(a)`, `e.exists(x, p)`. -/
def parseMember : Nat → CelExpr → List Token → Option (CelExpr × List Token)
  | 0, _, _ => none
  | fuel + 1, e, Token.sym "." :: Token.ident "exists" :: Token.sym "(" :: Token.ident x ::
      Token.sym "," :: ts =>
    match parseOr fuel ts with
    | some (body, Token.sym ")" :: rest) => parseMember fuel (.exists e x body) rest
    | _ => none
  | fuel + 1, e, Token.sym "." :: Token.ident m :: Token.sym "(" :: ts =>
    match parseOr fuel ts with
    | some (arg, Token.sym ")" :: rest) => parseMember fuel (.call e m arg) rest
    | _ => none
  | fuel + 1, e, Token.sym "." :: Token.ident f :: ts => parseMember fuel (.select e f) ts
  | _ + 1, e, ts => some (e, ts)
/-- Operands: literals, identifiers, list literals and parenthesised expressions. -/
def parsePrimary : Nat → List Token → Option (CelExpr × List Token)
  | 0, _ => none
  | _ + 1, Token.str s :: ts => some (.lit (.str s), ts)
  | _ + 1, Token.int n :: ts => some (.lit (.num n), ts)
  | _ + 1, Token.ident "true" :: ts => some (.lit (.bool true), ts)
  | _ + 1, Token.ident "false" :: ts => some (.lit (.bool false), ts)
  | _ + 1, Token.ident "null" :: ts => some (.lit .null, ts)
  | _ + 1, Token.ident x :: ts => some (.ident x, ts)
  | fuel + 1, Token.sym "[" :: ts =>
    (parseItems fuel ts).map (fun r => (.lit (.list r.1), r.2))
  | fuel + 1, Token.sym "(" :: ts =>
    match parseOr fuel ts with
    | some (e, Token.sym ")" :: rest) => some (e, rest)
    | _ => none
  | _, _ => none
end

/-- Parsing a source text: the whole text must be one expression. -/
def parse (src : String) : Except String CelExpr :=
  match tokenize (src.length + 1) src.toList with
  | none => .error "Syntax error: token recognition error"
  | some ts =>
    match parseOr (8 * ts.length + 8) ts with
    | some (e, []) => .ok e
    | _ => .error "Syntax error: mismatched input"


/-- The types the checker of the predicate language assigns: `dyn` is the type of what is
read out of the event, `map` the declared type `map(string, dyn)` of `event`. -/
inductive CelType where
  | dyn
  | bool
  | int
  | string
  | null
  | list (elem : CelType)
  | map
  deriving DecidableEq, Repr, Inhabited

/-- Whether an operand of type `a` can stand where type `b` is asked for: the types agree,
or one of them (for lists, their element types) is `dyn`. -/
def CelType.agrees : CelType → CelType → Bool
  | .dyn, _ => true
  | _, .dyn => true
  | .list a, .list b => CelType.agrees a b
  | .bool, .bool => true
  | .int, .int => true
  | .string, .string => true
  | .null, .null => true
  | .map, .map => true
  | _, _ => false

/-- The type of a literal. The elements of a list literal are strings and integers; a
list literal that mixes them has element type `dyn`. -/
def litType : Value → CelType
  | .null => .null
  | .bool _ => .bool
  | .num _ => .int
  | .str _ => .string
  | .list [] => .list .dyn
  | .list (.str _ :: rest) =>
    if rest.all (fun v => match v with | .str _ => true | _ => false) then .list .string
    else .list .dyn
  | .list (.num _ :: rest) =>
    if rest.all (fun v => match v with | .num _ => true | _ => false) then .list .int
    else .list .dyn
  | .list _ => .list .dyn
  | .map _ => .map

/-- The type of the elements an `in` or an `exists` ranges over: the elements of a list,
the keys of a map; `none` when the operand is neither. -/
def rangeType : CelType → Option CelType
  | .dyn => some .dyn
  | .list a => some a
  | .map => some .string
  | _ => none

/-- The type checker: the type of an expression, or `none` when an identifier is not
declared, a method is not one of the string functions, or an operator has no overload for
the types of its operands. `scope` lists the declared variables with their types. -/
def check : CelExpr → List (String × CelType) → Option CelType
  | .lit v, _ => some (litType v)
  | .ident name, scope => scope.lookup name
  | .select operand _, scope =>
    match check operand scope with
    | some .dyn => some .dyn
    | some .map => some .dyn
    | _ => none
  | .call target method arg, scope =>
    match check target scope, check arg scope with
    | some t, some a =>
      if (method = "contains" ∨ method = "startsWith" ∨ method = "endsWith") ∧
          CelType.agrees t .string = true ∧ CelType.agrees a .string = true then some .bool
      else none
    | _, _ => none
  | .exists range var body, scope =>
    match check range scope with
    | none => none
    | some r =>
      match rangeType r with
      | none => none
      | some elem =>
        match check body ((var, elem) :: scope) with
        | some b => if CelType.agrees b .bool then some .bool else none
        | none => none
  | .not operand, scope =>
    match check operand scope with
    | some t => if CelType.agrees t .bool then some .bool else none
    | none => none
  | .and lhs rhs, scope =>
    match check lhs scope, check rhs scope with
    | some a, some b =>
      if CelType.agrees a .bool ∧ CelType.agrees b .bool then some .bool else none
    | _, _ => none
  | .or lhs rhs, scope =>
    match check lhs scope, check rhs scope with
    | some a, some b =>
      if CelType.agrees a .bool ∧ CelType.agrees b .bool then some .bool else none
    | _, _ => none
  | .eq lhs rhs, scope =>
    match check lhs scope, check rhs scope with
    | some a, some b => if CelType.agrees a b then some .bool else none
    | _, _ => none
  | .ne lhs rhs, scope =>
    match check lhs scope, check rhs scope with
    | some a, some b => if CelType.agrees a b then some .bool else none
    | _, _ => none
  | .isIn lhs rhs, scope =>
    match check lhs scope, check rhs scope with
    | some a, some b =>
      match rangeType b with
      | some elem => if CelType.agrees a elem then some .bool else none
      | none => none
    | _, _ => none

/-- The operator `&&`: false when either side is false, whatever the other side is. -/
def celAnd (a b : Except String Value) : Except String Value :=
  match a, b with
  | .ok (.bool false), _ => .ok (.bool false)
  | _, .ok (.bool false) => .ok (.bool false)
  | .ok (.bool true), .ok (.bool true) => .ok (.bool true)
  | .error e, _ => .error e
  | _, .error e => .error e
  | _, _ => .error "no such overload"

/-- The operator `||`: true when either side is true, whatever the other side is. -/
def celOr (a b : Except String Value) : Except String Value :=
  match a, b with
  | .ok (.bool true), _ => .ok (.bool true)
  | _, .ok (.bool true) => .ok (.bool true)
  | .ok (.bool false), .ok (.bool false) => .ok (.bool false)
  | .error e, _ => .error e
  | _, .error e => .error e
  | _, _ => .error "no such overload"

/-- Whether `sub` occurs in `s` as a run of consecutive characters. -/
def containsChars (s sub : List Char) : Bool :=
  s.tails.any (fun t => sub.isPrefixOf t)

/-- The string functions `contains`, `startsWith` and `endsWith`. -/
def celStringCall (method : String) (target arg : Value) : Except String Value :=
  match target, arg with
  | .str s, .str t =>
    if method = "contains" then .ok (.bool (containsChars s.toList t.toList))
    else if method = "startsWith" then .ok (.bool (t.toList.isPrefixOf s.toList))
    else if method = "endsWith" then .ok (.bool (t.toList.isSuffixOf s.toList))
    else .error "no such overload"
  | _, _ => .error "no such overload"

/-- Evaluation of an expression; `vars` binds the variables in scope. Reading a field a
map does not hold is an evaluation error. -/
def CelExpr.eval : CelExpr → List (String × Value) → Except String Value
  | .lit v, _ => .ok v
  | .ident name, vars =>
    match vars.lookup name with
    | some v => .ok v
    | none => .error ("undeclared reference to " ++ name)
  | .select operand field, vars =>
    match operand.eval vars with
    | .error e => .error e
    | .ok (.map kvs) =>
      match kvs.lookup field with
      | some v => .ok v
      | none => .error ("no such key: " ++ field)
    | .ok _ => .error ("no such key: " ++ field)
  | .call target method arg, vars =>
    match target.eval vars with
    | .error e => .error e
    | .ok t =>
      match arg.eval vars with
      | .error e => .error e
      | .ok a => celStringCall method t a
  | .exists range var body, vars =>
    match range.eval vars with
    | .error e => .error e
    | .ok (.list xs) =>
      xs.foldl (fun acc x => celOr acc (body.eval ((var, x) :: vars))) (.ok (.bool false))
    | .ok (.map kvs) =>
      kvs.foldl (fun acc kv => celOr acc (body.eval ((var, .str kv.1) :: vars)))
        (.ok (.bool false))
    | .ok _ => .error "no such overload"
  | .not operand, vars =>
    match operand.eval vars with
    | .error e => .error e
    | .ok (.bool b) => .ok (.bool (!b))
    | .ok _ => .error "no such overload"
  | .and lhs rhs, vars => celAnd (lhs.eval vars) (rhs.eval vars)
  | .or lhs rhs, vars => celOr (lhs.eval vars) (rhs.eval vars)
  | .eq lhs rhs, vars =>
    match lhs.eval vars with
    | .error e => .error e
    | .ok x =>
      match rhs.eval vars with
      | .error e => .error e
      | .ok y => .ok (.bool (Value.beq x y))
  | .ne lhs rhs, vars =>
    match lhs.eval vars with
    | .error e => .error e
    | .ok x =>
      match rhs.eval vars with
      | .error e => .error e
      | .ok y => .ok (.bool (!Value.beq x y))
  | .isIn lhs rhs, vars =>
    match lhs.eval vars with
    | .error e => .error e
    | .ok x =>
      match rhs.eval vars with
      | .error e => .error e
      | .ok (.list ys) => .ok (.bool (ys.any (fun y => Value.beq x y)))
      | .ok (.map kvs) =>
        match x with
        | .str k => .ok (.bool ((kvs.lookup k).isSome))
        | _ => .error "no such overload"
      | .ok _ => .error "no such overload"

/-- Compiling a source text: parsing, then type checking with `event` declared as
`map(string, dyn)`, the only variable of the environment. -/
def celCompile (src : String) : Except String CelExpr :=
  match parse src with
  | .error e => .error e
  | .ok e =>
    match check e [("event", .map)] with
    | some _ => .ok e
    | none => .error "undeclared reference or no matching overload"

/-- The environment of the predicate language. A program is the checked expression; it is
evaluated on the activation, the map that binds `event`. -/
def celEnv : CelEnv where
  Ast := CelExpr
  Prg := CelExpr
  Compile := celCompile
  Program := fun ast => .ok ast
  Eval := fun prg input =>
    match input with
    | .map vars => (prg.eval vars).map some
    | _ => .error "activation is not a map"

/-- The condition of the rule of `TestRuleEngine_ShellSpawn`. -/
def shellSpawnCondition : String :=
  "event.process.exe in ['/bin/bash', '/bin/sh'] && event.container.namespace == 'prod'"

/-- The condition of the rule of `TestRuleEngine_PrivilegeEscalation`. -/
def privEscCondition : String :=
  "event.process.capabilities_added.exists(c, c == 'SYS_ADMIN')"

/-- The rule of `TestRuleEngine_ShellSpawn`. -/
def shellSpawnRule : Rule :=
  { ID := "rule-shell-spawn", Name := "Shell Spawn in Prod",
    Description := "Shell spawned in production", Severity := "high",
    Condition := shellSpawnCondition, Response := "kill_pod", Enabled := true }

/-- The rule of `TestRuleEngine_PrivilegeEscalation`. -/
def privEscRule : Rule :=
  { ID := "rule-priv-esc", Name := "Privilege Escalation", Description := "",
    Severity := "critical", Condition := privEscCondition, Response := "isolate_node",
    Enabled := true }

/-- An event of a process `exe` with the given added capabilities, in a container of
namespace `ns`. -/
def processEvent (exe : String) (caps : List String) (ns : String) : RuntimeEvent :=
  { Timestamp := 0, ClusterID := "kind-local", NodeID := "kind-worker",
    EventType := "process_exec", EventID := "test-001",
    Process := some { PID := 12345, PPID := 0, UID := 0, GID := 0, Exe := exe,
                      Cmdline := "", Cwd := "", HasTTY := false, CapabilitiesAdded := caps },
    Container := some { ContainerID := "containerd://abc123", Image := "", ImageDigest := "",
                        Pod := "test-pod", Namespace := ns, ServiceAccount := "",
                        Labels := none },
    Network := none, RawRef := "" }

/-- An event with a container in namespace `prod` and no process sub-document. -/
def benchEventNoProcess : RuntimeEvent :=
  { Timestamp := 0, ClusterID := "", NodeID := "", EventType := "", EventID := "",
    Process := none,
    Container := some { ContainerID := "", Image := "", ImageDigest := "", Pod := "",
                        Namespace := "prod", ServiceAccount := "", Labels := none },
    Network := none, RawRef := "" }

/-- Whether the loop of `Evaluate` appends an alert for `rule`: the rule is enabled, the
programs map holds a program under its id, and that program evaluates to the boolean
`true` on the input. -/
def fires (env : CelEnv) (programs : List (String × env.Prg)) (input : Value)
    (rule : Rule) : Bool :=
  rule.Enabled &&
    match programs.lookup rule.ID with
    | none => false
    | some prg =>
      match env.Eval prg input with
      | .ok (some (.bool true)) => true
      | _ => false

/-- Two enabled rules that share the id `dup`: the earlier one tests the namespace, the
later one the executable. -/
def dupRules : List Rule :=
  [benchRule "dup" "Earlier" "event.container.namespace == 'prod'" true,
   benchRule "dup" "Later" "event.process.exe == '/bin/bash'" true]

/-- The engine `NewRuleEngine` builds from `dupRules`. -/
def dupEngine : RuleEngine benchEnv :=
  { rules := dupRules,
    programs := [("dup", .eq (eventField "process" "exe") (.lit (.str "/bin/bash")))] }

end matcher

/-! ## The correlation store as seen by `detect/correlator/correlator.go` -/

namespace correlator

/-- What the store holds under one key: a sorted set of (score, member) pairs, or a hash of
fields. The member of a window set is the text `json.Marshal(event)`; it is kept as the
event it encodes (the encoding is one-to-one on events and `json.Unmarshal` gives the event
back). A score is the whole number of seconds the source converts to `float64`. -/
inductive RedisValue where
  | zset (members : List (Int × RuntimeEvent))
  | hash (fields : List (String × String))
  deriving DecidableEq, Repr, Inhabited

/-- A stored key: its value and, when a time to live was set, the second at which the key
expires. -/
structure RedisEntry where
  value : RedisValue
  expireAt : Option Int
  deriving DecidableEq, Repr, Inhabited

/-- The store behind `c.rdb`. `fault` holds the error every command answers with while the
store cannot be reached. -/
structure Redis where
  keys : List (String × RedisEntry)
  fault : Option String := none
  deriving DecidableEq, Repr, Inhabited

/-- The map a list of bindings denotes: each field bound to its first occurrence. -/
def normalize {β : Type} : List (String × β) → List (String × β)
  | [] => []
  | kv :: rest => kv :: (normalize rest).filter (fun x => x.1 ≠ kv.1)

namespace Redis

/-- The error a command answers when the key holds a value of the other kind. -/
def wrongType : String :=
  "WRONGTYPE Operation against a key holding the wrong kind of value"

/-- The entry visible under `key` at second `now`: a key whose time to live has run out is
gone. Expiry is decided in whole seconds. -/
def live (r : Redis) (now : Int) (key : String) : Option RedisEntry :=
  match r.keys.lookup key with
  | none => none
  | some e =>
    match e.expireAt with
    | none => some e
    | some t => if t ≤ now then none else some e

/-- Binding `key` to `entry`. -/
def put (r : Redis) (key : String) (entry : RedisEntry) : Redis :=
  { r with keys := matcher.mapSet r.keys key entry }

/-- Removing `key`. -/
def drop (r : Redis) (key : String) : Redis :=
  { r with keys := r.keys.filter (fun kv => kv.1 ≠ key) }

/-- The command `ZADD key score member`: adds the member, or moves it to the new score when
the set already holds it. -/
def ZAdd (r : Redis) (now : Int) (key : String) (score : Int) (member : RuntimeEvent) :
    Except String Redis :=
  match r.fault with
  | some e => .error e
  | none =>
    match r.live now key with
    | none => .ok (r.put key { value := .zset [(score, member)], expireAt := none })
    | some { value := .zset ms, expireAt := exp } =>
      .ok (r.put key { value := .zset (ms.filter (fun x => x.2 ≠ member) ++ [(score, member)]),
                       expireAt := exp })
    | some { value := .hash _, expireAt := _ } => .error wrongType

/-- The command `EXPIRE key seconds`: sets the time to live of an existing key; a
non-positive time to live deletes the key at once. -/
def Expire (r : Redis) (now : Int) (key : String) (seconds : Int) : Except String Redis :=
  match r.fault with
  | some e => .error e
  | none =>
    match r.live now key with
    | none => .ok r
    | some e =>
      if seconds ≤ 0 then .ok (r.drop key)
      else .ok (r.put key { e with expireAt := some (now + seconds) })

/-- Whether a score is at or above the lower bound `min`; `none` stands for `-inf`. -/
def aboveMin (min : Option Int) (score : Int) : Bool :=
  match min with
  | none => true
  | some lo => lo ≤ score

/-- The command `ZREMRANGEBYSCORE key min max`: removes the members whose score lies
between `min` and `max`, both bounds inclusive; `min = none` stands for `-inf`. A set left
empty is removed with its key. -/
def ZRemRangeByScore (r : Redis) (now : Int) (key : String) (min : Option Int) (max : Int) :
    Except String Redis :=
  match r.fault with
  | some e => .error e
  | none =>
    match r.live now key with
    | none => .ok r
    | some { value := .zset ms, expireAt := exp } =>
      let kept := ms.filter (fun x => ¬ (aboveMin min x.1 ∧ x.1 ≤ max))
      if kept = [] then .ok (r.drop key)
      else .ok (r.put key { value := .zset kept, expireAt := exp })
    | some { value := .hash _, expireAt := _ } => .error wrongType

/-- The command `ZRANGEBYSCORE key min max`: the members whose score lies between `min` and
`max`, both bounds inclusive, by ascending score. (The store orders members of equal score
by their text; here they keep the order in which they were added, and no statement below
depends on the order among equal scores.) -/
def ZRangeByScore (r : Redis) (now : Int) (key : String) (min max : Int) :
    Except String (List RuntimeEvent) :=
  match r.fault with
  | some e => .error e
  | none =>
    match r.live now key with
    | none => .ok []
    | some { value := .zset ms, expireAt := _ } =>
      .ok (((ms.filter (fun x => min ≤ x.1 ∧ x.1 ≤ max)).insertionSort
              (fun a b => a.1 ≤ b.1)).map (fun x => x.2))
    | some { value := .hash _, expireAt := _ } => .error wrongType

/-- The command `HSET key field value`. -/
def HSet (r : Redis) (now : Int) (key field value : String) : Except String Redis :=
  match r.fault with
  | some e => .error e
  | none =>
    match r.live now key with
    | none => .ok (r.put key { value := .hash [(field, value)], expireAt := none })
    | some { value := .hash fs, expireAt := exp } =>
      .ok (r.put key { value := .hash (matcher.mapSet fs field value), expireAt := exp })
    | some { value := .zset _, expireAt := _ } => .error wrongType

/-- The command `HGETALL key`: the map of all fields, empty for a missing key. -/
def HGetAll (r : Redis) (now : Int) (key : String) : Except String (List (String × String)) :=
  match r.fault with
  | some e => .error e
  | none =>
    match r.live now key with
    | none => .ok []
    | some { value := .hash fs, expireAt := _ } => .ok (normalize fs)
    | some { value := .zset _, expireAt := _ } => .error wrongType

/-- The command `DEL key`. -/
def Del (r : Redis) (key : String) : Except String Redis :=
  match r.fault with
  | some e => .error e
  | none => .ok (r.drop key)

end Redis

/-! ## detect/correlator/correlator.go -/

/-- The call `event.Timestamp.Unix()`: whole seconds since the epoch. -/
def unixSeconds (t : Time) : Int := t.Unix

/-- The duration `time.Duration(windowSecs) * time.Second` in nanoseconds: an `int64`
product, which wraps. -/
def windowDuration (windowSecs : Int) : Int := wrap64 (windowSecs * 1000000000)

/-- The helper `formatSec` of the store client, which turns the duration given to `Expire`
into the seconds of the `EXPIRE` command: a positive duration below one second is sent as
1, every other duration in whole seconds, cut toward zero. -/
def formatSec (dur : Int) : Int :=
  if 0 < dur ∧ dur < 1000000000 then 1 else Int.tdiv dur 1000000000

/-- The store a fire-and-forget command leaves: its result, or the store as it was when
the command failed. -/
def orKeep (result : Except String Redis) (r : Redis) : Redis :=
  match result with
  | .ok r1 => r1
  | .error _ => r

/-- The key `fmt.Sprintf("corr:%s:%s", ruleID, groupKey)`. -/
def corrKey (ruleID groupKey : String) : String := "corr:" ++ ruleID ++ ":" ++ groupKey

/-- The key `fmt.Sprintf("seq:%s:%s", ruleID, groupKey)`. -/
def seqKey (ruleID groupKey : String) : String := "seq:" ++ ruleID ++ ":" ++ groupKey

/-- The field `fmt.Sprintf("step_%d", step)`. -/
def stepField (step : Int) : String := "step_" ++ toString step

/-- The method `TrackEvent`, run at wall-clock second `now`: the error it returns, if any,
and the store it leaves. When `json.Marshal` refuses the event the method returns the
error and sends no command. The member of the sorted set is the JSON text, which stands
for the event it encodes. The time to live and the lower bound of the cleanup are `int64`
results, and the score and that bound are converted to `float64`. -/
def TrackEvent (rdb : Redis) (now : Int) (event : RuntimeEvent) (ruleID groupKey : String)
    (windowSecs : Int) : Option String × Redis :=
  let key := corrKey ruleID groupKey
  match matcher.Marshal event with
  | .error err => (some err, rdb)
  | .ok _ =>
    -- Add to sorted set with timestamp as score
    let score := float64 (unixSeconds event.Timestamp)
    match rdb.ZAdd now key score event with
    | .error err => (some err, rdb)
    | .ok r1 =>
      -- Set expiry
      let r2 := orKeep (r1.Expire now key (formatSec (windowDuration windowSecs))) r1
      -- Cleanup old events outside window
      let minScore := float64 (wrap64 (now - windowSecs))
      let r3 := orKeep (r2.ZRemRangeByScore now key none minScore) r2
      (none, r3)

/-- The method `CheckThreshold`, run at wall-clock second `now`: the triple it returns and
the store it leaves. The lower bound of the range is an `int64` difference, and both
bounds are converted to `float64`. -/
def CheckThreshold (rdb : Redis) (now : Int) (ruleID groupKey : String) (threshold : Int)
    (windowSecs : Int) : (Bool × List String × Option String) × Redis :=
  let key := corrKey ruleID groupKey
  let minScore := float64 (wrap64 (now - windowSecs))
  let maxScore := float64 now
  -- Get events in window
  match rdb.ZRangeByScore now key minScore maxScore with
  | .error err => ((false, [], some err), rdb)
  | .ok events =>
    if (events.length : Int) ≥ threshold then
      -- Extract event IDs
      ((true, events.map (fun e => e.EventID), none), rdb)
    else ((false, [], none), rdb)

/-- The method `TrackSequenceStep`, run at wall-clock second `now`. -/
def TrackSequenceStep (rdb : Redis) (now : Int) (ruleID groupKey : String) (step : Int)
    (eventID : String) (windowSecs : Int) : Option String × Redis :=
  let key := seqKey ruleID groupKey
  let field := stepField step
  match rdb.HSet now key field eventID with
  | .error err => (some err, rdb)
  | .ok r1 => (none, orKeep (r1.Expire now key (formatSec (windowDuration windowSecs))) r1)

/-- The method `CheckSequenceComplete`, run at wall-clock second `now`. -/
def CheckSequenceComplete (rdb : Redis) (now : Int) (ruleID groupKey : String)
    (totalSteps : Int) : (Bool × List String × Option String) × Redis :=
  let key := seqKey ruleID groupKey
  match rdb.HGetAll now key with
  | .error err => ((false, [], some err), rdb)
  | .ok result =>
    if (result.length : Int) ≥ totalSteps then
      let eventIDs := (List.range totalSteps.toNat).filterMap
        (fun i : Nat => result.lookup (stepField i))
      -- Clear the sequence
      ((true, eventIDs, none), orKeep (rdb.Del key) rdb)
    else ((false, [], none), rdb)

/-- The window set stored under `key` as seen at second `now`: `some []` when the key
holds nothing, `none` when it holds a hash. -/
def storedWindow (rdb : Redis) (now : Int) (key : String) : Option (List (Int × RuntimeEvent)) :=
  match rdb.live now key with
  | none => some []
  | some { value := .zset ms, expireAt := _ } => some ms
  | some { value := .hash _, expireAt := _ } => none

/-- The sequence progress stored under `key` as seen at second `now`: `some []` when the
key holds nothing, `none` when it holds a sorted set. -/
def storedProgress (rdb : Redis) (now : Int) (key : String) : Option (List (String × String)) :=
  match rdb.live now key with
  | none => some []
  | some { value := .hash fs, expireAt := _ } => some fs
  | some { value := .zset _, expireAt := _ } => none

/-- The entries of a window set that lie in the window `[now - windowSecs, now]`, both
bounds included. The bounds are taken as `CheckThreshold` computes them, the difference in
`int64` and both as `float64`: they are `now - windowSecs` and `now` unless the difference
leaves the `int64` range or a bound exceeds 2^53 in magnitude. -/
def inWindow (now windowSecs : Int) (ms : List (Int × RuntimeEvent)) :
    List (Int × RuntimeEvent) :=
  ms.filter (fun x => float64 (wrap64 (now - windowSecs)) ≤ x.1 ∧ x.1 ≤ float64 now)

/-- The number a list of decimal digit characters (most significant first) denotes, and the
power of ten of its length. -/
def decodeDigits : List Char → Nat × Nat
  | [] => (0, 1)
  | c :: cs =>
    ((c.toNat - 48) * (decodeDigits cs).2 + (decodeDigits cs).1, (decodeDigits cs).2 * 10)

/-- An event with the given id, stamped `secs` seconds after the epoch. -/
def eventAt (id : String) (secs : Int) : RuntimeEvent :=
  { Timestamp := { unixNano := secs * 1000000000 }, ClusterID := "kind-local", NodeID := "kind-worker",
    EventType := "process_exec", EventID := id, Process := none, Container := none,
    Network := none, RawRef := "" }

/-- The empty store. -/
def emptyStore : Redis := { keys := [] }

/-- The store after event `a` (stamped second 60) was tracked at second 60 and event `b`
(stamped second 100) at second 100, for rule `r1`, group `c1`, window 60 s. -/
def boundaryStore : Redis :=
  (TrackEvent (TrackEvent emptyStore 60 (eventAt "a" 60) "r1" "c1" 60).2 100
    (eventAt "b" 100) "r1" "c1" 60).2

/-- The store after two events stamped second 60, `a` and `b`, arrived late and were
tracked at second 100, for rule `r1`, group `c1`, window 60 s. -/
def lateStore : Redis :=
  (TrackEvent (TrackEvent emptyStore 100 (eventAt "a" 60) "r1" "c1" 60).2 100
    (eventAt "b" 60) "r1" "c1" 60).2

/-- The store after steps 1 and 2 (and not step 0) were recorded for rule `r1`, group
`c1`, at seconds 10 and 20, window 300 s. -/
def skippedStepStore : Redis :=
  (TrackSequenceStep (TrackSequenceStep emptyStore 10 "r1" "c1" 1 "e1" 300).2 20
    "r1" "c1" 2 "e2" 300).2

/-- The store after steps 0 and 1 were recorded for rule `r1`, group `c1`, at seconds 10
and 20, window 300 s. -/
def twoStepStore : Redis :=
  (TrackSequenceStep (TrackSequenceStep emptyStore 10 "r1" "c1" 0 "id0" 300).2 20
    "r1" "c1" 1 "id1" 300).2

end correlator

/-! ## enrich/main.go -/

namespace enrich

/-- The field of `v1.ContainerStatus` that `updateCache` reads. -/
structure ContainerStatus where
  ContainerID : String
  deriving DecidableEq, Repr, Inhabited

/-- The field of `v1.PodSpec` that `enrichEvent` reads. -/
structure PodSpec where
  ServiceAccountName : String
  deriving DecidableEq, Repr, Inhabited

/-- The field of `v1.PodStatus` that `updateCache` reads. -/
structure PodStatus where
  ContainerStatuses : List ContainerStatus
  deriving DecidableEq, Repr, Inhabited

/-- The fields of `v1.Pod` that the enricher reads. `Labels` is `none` for the nil map. -/
structure Pod where
  Name : String
  Namespace : String
  Labels : Option (List (String × String))
  Spec : PodSpec
  Status : PodStatus
  deriving DecidableEq, Repr, Inhabited

/-- The cut of a text at the first occurrence of the (non-empty) separator: the part before
it and the part after it, or `none` when the separator does not occur. -/
def cut (sep : List Char) : List Char → Option (List Char × List Char)
  | [] => none
  | c :: rest =>
    if sep.isPrefixOf (c :: rest) then some ([], (c :: rest).drop sep.length)
    else (cut sep rest).map (fun p => (c :: p.1, p.2))

/-- The pieces of a text between the occurrences of the separator, found left to right;
`fuel` bounds the number of cuts. -/
def splitFuel (sep : List Char) : Nat → List Char → List (List Char)
  | 0, s => [s]
  | fuel + 1, s =>
    match cut sep s with
    | none => [s]
    | some (before, after) => before :: splitFuel sep fuel after

/-- The call `strings.Split(s, sep)` for a non-empty separator. A text of `n` characters
holds at most `n` occurrences of the separator. -/
def Split (s sep : String) : List String :=
  (splitFuel sep.data s.length s.data).map String.mk

/-- The number of bytes of a character in UTF-8. -/
def utf8Len (c : Char) : Nat :=
  if c.toNat < 128 then 1 else if c.toNat < 2048 then 2 else if c.toNat < 65536 then 3 else 4

/-- The built-in `len(s)` of a string: its number of bytes. -/
def len (s : String) : Nat := (s.data.map utf8Len).sum

/-- The longest run of whole characters at the start of a text that fits in `n` bytes of
its UTF-8 encoding: the slice `s[:n]` whenever byte `n` starts a character, as it does in
every ASCII text. -/
def bytePrefix : Nat → List Char → List Char
  | _, [] => []
  | n, c :: rest => if utf8Len c ≤ n then c :: bytePrefix (n - utf8Len c) rest else []

/-- The state of `containerToPod`: container id to pod. `Store` is the map write
`matcher.mapSet`, `Load` is `List.lookup`. -/
abbrev Index := List (String × Pod)

/-- The body of the loop of `updateCache` for one container status. -/
def updateCacheStatus (pod : Pod) (index : Index) (status : ContainerStatus) : Index :=
  -- Let's store both the full ID and the short ID (12 chars) just in case.
  let id := status.ContainerID
  if id ≠ "" then
    -- Extract ID part
    let index1 :=
      match Split id "://" with
      | _ :: part1 :: _ =>
        let index2 := matcher.mapSet index part1 pod
        if len part1 > 12 then
          matcher.mapSet index2 (String.mk (bytePrefix 12 part1.data)) pod
        else index2
      | _ => index
    matcher.mapSet index1 id pod
  else index

/-- The function `updateCache`: the index after the statuses of the pod were stored. -/
def updateCache (pod : Pod) (index : Index) : Index :=
  pod.Status.ContainerStatuses.foldl (updateCacheStatus pod) index

/-- The connection `natsConn` as the enricher uses it: the messages published so far, in
order, as (subject, payload), and the error `Publish` answers with while the connection is
down. A payload is the JSON text of an event; it is kept as the event it encodes. -/
structure Bus where
  published : List (String × RuntimeEvent) := []
  fault : Option String := none
  deriving DecidableEq, Repr, Inhabited

/-- The call `natsConn.Publish(subject, data)`. -/
def Bus.Publish (bus : Bus) (subject : String) (data : RuntimeEvent) : Except String Bus :=
  match bus.fault with
  | some e => .error e
  | none => .ok { bus with published := bus.published ++ [(subject, data)] }

/-- The handler `enrichEvent`: `decoded` is the result of `json.Unmarshal(msg.Data, &event)`.
Encoding the decoded event does not fail. The lines written by `log.Printf` are not
modelled. -/
def enrichEvent (index : Index) (decoded : Except String RuntimeEvent) (bus : Bus) : Bus :=
  match decoded with
  | .error _ => bus
  | .ok event =>
    -- We only care if there is a container ID
    let event1 : RuntimeEvent :=
      match event.Container with
      | none => event
      | some c =>
        if c.ContainerID ≠ "" then
          -- Look up pod
          match index.lookup c.ContainerID with
          | some pod =>
            { event with
              Container := some { c with
                Pod := pod.Name, Namespace := pod.Namespace,
                ServiceAccount := pod.Spec.ServiceAccountName, Labels := pod.Labels } }
          | none => event
        else event
    -- Publish to enriched stream
    match bus.Publish "events.enriched" event1 with
    | .error _ => bus
    | .ok bus1 => bus1

/-- A pod `web-0` of namespace `prod` with one container of the given id. -/
def webPod (containerID : String) : Pod :=
  { Name := "web-0", Namespace := "prod", Labels := some [("app", "web")],
    Spec := { ServiceAccountName := "web-sa" },
    Status := { ContainerStatuses := [{ ContainerID := containerID }] } }

/-- An event of node `kind-worker` whose container reports the given id and nothing else. -/
def rawEvent (containerID : String) : RuntimeEvent :=
  { Timestamp := 1700000000000000000, ClusterID := "kind-local", NodeID := "kind-worker",
    EventType := "process_exec", EventID := "e-1",
    Process := none,
    Container := some { ContainerID := containerID, Image := "nginx:1.25",
                        ImageDigest := "sha256:ab", Pod := "", Namespace := "",
                        ServiceAccount := "", Labels := none },
    Network := none, RawRef := "" }

end enrich

/-! ## incident/main.go -/

namespace incident

/-- A row of the table `alerts`. The column `incident_id` is `none` while it is NULL (from
the INSERT of `subscribeAlerts` until its UPDATE); `event` is the event the JSONB text
encodes. -/
structure AlertRow where
  id : String
  timestamp : Int
  rule_name : String
  severity : String
  description : String
  event : Option RuntimeEvent
  incident_id : Option String
  response : String
  deriving DecidableEq, Repr, Inhabited

/-- A row of the table `incidents`. -/
structure IncidentRow where
  id : String
  status : String
  severity : String
  title : String
  created_at : Int
  updated_at : Int
  alert_ids : List String
  triggering_event_id : String
  deriving DecidableEq, Repr, Inhabited

/-- A row of the table `action_logs`, with the column `created_at` the database fills in. -/
structure ActionLogRow where
  id : String
  incident_id : Option String
  action_type : String
  target : String
  status : String
  message : String
  created_at : Int
  deriving DecidableEq, Repr, Inhabited

/-- The database behind `db`: the three tables of `initSchema`, and the error `db.Query`
and `db.Exec` answer with while the database cannot be reached. -/
structure DB where
  alerts : List AlertRow := []
  incidents : List IncidentRow := []
  action_logs : List ActionLogRow := []
  fault : Option String := none
  deriving DecidableEq, Repr, Inhabited

/-- The body of an HTTP answer written with `c.JSON`: a `gin.H` of one text field, or the
timeline. -/
inductive Body (α : Type) where
  | h (key value : String)
  | data (payload : α)
  deriving DecidableEq, Repr

/-- The map `validStatuses` of `updateIncident`. -/
def validStatuses : List (String × Bool) :=
  [("open", true), ("investigating", true), ("contained", true), ("resolved", true)]

/-- The statement `UPDATE incidents SET status = $1, updated_at = NOW() WHERE id = $2`,
run when the database clock reads `now`. -/
def execUpdateStatus (db : DB) (now : Int) (status id : String) : Except String DB :=
  match db.fault with
  | some e => .error e
  | none =>
    .ok { db with
          incidents := db.incidents.map
            (fun row => if row.id = id then { row with status := status, updated_at := now }
                        else row) }

/-- The handler `updateIncident` for the path parameter `id`: `bound` is what `c.BindJSON`
gives (the field `status` of the decoded body, or its error), `now` the reading of the
database clock. It returns the HTTP status code with the body, and the database it
leaves. -/
def updateIncident (id : String) (bound : Except String String) (now : Int) (db : DB) :
    (Nat × Body Unit) × DB :=
  match bound with
  | .error err => ((400, .h "error" err), db)
  | .ok reqStatus =>
    if ¬ ((validStatuses.lookup reqStatus).getD false) then
      ((400, .h "error" "invalid status"), db)
    else
      match execUpdateStatus db now reqStatus id with
      | .error err => ((500, .h "error" err), db)
      | .ok db1 => ((200, .h "status" "updated"), db1)

/-- An element of the timeline: the map built for an alert (`"type": "alert"`) or for an
action (`"type": "action"`), with its remaining keys. -/
inductive TimelineEntry where
  | alert (id : String) (timestamp : Int) (rule_name severity description : String)
      (event : Option RuntimeEvent)
  | action (id : String) (timestamp : Int) (action_type target status message : String)
  deriving DecidableEq, Repr

/-- The value under the key `"timestamp"`. -/
def TimelineEntry.timestamp : TimelineEntry → Int
  | .alert _ t _ _ _ _ => t
  | .action _ t _ _ _ _ => t

/-- The query `SELECT ... FROM alerts WHERE incident_id = $1 ORDER BY timestamp ASC`. Rows
of equal timestamp come in an order the database chooses; here they keep their stored
order. -/
def queryAlerts (db : DB) (id : String) : Except String (List AlertRow) :=
  match db.fault with
  | some e => .error e
  | none =>
    .ok ((db.alerts.filter (fun row => row.incident_id = some id)).insertionSort
      (fun a b => a.timestamp ≤ b.timestamp))

/-- The query `SELECT ... FROM action_logs WHERE incident_id = $1 ORDER BY created_at ASC`. -/
def queryActions (db : DB) (id : String) : Except String (List ActionLogRow) :=
  match db.fault with
  | some e => .error e
  | none =>
    .ok ((db.action_logs.filter (fun row => row.incident_id = some id)).insertionSort
      (fun a b => a.created_at ≤ b.created_at))

/-- The map the first loop of `getIncidentTimeline` appends for a row of `alerts`. -/
def alertEntry (row : AlertRow) : TimelineEntry :=
  .alert row.id row.timestamp row.rule_name row.severity row.description row.event

/-- The map the second loop of `getIncidentTimeline` appends for a row of `action_logs`. -/
def actionEntry (row : ActionLogRow) : TimelineEntry :=
  .action row.id row.created_at row.action_type row.target row.status row.message

/-- The handler `getIncidentTimeline` for the path parameter `id`: the HTTP status code and
the body. -/
def getIncidentTimeline (id : String) (db : DB) : Nat × Body (List TimelineEntry) :=
  -- Get alerts for this incident
  match queryAlerts db id with
  | .error err => (500, .h "error" err)
  | .ok rows =>
    let timeline := rows.map alertEntry
    -- Get actions for this incident
    match queryActions db id with
    | .error err => (500, .h "error" err)
    | .ok actionRows => (200, .data (timeline ++ actionRows.map actionEntry))

/-- An incident row with the given id and status. -/
def incidentRow (id status : String) : IncidentRow :=
  { id := id, status := status, severity := "high", title := "Shell in container",
    created_at := 0, updated_at := 0, alert_ids := [], triggering_event_id := "" }

/-- A database holding the incident `i1`, resolved, and the incident `i2`, open. -/
def lifecycleDB : DB :=
  { incidents := [incidentRow "i1" "resolved", incidentRow "i2" "open"] }

/-- A database in which the incident `i1` has one alert, stamped second 20, and one action,
logged at second 10; the incident `i2` has one alert, stamped second 15. -/
def timelineDB : DB :=
  { alerts :=
      [{ id := "a1", timestamp := 20, rule_name := "Shell", severity := "high",
         description := "", event := none, incident_id := some "i1", response := "kill_pod" },
       { id := "a2", timestamp := 15, rule_name := "Shell", severity := "high",
         description := "", event := none, incident_id := some "i2", response := "" }],
    action_logs :=
      [{ id := "l1", incident_id := some "i1", action_type := "kill_pod",
         target := "prod/web-0", status := "success", message := "", created_at := 10 }] }

end incident

/-! ## The JSON encoding of `pkg/models/types.go`

What `encoding/json` does with the struct tags of `RuntimeEvent` and its sub-documents,
on the Go values in full: a string is a byte sequence that need not be valid UTF-8, a
slice or map may be nil or empty, and a `time.Time` carries a monotonic reading and a
location. A JSON text is kept as the document it denotes (`Doc`): an object holds its
entries in the order they are written, and a string that holds an RFC 3339 timestamp is
kept as the wall-clock reading and the zone suffix it spells. -/

namespace models

/-- One step of reading a Go string as UTF-8: a character, or a byte that is part of no
valid sequence. -/
inductive Rune where
  | char (c : Char)
  | byte (b : Nat)
  deriving DecidableEq, Repr, Inhabited

/-- A Go string, cut into its characters and its invalid bytes. -/
abbrev GoString := List Rune

/-- The text `encoding/json` writes for a Go string: every invalid byte is replaced by
U+FFFD. -/
def text (s : GoString) : String :=
  String.mk (s.map (fun r => match r with
    | .char c => c
    | .byte _ => Char.ofNat 65533))

/-- The Go string a JSON string decodes to: its characters. -/
def ofText (s : String) : GoString := s.data.map Rune.char

/-- Whether a Go string is valid UTF-8. -/
def validUTF8 (s : GoString) : Bool :=
  s.all (fun r => match r with
    | .char _ => true
    | .byte _ => false)

/-- The location of a `time.Time`: UTC, the zone of the machine (`time.Local`), a zone
with a name and a fixed offset in seconds east of UTC (`time.FixedZone`), or a zone loaded
by name (`time.LoadLocation`) with the offset in force before its first transition and its
transitions in ascending order, each the Unix second it starts at and the offset from then
on. -/
inductive Location where
  | utc
  | local
  | fixed (name : String) (offset : Int)
  | loaded (name : String) (first : Int) (transitions : List (Int × Int))
  deriving DecidableEq, Repr, Inhabited

/-- The offset a loaded zone has at a Unix second: that of the last transition at or
before it. -/
def zoneAt (first : Int) (transitions : List (Int × Int)) (sec : Int) : Int :=
  transitions.foldl (fun offset tr => if tr.1 ≤ sec then tr.2 else offset) first

/-- A `time.Time` as Go holds it: the instant in nanoseconds since the Unix epoch, the
monotonic clock reading if it has one (as every result of `time.Now` has), and the
location. Two values are deeply equal exactly when the three agree. -/
structure Time where
  unixNano : Int
  mono : Option Int := none
  loc : Location := .utc
  deriving DecidableEq, Repr, Inhabited

/-- The zone of the machine: its offset, in seconds east of UTC, at each Unix second. -/
structure LocalZone where
  offsetAt : Int → Int

/-- The offset of the zone a time carries. -/
def Time.offset (z : LocalZone) (t : Time) : Int :=
  match t.loc with
  | .utc => 0
  | .local => z.offsetAt (t.unixNano / 1000000000)
  | .fixed _ offset => offset
  | .loaded _ first transitions => zoneAt first transitions (t.unixNano / 1000000000)

/-- The instant and offset of a time, which is all its JSON text depends on. -/
def Time.abstract (z : LocalZone) (t : Time) : PodWatch.Time :=
  { unixNano := t.unixNano, offset := t.offset z }

structure ProcessInfo where
  PID : Int
  PPID : Int
  UID : Int
  GID : Int
  Exe : GoString
  Cmdline : GoString
  Cwd : GoString
  HasTTY : Bool
  CapabilitiesAdded : Option (List GoString)
  deriving DecidableEq, Repr, Inhabited

/-- The container sub-document. A map is `none` when nil and otherwise the list of its
entries in the order `json.Marshal` writes them (ascending keys). -/
structure ContainerInfo where
  ContainerID : GoString
  Image : GoString
  ImageDigest : GoString
  Pod : GoString
  Namespace : GoString
  ServiceAccount : GoString
  Labels : Option (List (GoString × GoString))
  deriving DecidableEq, Repr, Inhabited

structure NetworkInfo where
  DstIP : GoString
  DstPort : Int
  Proto : GoString
  DstDomain : GoString
  deriving DecidableEq, Repr, Inhabited

structure RuntimeEvent where
  Timestamp : Time
  ClusterID : GoString
  NodeID : GoString
  EventType : GoString
  EventID : GoString
  Process : Option ProcessInfo
  Container : Option ContainerInfo
  Network : Option NetworkInfo
  RawRef : GoString
  deriving DecidableEq, Repr, Inhabited

/-- A JSON document. `time reading zone` is the string that holds the RFC 3339 text of the
wall-clock `reading` (nanoseconds since 1970-01-01T00:00:00 on the clock of the zone) with
the zone suffix `zone`: `none` for `Z`, `some m` for the offset of `m` minutes. -/
inductive Doc where
  | null
  | bool (b : Bool)
  | num (n : Int)
  | str (s : String)
  | time (reading : Int) (zone : Option Int)
  | list (xs : List Doc)
  | map (kvs : List (String × Doc))
  deriving Repr, Inhabited

/-- The RFC 3339 text that the document `time reading zone` stands for. -/
def timeText (reading : Int) (zone : Option Int) : String :=
  PodWatch.Time.clockText (reading / 1000000000) (reading % 1000000000) ++
    PodWatch.Time.zoneSuffix zone

/-- The string `Time.MarshalJSON` writes: the clock of the time's own zone, and that zone
in whole minutes (the seconds of an offset are cut). -/
def timeDoc (z : LocalZone) (t : Time) : Doc :=
  .time (t.unixNano + t.offset z * 1000000000) (PodWatch.Time.zoneMinutes (t.offset z))

/-- JSON object of a `ProcessInfo` (`capabilities_added` is `omitempty`: a nil and an empty
slice are both left out). -/
def processDoc (p : ProcessInfo) : Doc :=
  .map ([("pid", .num p.PID), ("ppid", .num p.PPID), ("uid", .num p.UID), ("gid", .num p.GID),
         ("exe", .str (text p.Exe)), ("cmdline", .str (text p.Cmdline)),
         ("cwd", .str (text p.Cwd)), ("has_tty", .bool p.HasTTY)] ++
        (match p.CapabilitiesAdded with
         | none => []
         | some [] => []
         | some (c :: cs) =>
           [("capabilities_added", .list ((c :: cs).map (fun s => Doc.str (text s))))]))

/-- JSON object of a `ContainerInfo` (a nil `labels` map is written as `null`). -/
def containerDoc (c : ContainerInfo) : Doc :=
  .map [("container_id", .str (text c.ContainerID)), ("image", .str (text c.Image)),
        ("image_digest", .str (text c.ImageDigest)), ("pod", .str (text c.Pod)),
        ("namespace", .str (text c.Namespace)),
        ("service_account", .str (text c.ServiceAccount)),
        ("labels", match c.Labels with
                   | none => .null
                   | some kvs => .map (kvs.map (fun kv => (text kv.1, Doc.str (text kv.2)))))]

/-- JSON object of a `NetworkInfo`. -/
def networkDoc (n : NetworkInfo) : Doc :=
  .map [("dst_ip", .str (text n.DstIP)), ("dst_port", .num n.DstPort),
        ("proto", .str (text n.Proto)), ("dst_domain", .str (text n.DstDomain))]

/-- JSON object of a `RuntimeEvent`. The three pointers are `omitempty` (left out when
nil), and so is `raw_ref` (left out when empty). -/
def eventDoc (z : LocalZone) (e : RuntimeEvent) : Doc :=
  .map ([("ts", timeDoc z e.Timestamp), ("cluster_id", .str (text e.ClusterID)),
         ("node_id", .str (text e.NodeID)), ("event_type", .str (text e.EventType)),
         ("event_id", .str (text e.EventID))] ++
        (match e.Process with
         | none => []
         | some p => [("process", processDoc p)]) ++
        (match e.Container with
         | none => []
         | some c => [("container", containerDoc c)]) ++
        (match e.Network with
         | none => []
         | some n => [("network", networkDoc n)]) ++
        (if e.RawRef = [] then [] else [("raw_ref", .str (text e.RawRef))]))

/-- The call `json.Marshal(event)`: the document `eventDoc`, unless `Time.MarshalJSON`
refuses the timestamp. -/
def Marshal (z : LocalZone) (e : RuntimeEvent) : Except String Doc :=
  match (e.Timestamp.abstract z).MarshalJSON with
  | .error err => .error ("json: error calling MarshalJSON for type time.Time: " ++ err)
  | .ok _ => .ok (eventDoc z e)

/-- The method `Time.UnmarshalJSON` on a timestamp string: the instant is the reading less
the offset the suffix spells; the location is UTC for `Z`, the zone of the machine when
that has the spelled offset at the instant, and an unnamed fixed zone otherwise. -/
def parseTime (z : LocalZone) (reading : Int) (zone : Option Int) : Time :=
  match zone with
  | none => { unixNano := reading, mono := none, loc := .utc }
  | some m =>
    if z.offsetAt ((reading - m * 60 * 1000000000) / 1000000000) = m * 60 then
      { unixNano := reading - m * 60 * 1000000000, mono := none, loc := .local }
    else
      { unixNano := reading - m * 60 * 1000000000, mono := none, loc := .fixed "" (m * 60) }

/-- The zero value of `time.Time`. -/
def zeroTime : Time := { unixNano := -62135596800000000000, mono := none, loc := .utc }

/-- Decoding into a `time.Time` field: a missing key or `null` leaves the zero value. -/
def getTime (z : LocalZone) (kvs : List (String × Doc)) (key : String) : Except String Time :=
  match kvs.lookup key with
  | none => .ok zeroTime
  | some .null => .ok zeroTime
  | some (.time reading zone) => .ok (parseTime z reading zone)
  | some (.str s) => .error ("parsing time " ++ s)
  | some _ => .error "Time.UnmarshalJSON: input is not a JSON string"

/-- Decoding into a `string` field: a missing key or `null` leaves the zero value. A
timestamp string is a string like any other; its spelling plays no part below. -/
def getString (kvs : List (String × Doc)) (key : String) : Except String GoString :=
  match kvs.lookup key with
  | none => .ok []
  | some .null => .ok []
  | some (.str s) => .ok (ofText s)
  | some (.time reading zone) => .ok (ofText (timeText reading zone))
  | some _ => .error ("json: cannot unmarshal into Go struct field " ++ key ++ " of type string")

/-- Decoding into an `int` field. -/
def getInt (kvs : List (String × Doc)) (key : String) : Except String Int :=
  match kvs.lookup key with
  | none => .ok 0
  | some .null => .ok 0
  | some (.num n) => .ok n
  | some _ => .error ("json: cannot unmarshal into Go struct field " ++ key ++ " of type int")

/-- Decoding into a `bool` field. -/
def getBool (kvs : List (String × Doc)) (key : String) : Except String Bool :=
  match kvs.lookup key with
  | none => .ok false
  | some .null => .ok false
  | some (.bool b) => .ok b
  | some _ => .error ("json: cannot unmarshal into Go struct field " ++ key ++ " of type bool")

/-- Decoding the elements of an array into a `[]string`. -/
def decodeStrings : List Doc → Except String (List GoString)
  | [] => .ok []
  | .str s :: rest =>
    match decodeStrings rest with
    | .ok ss => .ok (ofText s :: ss)
    | .error err => .error err
  | .null :: rest =>
    match decodeStrings rest with
    | .ok ss => .ok ([] :: ss)
    | .error err => .error err
  | _ :: _ => .error "json: cannot unmarshal into Go value of type string"

/-- Decoding into a `[]string` field: a missing key or `null` leaves the nil slice, an
array gives a slice that is not nil. -/
def getStrings (kvs : List (String × Doc)) (key : String) :
    Except String (Option (List GoString)) :=
  match kvs.lookup key with
  | none => .ok none
  | some .null => .ok none
  | some (.list xs) =>
    match decodeStrings xs with
    | .ok ss => .ok (some ss)
    | .error err => .error err
  | some _ => .error ("json: cannot unmarshal into Go struct field " ++ key ++ " of type []string")

/-- The map write `m[key] = value` on the entry list: the value of a key already present is
replaced, a new key is added. -/
def mapStore (m : List (GoString × GoString)) (key value : GoString) :
    List (GoString × GoString) :=
  if m.any (fun kv => kv.1 = key) then
    m.map (fun kv => if kv.1 = key then (key, value) else kv)
  else m ++ [(key, value)]

/-- Decoding the entries of an object into a `map[string]string`, in the order of the
document. -/
def decodeStringMap : List (String × Doc) → List (GoString × GoString) →
    Except String (List (GoString × GoString))
  | [], m => .ok m
  | (k, .str s) :: rest, m => decodeStringMap rest (mapStore m (ofText k) (ofText s))
  | (k, .null) :: rest, m => decodeStringMap rest (mapStore m (ofText k) [])
  | _ :: _, _ => .error "json: cannot unmarshal into Go value of type string"

/-- Decoding into a `map[string]string` field: `null` leaves the nil map, an object gives a
map that is not nil. -/
def getStringMap (kvs : List (String × Doc)) (key : String) :
    Except String (Option (List (GoString × GoString))) :=
  match kvs.lookup key with
  | none => .ok none
  | some .null => .ok none
  | some (.map entries) =>
    match decodeStringMap entries [] with
    | .ok m => .ok (some m)
    | .error err => .error err
  | some _ => .error ("json: cannot unmarshal into Go struct field " ++ key ++
      " of type map[string]string")

/-- Decoding an object into a `ProcessInfo`. -/
def decodeProcess (kvs : List (String × Doc)) : Except String ProcessInfo := do
  let pid ← getInt kvs "pid"
  let ppid ← getInt kvs "ppid"
  let uid ← getInt kvs "uid"
  let gid ← getInt kvs "gid"
  let exe ← getString kvs "exe"
  let cmdline ← getString kvs "cmdline"
  let cwd ← getString kvs "cwd"
  let hasTTY ← getBool kvs "has_tty"
  let caps ← getStrings kvs "capabilities_added"
  pure { PID := pid, PPID := ppid, UID := uid, GID := gid, Exe := exe, Cmdline := cmdline,
         Cwd := cwd, HasTTY := hasTTY, CapabilitiesAdded := caps }

/-- Decoding an object into a `ContainerInfo`. -/
def decodeContainer (kvs : List (String × Doc)) : Except String ContainerInfo := do
  let containerID ← getString kvs "container_id"
  let image ← getString kvs "image"
  let imageDigest ← getString kvs "image_digest"
  let pod ← getString kvs "pod"
  let ns ← getString kvs "namespace"
  let serviceAccount ← getString kvs "service_account"
  let labels ← getStringMap kvs "labels"
  pure { ContainerID := containerID, Image := image, ImageDigest := imageDigest, Pod := pod,
         Namespace := ns, ServiceAccount := serviceAccount, Labels := labels }

/-- Decoding an object into a `NetworkInfo`. -/
def decodeNetwork (kvs : List (String × Doc)) : Except String NetworkInfo := do
  let dstIP ← getString kvs "dst_ip"
  let dstPort ← getInt kvs "dst_port"
  let proto ← getString kvs "proto"
  let dstDomain ← getString kvs "dst_domain"
  pure { DstIP := dstIP, DstPort := dstPort, Proto := proto, DstDomain := dstDomain }

/-- Decoding into a pointer field: a missing key or `null` leaves nil, an object is decoded
into a fresh struct. -/
def getPointer {α : Type} (decode : List (String × Doc) → Except String α)
    (kvs : List (String × Doc)) (key : String) : Except String (Option α) :=
  match kvs.lookup key with
  | none => .ok none
  | some .null => .ok none
  | some (.map fields) =>
    match decode fields with
    | .ok a => .ok (some a)
    | .error err => .error err
  | some _ => .error ("json: cannot unmarshal into Go struct field " ++ key)

/-- The call `json.Unmarshal(data, &event)` on a zero `RuntimeEvent`. Keys are matched by
their tag name; unknown keys are skipped. -/
def Unmarshal (z : LocalZone) (v : Doc) : Except String RuntimeEvent :=
  match v with
  | .map kvs => do
    let ts ← getTime z kvs "ts"
    let clusterID ← getString kvs "cluster_id"
    let nodeID ← getString kvs "node_id"
    let eventType ← getString kvs "event_type"
    let eventID ← getString kvs "event_id"
    let process ← getPointer decodeProcess kvs "process"
    let container ← getPointer decodeContainer kvs "container"
    let network ← getPointer decodeNetwork kvs "network"
    let rawRef ← getString kvs "raw_ref"
    pure { Timestamp := ts, ClusterID := clusterID, NodeID := nodeID, EventType := eventType,
           EventID := eventID, Process := process, Container := container,
           Network := network, RawRef := rawRef }
  | .null =>
    .ok { Timestamp := zeroTime, ClusterID := [], NodeID := [], EventType := [], EventID := [],
          Process := none, Container := none, Network := none, RawRef := [] }
  | _ => .error "json: cannot unmarshal into Go value of type models.RuntimeEvent"

/-- Encoding an event and decoding the text. -/
def roundTrip (z : LocalZone) (e : RuntimeEvent) : Except String RuntimeEvent :=
  match Marshal z e with
  | .error err => .error err
  | .ok v => Unmarshal z v

/-- Whether decoding the timestamp string written for a time gives the time back: the time
has no monotonic reading, and its location is UTC, or the zone of the machine at an offset
that is not zero and a whole number of minutes, or an unnamed fixed zone at such an offset
which the zone of the machine does not have at that instant. -/
def Time.restored (z : LocalZone) (t : Time) : Bool :=
  decide (t.mono = none) &&
    match t.loc with
    | .utc => true
    | .local => decide (t.offset z ≠ 0) && decide (t.offset z % 60 = 0)
    | .fixed name offset =>
      decide (name = "") && decide (offset ≠ 0) && decide (offset % 60 = 0) &&
        decide (z.offsetAt (t.unixNano / 1000000000) ≠ offset)
    | .loaded _ _ _ => false

/-- The entry a map holds after decoding the JSON text of an entry. -/
def decodedEntry (kv : GoString × GoString) : GoString × GoString :=
  (ofText (text kv.1), ofText (text kv.2))

/-- The step of decoding the JSON text of one entry into a map. -/
def storeEntry (m : List (GoString × GoString)) (kv : GoString × GoString) :
    List (GoString × GoString) :=
  mapStore m (ofText (text kv.1)) (ofText (text kv.2))

/-- The map that decoding the JSON object of a map builds. -/
def decodedLabels (kvs : List (GoString × GoString)) : List (GoString × GoString) :=
  kvs.foldl storeEntry []

/-- The `ProcessInfo` that decoding the JSON object of `p` builds. -/
def ProcessInfo.decoded (p : ProcessInfo) : ProcessInfo :=
  { PID := p.PID, PPID := p.PPID, UID := p.UID, GID := p.GID,
    Exe := ofText (text p.Exe), Cmdline := ofText (text p.Cmdline),
    Cwd := ofText (text p.Cwd), HasTTY := p.HasTTY,
    CapabilitiesAdded :=
      match p.CapabilitiesAdded with
      | none => none
      | some [] => none
      | some (c :: cs) => some ((c :: cs).map (fun s => ofText (text s))) }

/-- The `ContainerInfo` that decoding the JSON object of `c` builds. -/
def ContainerInfo.decoded (c : ContainerInfo) : ContainerInfo :=
  { ContainerID := ofText (text c.ContainerID), Image := ofText (text c.Image),
    ImageDigest := ofText (text c.ImageDigest), Pod := ofText (text c.Pod),
    Namespace := ofText (text c.Namespace),
    ServiceAccount := ofText (text c.ServiceAccount),
    Labels := c.Labels.map decodedLabels }

/-- The `NetworkInfo` that decoding the JSON object of `n` builds. -/
def NetworkInfo.decoded (n : NetworkInfo) : NetworkInfo :=
  { DstIP := ofText (text n.DstIP), DstPort := n.DstPort, Proto := ofText (text n.Proto),
    DstDomain := ofText (text n.DstDomain) }

/-- The time that decoding the timestamp string of `t` builds. -/
def Time.decoded (z : LocalZone) (t : Time) : Time :=
  parseTime z (t.unixNano + t.offset z * 1000000000) (PodWatch.Time.zoneMinutes (t.offset z))

/-- The event that decoding the JSON object of `e` builds. -/
def RuntimeEvent.decoded (z : LocalZone) (e : RuntimeEvent) : RuntimeEvent :=
  { Timestamp := e.Timestamp.decoded z,
    ClusterID := ofText (text e.ClusterID), NodeID := ofText (text e.NodeID),
    EventType := ofText (text e.EventType), EventID := ofText (text e.EventID),
    Process := e.Process.map ProcessInfo.decoded,
    Container := e.Container.map ContainerInfo.decoded,
    Network := e.Network.map NetworkInfo.decoded,
    RawRef := ofText (text e.RawRef) }

/-- Whether the strings of a `ProcessInfo` are valid UTF-8 and its slice is nil or holds
an element. -/
def ProcessInfo.plain (p : ProcessInfo) : Bool :=
  validUTF8 p.Exe && validUTF8 p.Cmdline && validUTF8 p.Cwd &&
    match p.CapabilitiesAdded with
    | none => true
    | some [] => false
    | some (c :: cs) => (c :: cs).all validUTF8

/-- Whether the strings of a `ContainerInfo` are valid UTF-8; the keys of its map are
pairwise distinct, as the keys of every Go map are. -/
def ContainerInfo.plain (c : ContainerInfo) : Bool :=
  validUTF8 c.ContainerID && validUTF8 c.Image && validUTF8 c.ImageDigest &&
    validUTF8 c.Pod && validUTF8 c.Namespace && validUTF8 c.ServiceAccount &&
    match c.Labels with
    | none => true
    | some kvs =>
      kvs.all (fun kv => validUTF8 kv.1 && validUTF8 kv.2) &&
        decide ((kvs.map (fun kv => kv.1)).Nodup)

/-- Whether the strings of a `NetworkInfo` are valid UTF-8. -/
def NetworkInfo.plain (n : NetworkInfo) : Bool :=
  validUTF8 n.DstIP && validUTF8 n.Proto && validUTF8 n.DstDomain

/-- Whether an event is one that decoding its JSON text gives back: every string is valid
UTF-8, `capabilities_added` is not an empty slice that is not nil, and the timestamp is
restored. -/
def RuntimeEvent.plain (z : LocalZone) (e : RuntimeEvent) : Bool :=
  e.Timestamp.restored z &&
    validUTF8 e.ClusterID && validUTF8 e.NodeID && validUTF8 e.EventType &&
    validUTF8 e.EventID && validUTF8 e.RawRef &&
    (match e.Process with
     | none => true
     | some p => p.plain) &&
    (match e.Container with
     | none => true
     | some c => c.plain) &&
    (match e.Network with
     | none => true
     | some n => n.plain)

/-- A machine whose zone is UTC. -/
def utcMachine : LocalZone := { offsetAt := fun _ => 0 }

/-- A machine whose zone is one hour east of UTC. -/
def cetMachine : LocalZone := { offsetAt := fun _ => 3600 }

/-- An event with every sub-document, stamped in 2023 (UTC, no monotonic reading), with the
given `capabilities_added`. -/
def capsEvent (caps : Option (List GoString)) : RuntimeEvent :=
  { Timestamp := { unixNano := 1700000000123456789 },
    ClusterID := ofText "kind-local", NodeID := ofText "kind-worker",
    EventType := ofText "process_exec", EventID := ofText "e-7",
    Process := some { PID := 4242, PPID := 1, UID := 0, GID := 0, Exe := ofText "/bin/bash",
                      Cmdline := ofText "bash -i", Cwd := ofText "/", HasTTY := true,
                      CapabilitiesAdded := caps },
    Container := some { ContainerID := ofText "0123456789ab", Image := ofText "nginx:1.25",
                        ImageDigest := ofText "sha256:ab", Pod := ofText "web-0",
                        Namespace := ofText "prod", ServiceAccount := ofText "web-sa",
                        Labels := some [(ofText "app", ofText "web")] },
    Network := some { DstIP := ofText "10.0.0.7", DstPort := 443, Proto := ofText "tcp",
                      DstDomain := ofText "example.org" },
    RawRef := ofText "falco:1" }

/-- An event with every sub-document and one added capability. -/
def fullEvent : RuntimeEvent := capsEvent (some [ofText "CAP_SYS_ADMIN"])

/-- An event without sub-documents, stamped at the given time, with the given id. -/
def bareEvent (t : Time) (id : GoString) : RuntimeEvent :=
  { Timestamp := t, ClusterID := ofText "kind-local", NodeID := ofText "kind-worker",
    EventType := ofText "process_exec", EventID := id,
    Process := none, Container := none, Network := none, RawRef := [] }

end models

/-! # Properties -/

namespace respond

open logging

/-! ### Effects of the logging primitives -/

@[simp] theorem loggerLog_action_logs (e : SecurityEvent) (w : World) :
    (loggerLog e w).action_logs = w.action_logs := rfl

@[simp] theorem loggerLog_cluster (e : SecurityEvent) (w : World) :
    (loggerLog e w).cluster = w.cluster := rfl

@[simp] theorem loggerLog_calls (e : SecurityEvent) (w : World) :
    (loggerLog e w).calls = w.calls := rfl

@[simp] theorem loggerResponse_action_logs (m : String) (r : ResponseInfo) (t : TargetInfo)
    (i : String) (w : World) : (loggerResponse m r t i w).action_logs = w.action_logs := rfl

@[simp] theorem loggerResponse_cluster (m : String) (r : ResponseInfo) (t : TargetInfo)
    (i : String) (w : World) : (loggerResponse m r t i w).cluster = w.cluster := rfl

@[simp] theorem loggerResponse_calls (m : String) (r : ResponseInfo) (t : TargetInfo)
    (i : String) (w : World) : (loggerResponse m r t i w).calls = w.calls := rfl

@[simp] theorem loggerInfo_action_logs (m : String) (md : List (String × String)) (w : World) :
    (loggerInfo m md w).action_logs = w.action_logs := rfl

@[simp] theorem loggerInfo_cluster (m : String) (md : List (String × String)) (w : World) :
    (loggerInfo m md w).cluster = w.cluster := rfl

@[simp] theorem loggerInfo_calls (m : String) (md : List (String × String)) (w : World) :
    (loggerInfo m md w).calls = w.calls := rfl

/-- The function `logResponseAction` while the database takes the INSERT. -/
theorem logResponseAction_ok (i a t s m : String) (b : Bool) (br : String)
    (tg : TargetInfo) (w : World) (hdb : w.dbFault = none) :
    logResponseAction i a t s m b br tg w =
      loggerLog { Level := LevelInfo, Message := m, IncidentID := i, Target := some tg,
                  Response := some { Action := a, Status := s, Reason := m, Blocked := b,
                                     BlockReason := br },
                  Metadata := [("action_id", w.uuids w.drawn)] }
        { w with drawn := w.drawn + 1,
                 action_logs := w.action_logs ++
                   [{ id := w.uuids w.drawn, incident_id := i, action_type := a, target := t,
                      status := s, message := m }] } := by
  unfold logResponseAction uuidNew
  simp only [hdb]

/-- The function `logResponseAction` while the database refuses the INSERT. -/
theorem logResponseAction_fault (i a t s m : String) (b : Bool) (br : String)
    (tg : TargetInfo) (w : World) (err : String) (hdb : w.dbFault = some err) :
    logResponseAction i a t s m b br tg w =
      loggerLog { Level := LevelInfo, Message := m, IncidentID := i, Target := some tg,
                  Response := some { Action := a, Status := s, Reason := m, Blocked := b,
                                     BlockReason := br },
                  Metadata := [("action_id", w.uuids w.drawn)] }
        (loggerError "Failed to log action to database" err
          [("action_id", w.uuids w.drawn)] { w with drawn := w.drawn + 1 }) := by
  unfold logResponseAction uuidNew
  simp only [hdb]

@[simp] theorem logResponseAction_action_logs (i a t s m : String) (b : Bool) (br : String)
    (tg : TargetInfo) (w : World) :
    (logResponseAction i a t s m b br tg w).action_logs = w.action_logs ++
      inserted w { id := w.uuids w.drawn, incident_id := i, action_type := a, target := t,
                   status := s, message := m } := by
  cases hdb : w.dbFault with
  | none =>
    rw [logResponseAction_ok i a t s m b br tg w hdb]
    simp [inserted, hdb]
  | some err =>
    rw [logResponseAction_fault i a t s m b br tg w err hdb]
    simp [inserted, hdb, loggerError]

@[simp] theorem logResponseAction_cluster (i a t s m : String) (b : Bool) (br : String)
    (tg : TargetInfo) (w : World) :
    (logResponseAction i a t s m b br tg w).cluster = w.cluster := by
  cases hdb : w.dbFault with
  | none => rw [logResponseAction_ok i a t s m b br tg w hdb]; rfl
  | some err => rw [logResponseAction_fault i a t s m b br tg w err hdb]; rfl

@[simp] theorem logResponseAction_calls (i a t s m : String) (b : Bool) (br : String)
    (tg : TargetInfo) (w : World) :
    (logResponseAction i a t s m b br tg w).calls = w.calls := by
  cases hdb : w.dbFault with
  | none => rw [logResponseAction_ok i a t s m b br tg w hdb]; rfl
  | some err => rw [logResponseAction_fault i a t s m b br tg w err hdb]; rfl

@[simp] theorem logResponseAction_dbFault (i a t s m : String) (b : Bool) (br : String)
    (tg : TargetInfo) (w : World) :
    (logResponseAction i a t s m b br tg w).dbFault = w.dbFault := by
  cases hdb : w.dbFault with
  | none => rw [logResponseAction_ok i a t s m b br tg w hdb]; exact hdb
  | some err => rw [logResponseAction_fault i a t s m b br tg w err hdb]; exact hdb

theorem logResponseAction_output (i a t s m : String) (b : Bool) (br : String)
    (tg : TargetInfo) (w : World) (hdb : w.dbFault = none) :
    (logResponseAction i a t s m b br tg w).output = w.output ++
      [{ Level := LevelInfo, Service := "podwatch-respond", Component := "orchestrator",
         Message := m, IncidentID := i, Target := some tg,
         Response := some { Action := a, Status := s, Reason := m, Blocked := b,
                            BlockReason := br },
         Metadata := [("action_id", w.uuids w.drawn)] }] := by
  rw [logResponseAction_ok i a t s m b br tg w hdb]
  rfl

theorem inserted_ok (w : World) (row : ActionLog) (hdb : w.dbFault = none) :
    inserted w row = [row] := by
  simp [inserted, hdb]

theorem mem_inserted (w : World) (row r : ActionLog) (h : r ∈ inserted w row) : r = row := by
  unfold inserted at h
  cases hdb : w.dbFault with
  | none => simpa [hdb] using h
  | some e => simp [hdb] at h

theorem isProtected_iff (ns : String) :
    isProtected ns = true ↔ ns = "kube-system" ∨ ns = "security-system" := by
  unfold isProtected protectedNamespaces
  by_cases h1 : ns = "kube-system"
  · subst h1; simp [List.lookup]
  · by_cases h2 : ns = "security-system"
    · subst h2; simp [List.lookup]
    · have e1 : (ns == "kube-system") = false := by simpa using h1
      have e2 : (ns == "security-system") = false := by simpa using h2
      simp [List.lookup, e1, e2, h1, h2]

theorem manualOverride_eq_true (c : Cluster) (ns podName : String) :
    manualOverride c ns podName = true ↔
      ns ≠ "" ∧ podName ≠ "" ∧ ∃ pod, c.getPod ns podName = .ok pod ∧
        pod.Labels.lookup "security.response" = some "manual" := by
  unfold manualOverride
  cases h : c.getPod ns podName <;> simp [and_assoc]

theorem label_getD_manual (l : List (String × String)) :
    (l.lookup "security.response").getD "" = "manual" ↔
      l.lookup "security.response" = some "manual" := by
  cases h : l.lookup "security.response" <;> simp

/-- What `handleAlert` does once the manual-override guardrail is decided. -/
theorem handleAlert_eq (alert : Alert) (w : World) (h : alert.Response ≠ "") :
    handleAlert (.ok alert) w =
      if manualOverride w.cluster (buildTarget alert).1 (buildTarget alert).2.1 then
        logResponseAction alert.IncidentID alert.Response (buildTarget alert).2.1 StatusSkipped
          "Pod has security.response=manual label" true "Manual override label"
          (buildTarget alert).2.2.2 w
      else
        executeResponse alert (buildTarget alert).1 (buildTarget alert).2.1
          (buildTarget alert).2.2.1 (buildTarget alert).2.2.2 w := by
  unfold handleAlert
  simp only [h, if_false]
  rcases hb : buildTarget alert with ⟨ns, podName, nodeName, target⟩
  simp only
  by_cases hn : ns ≠ "" ∧ podName ≠ ""
  · rw [if_pos hn]
    cases hg : w.cluster.getPod ns podName with
    | error e => simp [manualOverride, hg]
    | ok pod =>
      simp only [label_getD_manual]
      by_cases hl : pod.Labels.lookup "security.response" = some "manual"
      · have : manualOverride w.cluster ns podName = true :=
          (manualOverride_eq_true _ _ _).2 ⟨hn.1, hn.2, pod, hg, hl⟩
        simp [hl, this]
      · have : manualOverride w.cluster ns podName = false := by
          rw [Bool.eq_false_iff]
          intro hm
          obtain ⟨_, _, pod2, hg2, hl2⟩ := (manualOverride_eq_true _ _ _).1 hm
          rw [hg] at hg2
          cases hg2
          exact hl hl2
        simp [hl, this]
  · rw [if_neg hn]
    have : manualOverride w.cluster ns podName = false := by
      rw [Bool.eq_false_iff]
      intro hm
      obtain ⟨h1, h2, _⟩ := (manualOverride_eq_true _ _ _).1 hm
      exact hn ⟨h1, h2⟩
    simp [this]

/-! ### Guardrails of `handleAlert` -/

theorem blocked_ne_success : StatusBlocked ≠ "success" := by decide

theorem failed_ne_success : StatusFailed ≠ "success" := by decide

theorem skipped_ne_success : StatusSkipped ≠ "success" := by decide

/-- The rows `executeKillPod` writes and the requests it sends: one INSERT; its row is a
`success` row only after a deletion in a namespace that is not protected. -/
theorem executeKillPod_effect (alert : Alert) (ns podName : String) (target : TargetInfo)
    (w : World) :
    ∃ row, (executeKillPod alert ns podName target w).action_logs =
        w.action_logs ++ inserted w row ∧
      row.action_type = "kill_pod" ∧
      (row.status = "success" ∨ row.status = "failed" ∨ row.status = "blocked") ∧
      (row.status = "success" → row.target = ns ++ "/" ++ podName ∧ isProtected ns = false) ∧
      ((executeKillPod alert ns podName target w).calls = w.calls ∨
        ((executeKillPod alert ns podName target w).calls =
          w.calls ++ [ApiCall.deletePod ns podName] ∧ isProtected ns = false)) ∧
      ∀ p ∈ w.cluster.pods, isProtected p.Namespace = true →
        p ∈ (executeKillPod alert ns podName target w).cluster.pods := by
  unfold executeKillPod
  by_cases hp : isProtected ns = true
  · rw [if_pos hp]
    exact ⟨_, logResponseAction_action_logs _ _ _ _ _ _ _ _ _, rfl, Or.inr (Or.inr rfl),
      fun h => absurd h blocked_ne_success, Or.inl (by simp), fun p h _ => by simpa using h⟩
  · have hp2 : isProtected ns = false := by simpa using hp
    rw [if_neg hp]
    by_cases he : ns = "" ∨ podName = ""
    · rw [if_pos he]
      exact ⟨_, logResponseAction_action_logs _ _ _ _ _ _ _ _ _, rfl, Or.inr (Or.inl rfl),
        fun h => absurd h failed_ne_success, Or.inl (by simp), fun p h _ => by simpa using h⟩
    · rw [if_neg he]
      cases hd : w.cluster.deletePod ns podName with
      | error e =>
        simp only [hd]
        refine ⟨{ id := w.uuids w.drawn, incident_id := alert.IncidentID,
                  action_type := ResponseKillPod, target := ns ++ "/" ++ podName,
                  status := StatusFailed, message := e }, ?_, rfl, Or.inr (Or.inl rfl),
          fun h => absurd h failed_ne_success, Or.inr ⟨by simp, hp2⟩,
          fun p h _ => by simpa using h⟩
        simp [inserted]
      | ok c =>
        simp only [hd]
        refine ⟨{ id := w.uuids w.drawn, incident_id := alert.IncidentID,
                  action_type := ResponseKillPod, target := ns ++ "/" ++ podName,
                  status := StatusSuccess, message := "Pod terminated" }, ?_, rfl, Or.inl rfl,
          fun _ => ⟨rfl, hp2⟩, Or.inr ⟨by simp, hp2⟩, ?_⟩
        · simp [inserted]
        · intro p hpm hpp
          simp only [loggerResponse_cluster, logResponseAction_cluster]
          show p ∈ c.pods
          unfold Cluster.deletePod at hd
          cases hr : w.cluster.refuseDelete with
          | some e => simp [hr] at hd
          | none =>
            cases hg : w.cluster.findPod ns podName with
            | none => simp [hr, hg] at hd
            | some q =>
              simp only [hr, hg, Except.ok.injEq] at hd
              subst hd
              simp only [List.mem_filter, hpm, true_and, decide_eq_true_eq]
              rintro ⟨h1, _⟩
              rw [h1, hp2] at hpp
              cases hpp

/-- The row `executeQuarantineNamespace` writes; it sends no mutating request. -/
theorem executeQuarantineNamespace_effect (alert : Alert) (ns : String) (target : TargetInfo)
    (w : World) :
    ∃ row, (executeQuarantineNamespace alert ns target w).action_logs =
        w.action_logs ++ inserted w row ∧
      row.action_type = "quarantine_namespace" ∧
      (row.status = "success" ∨ row.status = "failed" ∨ row.status = "blocked") ∧
      (row.status = "success" → row.target = ns ∧ isProtected ns = false) ∧
      (executeQuarantineNamespace alert ns target w).calls = w.calls ∧
      (executeQuarantineNamespace alert ns target w).cluster = w.cluster := by
  unfold executeQuarantineNamespace
  by_cases hp : isProtected ns = true
  · rw [if_pos hp]
    exact ⟨_, logResponseAction_action_logs _ _ _ _ _ _ _ _ _, rfl, Or.inr (Or.inr rfl),
      fun h => absurd h blocked_ne_success, by simp, by simp⟩
  · have hp2 : isProtected ns = false := by simpa using hp
    rw [if_neg hp]
    by_cases he : ns = ""
    · rw [if_pos he]
      exact ⟨_, logResponseAction_action_logs _ _ _ _ _ _ _ _ _, rfl, Or.inr (Or.inl rfl),
        fun h => absurd h failed_ne_success, by simp, by simp⟩
    · rw [if_neg he]
      refine ⟨{ id := w.uuids w.drawn, incident_id := alert.IncidentID,
                action_type := ResponseQuarantineNS, target := ns,
                status := StatusSuccess, message := "NetworkPolicy applied" }, ?_, rfl,
        Or.inl rfl, fun _ => ⟨rfl, hp2⟩, by simp, by simp⟩
      simp

/-- The row `executeIsolateNode` writes; it never touches a pod. -/
theorem executeIsolateNode_effect (alert : Alert) (nodeName : String) (target : TargetInfo)
    (w : World) :
    ∃ row, (executeIsolateNode alert nodeName target w).action_logs =
        w.action_logs ++ inserted w row ∧
      row.action_type = "isolate_node" ∧
      (row.status = "success" ∨ row.status = "failed" ∨ row.status = "blocked") ∧
      (∀ ns name, ApiCall.deletePod ns name ∈ (executeIsolateNode alert nodeName target w).calls →
        ApiCall.deletePod ns name ∈ w.calls) ∧
      (executeIsolateNode alert nodeName target w).cluster.pods = w.cluster.pods := by
  unfold executeIsolateNode
  by_cases he : nodeName = ""
  · rw [if_pos he]
    exact ⟨_, logResponseAction_action_logs _ _ _ _ _ _ _ _ _, rfl, Or.inr (Or.inl rfl),
      fun _ _ h => by simpa using h, by simp⟩
  · rw [if_neg he]
    cases hg : w.cluster.getNode nodeName with
    | error e =>
      exact ⟨_, logResponseAction_action_logs _ _ _ _ _ _ _ _ _, rfl, Or.inr (Or.inl rfl),
        fun _ _ h => by simpa using h, by simp⟩
    | ok node =>
      simp only
      by_cases h1 : hasLabel node.Labels "node-role.kubernetes.io/control-plane" = true
      · rw [if_pos h1]
        exact ⟨_, logResponseAction_action_logs _ _ _ _ _ _ _ _ _, rfl, Or.inr (Or.inr rfl),
          fun _ _ h => by simpa using h, by simp⟩
      · rw [if_neg h1]
        by_cases h2 : hasLabel node.Labels "node-role.kubernetes.io/master" = true
        · rw [if_pos h2]
          exact ⟨_, logResponseAction_action_logs _ _ _ _ _ _ _ _ _, rfl, Or.inr (Or.inr rfl),
            fun _ _ h => by simpa using h, by simp⟩
        · rw [if_neg h2]
          cases hu : w.cluster.updateNode { node with Unschedulable := true } with
          | error e =>
            simp only [hu]
            refine ⟨{ id := w.uuids w.drawn, incident_id := alert.IncidentID,
                      action_type := ResponseIsolateNode, target := nodeName,
                      status := StatusFailed, message := e }, ?_, rfl, Or.inr (Or.inl rfl),
              ?_, by simp⟩
            · simp [inserted]
            · intro ns name h
              simpa using h
          | ok c =>
            have hpods : c.pods = w.cluster.pods := by
              unfold Cluster.updateNode at hu
              cases hr : w.cluster.refuseUpdate with
              | some e => simp [hr] at hu
              | none =>
                cases hg2 : w.cluster.findNode node.Name with
                | none => simp [hr, hg2] at hu
                | some q =>
                  simp only [hr, hg2, Except.ok.injEq] at hu
                  subst hu
                  rfl
            simp only [hu]
            refine ⟨{ id := w.uuids w.drawn, incident_id := alert.IncidentID,
                      action_type := ResponseIsolateNode, target := nodeName,
                      status := StatusSuccess, message := "Node cordoned" }, ?_, rfl,
              Or.inl rfl, ?_, by simpa using hpods⟩
            · simp [inserted]
            · intro ns name h
              simpa using h

/-- The row `executeEvidenceBundle` writes; it sends no mutating request. -/
theorem executeEvidenceBundle_effect (alert : Alert) (target : TargetInfo) (w : World) :
    ∃ row, (executeEvidenceBundle alert target w).action_logs =
        w.action_logs ++ inserted w row ∧
      row.action_type = "evidence_bundle" ∧ row.status = "success" ∧
      (executeEvidenceBundle alert target w).calls = w.calls ∧
      (executeEvidenceBundle alert target w).cluster = w.cluster := by
  unfold executeEvidenceBundle uuidNew
  refine ⟨{ id := w.uuids (w.drawn + 1), incident_id := alert.IncidentID,
            action_type := ResponseEvidenceBundle, target := w.uuids w.drawn,
            status := StatusSuccess, message := "Evidence collected" }, ?_, rfl, rfl,
    by simp, by simp⟩
  simp [inserted]

/-- The rows written by the switch of `handleAlert`: one INSERT for the four implemented
actions, none for any other response. -/
theorem executeResponse_rows (alert : Alert) (ns podName nodeName : String)
    (target : TargetInfo) (w : World) :
    (¬ (alert.Response = "kill_pod" ∨ alert.Response = "quarantine_namespace" ∨
          alert.Response = "isolate_node" ∨ alert.Response = "evidence_bundle") ∧
        (executeResponse alert ns podName nodeName target w).action_logs = w.action_logs) ∨
      ((alert.Response = "kill_pod" ∨ alert.Response = "quarantine_namespace" ∨
          alert.Response = "isolate_node" ∨ alert.Response = "evidence_bundle") ∧
        ∃ row, (executeResponse alert ns podName nodeName target w).action_logs =
            w.action_logs ++ inserted w row ∧
          row.action_type = alert.Response ∧
          (row.status = "success" ∨ row.status = "failed" ∨ row.status = "blocked") ∧
          (row.status = "success" → alert.Response = "kill_pod" →
            row.target = ns ++ "/" ++ podName ∧ isProtected ns = false) ∧
          (row.status = "success" → alert.Response = "quarantine_namespace" →
            row.target = ns ∧ isProtected ns = false)) := by
  unfold executeResponse
  by_cases h1 : alert.Response = "kill_pod"
  · rw [if_pos h1]
    obtain ⟨row, hr, ht, hs, hsucc, _⟩ := executeKillPod_effect alert ns podName target w
    refine Or.inr ⟨Or.inl h1, row, hr, ht.trans h1.symm, hs, fun a _ => hsucc a, ?_⟩
    intro _ hq
    rw [h1] at hq
    exact absurd hq (by decide)
  · rw [if_neg h1]
    by_cases h2 : alert.Response = "quarantine_namespace"
    · rw [if_pos h2]
      obtain ⟨row, hr, ht, hs, hsucc, _⟩ := executeQuarantineNamespace_effect alert ns target w
      exact Or.inr ⟨Or.inr (Or.inl h2), row, hr, ht.trans h2.symm, hs,
        fun _ hk => absurd hk h1, fun a _ => hsucc a⟩
    · rw [if_neg h2]
      by_cases h3 : alert.Response = "isolate_node"
      · rw [if_pos h3]
        obtain ⟨row, hr, ht, hs, _⟩ := executeIsolateNode_effect alert nodeName target w
        exact Or.inr ⟨Or.inr (Or.inr (Or.inl h3)), row, hr, ht.trans h3.symm, hs,
          fun _ hk => absurd hk h1, fun _ hq => absurd hq h2⟩
      · rw [if_neg h3]
        by_cases h4 : alert.Response = "evidence_bundle"
        · rw [if_pos h4]
          obtain ⟨row, hr, ht, hs, _⟩ := executeEvidenceBundle_effect alert target w
          exact Or.inr ⟨Or.inr (Or.inr (Or.inr h4)), row, hr, ht.trans h4.symm, Or.inl hs,
            fun _ hk => absurd hk h1, fun _ hq => absurd hq h2⟩
        · rw [if_neg h4]
          refine Or.inl ⟨?_, rfl⟩
          rintro (h | h | h | h)
          exacts [h1 h, h2 h, h3 h, h4 h]

/-- The switch of `handleAlert` keeps every pod of a protected namespace, and every pod
deletion it requests is in a namespace that is not protected. -/
theorem executeResponse_protected (alert : Alert) (ns podName nodeName : String)
    (target : TargetInfo) (w : World) :
    (∀ p ∈ w.cluster.pods, isProtected p.Namespace = true →
        p ∈ (executeResponse alert ns podName nodeName target w).cluster.pods) ∧
      ∀ n name, ApiCall.deletePod n name ∈
          (executeResponse alert ns podName nodeName target w).calls →
        ApiCall.deletePod n name ∈ w.calls ∨ isProtected n = false := by
  unfold executeResponse
  by_cases h1 : alert.Response = "kill_pod"
  · rw [if_pos h1]
    obtain ⟨row, _, _, _, _, hc, hp⟩ := executeKillPod_effect alert ns podName target w
    refine ⟨hp, ?_⟩
    intro n name hmem
    rcases hc with hc | ⟨hc, hnp⟩
    · rw [hc] at hmem
      exact Or.inl hmem
    · rw [hc, List.mem_append, List.mem_singleton] at hmem
      rcases hmem with hmem | hmem
      · exact Or.inl hmem
      · cases hmem
        exact Or.inr hnp
  · rw [if_neg h1]
    by_cases h2 : alert.Response = "quarantine_namespace"
    · rw [if_pos h2]
      obtain ⟨row, _, _, _, _, hc, hcl⟩ := executeQuarantineNamespace_effect alert ns target w
      rw [hc, hcl]
      exact ⟨fun _ h _ => h, fun _ _ h => Or.inl h⟩
    · rw [if_neg h2]
      by_cases h3 : alert.Response = "isolate_node"
      · rw [if_pos h3]
        obtain ⟨row, _, _, _, hc, hpods⟩ := executeIsolateNode_effect alert nodeName target w
        rw [hpods]
        exact ⟨fun _ h _ => h, fun n name h => Or.inl (hc n name h)⟩
      · rw [if_neg h3]
        by_cases h4 : alert.Response = "evidence_bundle"
        · rw [if_pos h4]
          obtain ⟨row, _, _, _, hc, hcl⟩ := executeEvidenceBundle_effect alert target w
          rw [hc, hcl]
          exact ⟨fun _ h _ => h, fun _ _ h => Or.inl h⟩
        · rw [if_neg h4]
          exact ⟨fun _ h _ => h, fun _ _ h => Or.inl h⟩

theorem slash_not_mem_of_isProtected (N : String) (h : isProtected N = true) :
    '/' ∉ N.toList := by
  rcases (isProtected_iff N).1 h with h | h <;> subst h <;> decide

theorem toList_slash_join (a b : String) : (a ++ "/" ++ b).toList = a.toList ++ '/' :: b.toList := by
  simp [String.toList, String.data_append]

theorem eq_of_slash_split : ∀ (a c x y : List Char), '/' ∉ a → '/' ∉ c →
    a ++ '/' :: x = c ++ '/' :: y → a = c
  | [], [], _, _, _, _, _ => rfl
  | [], d :: c, x, y, _, hc, h => by
    simp only [List.nil_append, List.cons_append, List.cons.injEq] at h
    exact absurd (h.1 ▸ List.mem_cons_self _ _) hc
  | b :: a, [], x, y, ha, _, h => by
    simp only [List.nil_append, List.cons_append, List.cons.injEq] at h
    exact absurd (h.1 ▸ List.mem_cons_self _ _) ha
  | b :: a, d :: c, x, y, ha, hc, h => by
    simp only [List.cons_append, List.cons.injEq] at h
    rw [h.1, eq_of_slash_split a c x y (fun m => ha (List.mem_cons_of_mem _ m))
      (fun m => hc (List.mem_cons_of_mem _ m)) h.2]

/-- C2: for every alert and every world, `handleAlert` keeps every pod of a protected
namespace in the cluster and requests no pod deletion in a protected namespace; and every
`success` row it appends for `kill_pod` has as target the alert's pod `ns/pod` with `ns` not
protected, every `success` row for `quarantine_namespace` has as target the alert's
namespace `ns` with `ns` not protected. So the target of such a row is never a protected
namespace `N`, and (namespace names holding no `/`) never of the form `N/<pod>`. -/
theorem handleAlert_no_success_on_protected (alert : Alert) (w : World) :
    (∀ p ∈ w.cluster.pods, isProtected p.Namespace = true →
        p ∈ (handleAlert (.ok alert) w).cluster.pods) ∧
    (∀ n name, ApiCall.deletePod n name ∈ (handleAlert (.ok alert) w).calls →
        ApiCall.deletePod n name ∈ w.calls ∨ isProtected n = false) ∧
    ∃ rows, (handleAlert (.ok alert) w).action_logs = w.action_logs ++ rows ∧
      ∀ row ∈ rows, row.status = "success" →
        (row.action_type = "kill_pod" →
          row.target = (buildTarget alert).1 ++ "/" ++ (buildTarget alert).2.1 ∧
          isProtected (buildTarget alert).1 = false) ∧
        (row.action_type = "quarantine_namespace" →
          row.target = (buildTarget alert).1 ∧ isProtected (buildTarget alert).1 = false) ∧
        (row.action_type = "kill_pod" ∨ row.action_type = "quarantine_namespace" →
          ∀ N, isProtected N = true →
            row.target ≠ N ∧
            ('/' ∉ (buildTarget alert).1.toList → ∀ pod, row.target ≠ N ++ "/" ++ pod)) := by
  by_cases hne : alert.Response = ""
  · have hw : handleAlert (.ok alert) w = w := by simp [handleAlert, hne]
    rw [hw]
    exact ⟨fun _ h _ => h, fun _ _ h => Or.inl h, [], by simp, by simp⟩
  · rw [handleAlert_eq alert w hne]
    by_cases hm : manualOverride w.cluster (buildTarget alert).1 (buildTarget alert).2.1 = true
    · rw [if_pos hm]
      refine ⟨fun _ h _ => by simpa using h, fun _ _ h => Or.inl (by simpa using h), _,
        logResponseAction_action_logs _ _ _ _ _ _ _ _ _, ?_⟩
      intro row hrow hs
      have hrow2 := mem_inserted _ _ _ hrow
      subst hrow2
      exact absurd hs skipped_ne_success
    · rw [if_neg hm]
      obtain ⟨hpods, hcalls⟩ := executeResponse_protected alert (buildTarget alert).1
        (buildTarget alert).2.1 (buildTarget alert).2.2.1 (buildTarget alert).2.2.2 w
      refine ⟨hpods, hcalls, ?_⟩
      rcases executeResponse_rows alert (buildTarget alert).1 (buildTarget alert).2.1
        (buildTarget alert).2.2.1 (buildTarget alert).2.2.2 w with ⟨_, h0⟩ | ⟨_, row, hr, ht, _, hk, hq⟩
      · exact ⟨[], by simp [h0], by simp⟩
      · refine ⟨inserted w row, hr, ?_⟩
        intro r hmem hs
        have hmem2 := mem_inserted _ _ _ hmem
        subst hmem2
        rw [ht]
        refine ⟨hk hs, hq hs, ?_⟩
        intro hor N hN
        have hslash := slash_not_mem_of_isProtected N hN
        rcases hor with hkill | hquar
        · obtain ⟨htar, hnp⟩ := hk hs hkill
          refine ⟨?_, ?_⟩
          · intro he
            apply hslash
            rw [← he, htar, toList_slash_join]
            simp
          · intro hwf pod he
            rw [htar] at he
            have hl := congrArg String.toList he
            rw [toList_slash_join, toList_slash_join] at hl
            have : (buildTarget alert).1.toList = N.toList :=
              eq_of_slash_split _ _ _ _ hwf hslash hl
            have hNeq : (buildTarget alert).1 = N := String.ext this
            rw [hNeq, hN] at hnp
            cases hnp
        · obtain ⟨htar, hnp⟩ := hq hs hquar
          refine ⟨?_, ?_⟩
          · intro he
            rw [htar] at he
            rw [he, hN] at hnp
            cases hnp
          · intro hwf pod he
            apply hwf
            rw [← htar, he, toList_slash_join]
            simp

/-- C5, as stated, fails: a `notify` alert appends no action-log row. -/
theorem handleAlert_notify_writes_no_row :
    (alertFor "notify" (some (eventOn "worker-1" (some (containerIn "prod" "p1"))))).Response
        = ResponseNotify ∧
      (handleAlert (.ok (alertFor "notify"
          (some (eventOn "worker-1" (some (containerIn "prod" "p1"))))))
        (worldOf smallCluster)).action_logs = (worldOf smallCluster).action_logs := by
  decide

/-- C5 (amended): for an alert whose response is one of the seven catalogue actions, in
every world whose database takes the INSERT: if the response is `kill_pod`,
`quarantine_namespace`, `isolate_node` or `evidence_bundle`, `handleAlert` appends exactly
one action-log row, with status `success`, `failed`, `blocked` or `skipped`; if it is
`notify`, `block_network` or `revoke_credentials`, `handleAlert` appends one row with status
`skipped` when the `Get` of the alert's pod is answered with a pod labelled
`security.response=manual`, and no row otherwise. -/
theorem handleAlert_rows_by_response (alert : Alert) (w : World)
    (hcat : alert.Response = "kill_pod" ∨ alert.Response = "quarantine_namespace" ∨
      alert.Response = "isolate_node" ∨ alert.Response = "evidence_bundle" ∨
      alert.Response = "notify" ∨ alert.Response = "block_network" ∨
      alert.Response = "revoke_credentials")
    (hdb : w.dbFault = none) :
    (alert.Response = "kill_pod" ∨ alert.Response = "quarantine_namespace" ∨
        alert.Response = "isolate_node" ∨ alert.Response = "evidence_bundle" →
      ∃ row, (handleAlert (.ok alert) w).action_logs = w.action_logs ++ [row] ∧
        (row.status = "success" ∨ row.status = "failed" ∨ row.status = "blocked" ∨
          row.status = "skipped")) ∧
    (alert.Response = "notify" ∨ alert.Response = "block_network" ∨
        alert.Response = "revoke_credentials" →
      (manualOverride w.cluster (buildTarget alert).1 (buildTarget alert).2.1 = true →
        ∃ row, (handleAlert (.ok alert) w).action_logs = w.action_logs ++ [row] ∧
          row.status = "skipped") ∧
      (manualOverride w.cluster (buildTarget alert).1 (buildTarget alert).2.1 = false →
        (handleAlert (.ok alert) w).action_logs = w.action_logs)) := by
  have hne : alert.Response ≠ "" := by
    rcases hcat with h | h | h | h | h | h | h <;> rw [h] <;> decide
  rw [handleAlert_eq alert w hne]
  refine ⟨?_, ?_⟩
  · intro h4
    by_cases hm : manualOverride w.cluster (buildTarget alert).1 (buildTarget alert).2.1 = true
    · rw [if_pos hm]
      refine ⟨{ id := w.uuids w.drawn, incident_id := alert.IncidentID,
                action_type := alert.Response, target := (buildTarget alert).2.1,
                status := StatusSkipped,
                message := "Pod has security.response=manual label" }, ?_,
        Or.inr (Or.inr (Or.inr rfl))⟩
      rw [logResponseAction_action_logs, inserted_ok w _ hdb]
    · rw [if_neg hm]
      rcases executeResponse_rows alert (buildTarget alert).1 (buildTarget alert).2.1
        (buildTarget alert).2.2.1 (buildTarget alert).2.2.2 w with ⟨hn, _⟩ | ⟨_, row, hr, _, hs, _⟩
      · exact absurd h4 hn
      · rw [inserted_ok w _ hdb] at hr
        refine ⟨row, hr, ?_⟩
        rcases hs with hs | hs | hs
        · exact Or.inl hs
        · exact Or.inr (Or.inl hs)
        · exact Or.inr (Or.inr (Or.inl hs))
  · intro h3
    refine ⟨?_, ?_⟩
    · intro hm
      rw [if_pos hm]
      refine ⟨{ id := w.uuids w.drawn, incident_id := alert.IncidentID,
                action_type := alert.Response, target := (buildTarget alert).2.1,
                status := StatusSkipped,
                message := "Pod has security.response=manual label" }, ?_, rfl⟩
      rw [logResponseAction_action_logs, inserted_ok w _ hdb]
    · intro hm
      rw [hm]
      simp only [Bool.false_eq_true, if_false]
      rcases executeResponse_rows alert (buildTarget alert).1 (buildTarget alert).2.1
        (buildTarget alert).2.2.1 (buildTarget alert).2.2.2 w with ⟨_, h0⟩ | ⟨h4, _⟩
      · exact h0
      · exfalso
        rcases h3 with h | h | h <;> rw [h] at h4 <;> revert h4 <;> decide

/-- C5 witness: the amended statement at a `kill_pod` alert on the stored pod `prod/p1`. -/
theorem handleAlert_rows_by_response_witness :
    ((alertFor "kill_pod" (some (eventOn "worker-1" (some (containerIn "prod" "p1"))))).Response
        = "kill_pod" ∨
      (alertFor "kill_pod" (some (eventOn "worker-1" (some (containerIn "prod" "p1"))))).Response
        = "quarantine_namespace" ∨
      (alertFor "kill_pod" (some (eventOn "worker-1" (some (containerIn "prod" "p1"))))).Response
        = "isolate_node" ∨
      (alertFor "kill_pod" (some (eventOn "worker-1" (some (containerIn "prod" "p1"))))).Response
        = "evidence_bundle") ∧
    ∃ row, (handleAlert (.ok (alertFor "kill_pod"
          (some (eventOn "worker-1" (some (containerIn "prod" "p1"))))))
        (worldOf smallCluster)).action_logs = (worldOf smallCluster).action_logs ++ [row] ∧
      (row.status = "success" ∨ row.status = "failed" ∨ row.status = "blocked" ∨
        row.status = "skipped") :=
  ⟨Or.inl rfl,
    (handleAlert_rows_by_response
      (alertFor "kill_pod" (some (eventOn "worker-1" (some (containerIn "prod" "p1")))))
      (worldOf smallCluster) (Or.inl rfl) rfl).1 (Or.inl rfl)⟩

/-! ### Missing target fields -/

end respond

namespace matcher

/-! ### The programs map -/

theorem lookup_filter_ne {β : Type} (m : List (String × β)) (key k : String) (h : k ≠ key) :
    (m.filter (fun kv => kv.1 ≠ key)).lookup k = m.lookup k := by
  induction m with
  | nil => rfl
  | cons kv rest ih =>
    obtain ⟨a, b⟩ := kv
    by_cases ha : a = key
    · subst ha
      have hk : (k == a) = false := by simpa using h
      rw [List.filter_cons_of_neg (by simp), ih]
      simp [List.lookup, hk]
    · rw [List.filter_cons_of_pos (by simpa using ha)]
      by_cases hka : k = a
      · subst hka
        simp [List.lookup]
      · have hk : (k == a) = false := by simpa using hka
        simp only [List.lookup, hk]
        exact ih

theorem lookup_mapSet_self {β : Type} (m : List (String × β)) (key : String) (v : β) :
    (mapSet m key v).lookup key = some v := by
  simp [mapSet, List.lookup]

theorem lookup_mapSet_ne {β : Type} (m : List (String × β)) (key k : String) (v : β)
    (h : k ≠ key) : (mapSet m key v).lookup k = m.lookup k := by
  have hk : (k == key) = false := by simpa using h
  simp only [mapSet, List.lookup, hk]
  exact lookup_filter_ne m key k h

/-- One step of the loop of `CompileAll` on an enabled rule that compiles. -/
theorem compileLoop_cons_ok (env : CelEnv) (rule : Rule) (rest : List Rule)
    (programs : List (String × env.Prg)) (prg : env.Prg)
    (hen : rule.Enabled = true) (hc : compileRule env rule.Condition = some prg) :
    compileLoop env (rule :: rest) programs =
      compileLoop env rest (mapSet programs rule.ID prg) := by
  unfold compileRule at hc
  rw [compileLoop]
  simp only [hen, not_true_eq_false, if_false]
  cases h1 : env.Compile rule.Condition with
  | error e => simp [h1] at hc
  | ok ast =>
    simp only [h1] at hc ⊢
    cases h2 : env.Program ast with
    | error e => simp [h2] at hc
    | ok p =>
      simp only [h2, Option.some.injEq] at hc ⊢
      rw [hc]

/-- One step of the loop of `CompileAll` on an enabled rule that does not compile. -/
theorem compileLoop_cons_error (env : CelEnv) (rule : Rule) (rest : List Rule)
    (programs : List (String × env.Prg))
    (hen : rule.Enabled = true) (hc : compileRule env rule.Condition = none) :
    (compileLoop env (rule :: rest) programs).1 = programs ∧
      (compileLoop env (rule :: rest) programs).2 ≠ none := by
  unfold compileRule at hc
  rw [compileLoop]
  simp only [hen, not_true_eq_false, if_false]
  cases h1 : env.Compile rule.Condition with
  | error e => simp
  | ok ast =>
    simp only [h1] at hc ⊢
    cases h2 : env.Program ast with
    | error e => simp
    | ok p => simp [h2] at hc

/-- One step of the loop of `CompileAll` on a disabled rule. -/
theorem compileLoop_cons_disabled (env : CelEnv) (rule : Rule) (rest : List Rule)
    (programs : List (String × env.Prg)) (hen : rule.Enabled = false) :
    compileLoop env (rule :: rest) programs = compileLoop env rest programs := by
  rw [compileLoop]
  simp [hen]

/-- The loop of `CompileAll` ends without error exactly when every enabled rule compiles. -/
theorem compileLoop_none_iff (env : CelEnv) (rules : List Rule)
    (programs : List (String × env.Prg)) :
    (compileLoop env rules programs).2 = none ↔
      ∀ r ∈ rules, r.Enabled = true → (compileRule env r.Condition).isSome = true := by
  induction rules generalizing programs with
  | nil => simp [compileLoop]
  | cons rule rest ih =>
    cases hen : rule.Enabled with
    | false =>
      rw [compileLoop_cons_disabled env rule rest programs hen, ih]
      simp [hen]
    | true =>
      cases hc : compileRule env rule.Condition with
      | none =>
        have h := (compileLoop_cons_error env rule rest programs hen hc).2
        constructor
        · intro h0
          exact absurd h0 h
        · intro hall
          have := hall rule (List.mem_cons_self _ _) hen
          simp [hc] at this
      | some prg =>
        rw [compileLoop_cons_ok env rule rest programs prg hen hc, ih]
        simp [hen, hc]

/-- The loop of `CompileAll` leaves the entry of an id that no remaining rule has. -/
theorem compileLoop_lookup_frame (env : CelEnv) (rules : List Rule)
    (programs : List (String × env.Prg)) (id : String)
    (hid : id ∉ rules.map (fun r => r.ID)) :
    (compileLoop env rules programs).1.lookup id = programs.lookup id := by
  induction rules generalizing programs with
  | nil => simp [compileLoop]
  | cons rule rest ih =>
    have hne : id ≠ rule.ID := fun h => hid (by simp [h])
    have hrest : id ∉ rest.map (fun r => r.ID) := fun h => hid (by simp at h ⊢; exact Or.inr h)
    cases hen : rule.Enabled with
    | false => rw [compileLoop_cons_disabled env rule rest programs hen, ih _ hrest]
    | true =>
      cases hc : compileRule env rule.Condition with
      | none => rw [(compileLoop_cons_error env rule rest programs hen hc).1]
      | some prg =>
        rw [compileLoop_cons_ok env rule rest programs prg hen hc, ih _ hrest,
          lookup_mapSet_ne _ _ _ _ hne]

/-- After an error-free run of the loop of `CompileAll` over rules with pairwise distinct
ids, every enabled rule finds its own compiled condition under its id. -/
theorem compileLoop_lookup_own (env : CelEnv) (rules : List Rule)
    (programs : List (String × env.Prg))
    (hnodup : (rules.map (fun r => r.ID)).Nodup)
    (hok : (compileLoop env rules programs).2 = none) :
    ∀ r ∈ rules, r.Enabled = true →
      (compileLoop env rules programs).1.lookup r.ID = compileRule env r.Condition := by
  induction rules generalizing programs with
  | nil => intro r hr; cases hr
  | cons rule rest ih =>
    rw [List.map_cons, List.nodup_cons] at hnodup
    obtain ⟨hnotin, hnd⟩ := hnodup
    cases hen : rule.Enabled with
    | false =>
      rw [compileLoop_cons_disabled env rule rest programs hen] at hok ⊢
      intro r hr hre
      rcases List.mem_cons.1 hr with h | h
      · subst h
        rw [hen] at hre
        cases hre
      · exact ih programs hnd hok r h hre
    | true =>
      cases hc : compileRule env rule.Condition with
      | none => exact absurd hok (compileLoop_cons_error env rule rest programs hen hc).2
      | some prg =>
        rw [compileLoop_cons_ok env rule rest programs prg hen hc] at hok ⊢
        intro r hr hre
        rcases List.mem_cons.1 hr with h | h
        · subst h
          rw [compileLoop_lookup_frame env rest _ _ hnotin, lookup_mapSet_self, hc]
        · exact ih _ hnd hok r h hre

/-- An entry present before the loop of `CompileAll` is still present after it. -/
theorem compileLoop_lookup_isSome (env : CelEnv) (rules : List Rule)
    (programs : List (String × env.Prg)) (id : String)
    (h : (programs.lookup id).isSome = true) :
    ((compileLoop env rules programs).1.lookup id).isSome = true := by
  induction rules generalizing programs with
  | nil => simpa [compileLoop] using h
  | cons rule rest ih =>
    cases hen : rule.Enabled with
    | false =>
      rw [compileLoop_cons_disabled env rule rest programs hen]
      exact ih programs h
    | true =>
      cases hc : compileRule env rule.Condition with
      | none =>
        rw [(compileLoop_cons_error env rule rest programs hen hc).1]
        exact h
      | some prg =>
        rw [compileLoop_cons_ok env rule rest programs prg hen hc]
        apply ih
        by_cases hid : id = rule.ID
        · rw [hid, lookup_mapSet_self]; rfl
        · rw [lookup_mapSet_ne _ _ _ _ hid]; exact h

/-- Every entry after the loop of `CompileAll` was there before, or is the compiled
condition of an enabled rule with that id. -/
theorem compileLoop_lookup_origin (env : CelEnv) (rules : List Rule)
    (programs : List (String × env.Prg)) (id : String) (prg : env.Prg)
    (h : (compileLoop env rules programs).1.lookup id = some prg) :
    programs.lookup id = some prg ∨
      ∃ r ∈ rules, r.Enabled = true ∧ r.ID = id ∧ compileRule env r.Condition = some prg := by
  induction rules generalizing programs with
  | nil => left; simpa [compileLoop] using h
  | cons rule rest ih =>
    cases hen : rule.Enabled with
    | false =>
      rw [compileLoop_cons_disabled env rule rest programs hen] at h
      rcases ih programs h with h1 | ⟨r, hr, h2⟩
      · exact Or.inl h1
      · exact Or.inr ⟨r, List.mem_cons_of_mem _ hr, h2⟩
    | true =>
      cases hc : compileRule env rule.Condition with
      | none =>
        rw [(compileLoop_cons_error env rule rest programs hen hc).1] at h
        exact Or.inl h
      | some p =>
        rw [compileLoop_cons_ok env rule rest programs p hen hc] at h
        rcases ih _ h with h1 | ⟨r, hr, h2⟩
        · by_cases hid : id = rule.ID
          · rw [hid, lookup_mapSet_self] at h1
            cases h1
            exact Or.inr ⟨rule, List.mem_cons_self _ _, hen, hid.symm, hc⟩
          · rw [lookup_mapSet_ne _ _ _ _ hid] at h1
            exact Or.inl h1
        · exact Or.inr ⟨r, List.mem_cons_of_mem _ hr, h2⟩

/-- The result of `NewRuleEngine` in terms of the loop of `CompileAll`. -/
theorem NewRuleEngine_ok_iff (env : CelEnv) (rules : List Rule) (re : RuleEngine env) :
    NewRuleEngine env rules = .ok re ↔
      (compileLoop env rules []).2 = none ∧
        re = { rules := rules, programs := (compileLoop env rules []).1 } := by
  unfold NewRuleEngine RuleEngine.CompileAll
  simp only
  cases h : (compileLoop env rules []).2 with
  | none =>
    simp only [Except.ok.injEq, true_and]
    exact eq_comm
  | some e => simp

/-! ### `Evaluate` -/

/-- When every enabled rule finds its own compiled condition in the programs map, the loop
of `Evaluate` appends the alerts of the enabled rules whose condition holds, in order. -/
theorem evaluateLoop_eq_filter (env : CelEnv) (programs : List (String × env.Prg))
    (event : RuntimeEvent) (rules : List Rule) (alerts : List Alert)
    (hown : ∀ r ∈ rules, r.Enabled = true →
      programs.lookup r.ID = compileRule env r.Condition) :
    evaluateLoop env programs (.map [("event", inputMap event)]) event rules alerts =
      alerts ++ (rules.filter (fun r => r.Enabled && ruleHolds env event r)).map
        (alertOf event) := by
  induction rules generalizing alerts with
  | nil => simp [evaluateLoop]
  | cons rule rest ih =>
    have hrest : ∀ r ∈ rest, r.Enabled = true →
        programs.lookup r.ID = compileRule env r.Condition :=
      fun r hr => hown r (List.mem_cons_of_mem _ hr)
    rw [evaluateLoop]
    cases hen : rule.Enabled with
    | false => simp [hen, ih _ hrest]
    | true =>
      have hl := hown rule (List.mem_cons_self _ _) hen
      simp only [not_true_eq_false, if_false, hl]
      cases hc : compileRule env rule.Condition with
      | none =>
        have hh : ruleHolds env event rule = false := by simp [ruleHolds, hc]
        simp [hen, hh, ih _ hrest]
      | some prg =>
        simp only
        cases he : env.Eval prg (.map [("event", inputMap event)]) with
        | error e =>
          have hh : ruleHolds env event rule = false := by simp [ruleHolds, hc, he]
          simp [hen, hh, ih _ hrest]
        | ok out =>
          cases out with
          | none =>
            have hh : ruleHolds env event rule = false := by simp [ruleHolds, hc, he]
            simp [hen, hh, ih _ hrest]
          | some v =>
            cases v with
            | bool b =>
              cases b with
              | true =>
                have hh : ruleHolds env event rule = true := by simp [ruleHolds, hc, he]
                simp [hen, hh, ih _ hrest]
              | false =>
                have hh : ruleHolds env event rule = false := by simp [ruleHolds, hc, he]
                simp [hen, hh, ih _ hrest]
            | null =>
              have hh : ruleHolds env event rule = false := by simp [ruleHolds, hc, he]
              simp [hen, hh, ih _ hrest]
            | num n =>
              have hh : ruleHolds env event rule = false := by simp [ruleHolds, hc, he]
              simp [hen, hh, ih _ hrest]
            | str t =>
              have hh : ruleHolds env event rule = false := by simp [ruleHolds, hc, he]
              simp [hen, hh, ih _ hrest]
            | list xs =>
              have hh : ruleHolds env event rule = false := by simp [ruleHolds, hc, he]
              simp [hen, hh, ih _ hrest]
            | map kvs =>
              have hh : ruleHolds env event rule = false := by simp [ruleHolds, hc, he]
              simp [hen, hh, ih _ hrest]

/-- Whatever the programs map holds, the loop of `Evaluate` appends the alerts of a
subsequence of the rules it runs over. -/
theorem evaluateLoop_sublist (env : CelEnv) (programs : List (String × env.Prg))
    (input : Value) (event : RuntimeEvent) (rules : List Rule) (alerts : List Alert) :
    ∃ fired : List Rule, fired.Sublist rules ∧
      evaluateLoop env programs input event rules alerts =
        alerts ++ fired.map (alertOf event) := by
  induction rules generalizing alerts with
  | nil => exact ⟨[], List.Sublist.refl _, by simp [evaluateLoop]⟩
  | cons rule rest ih =>
    have skip : ∀ acc : List Alert, ∃ fired : List Rule, fired.Sublist (rule :: rest) ∧
        evaluateLoop env programs input event rest acc = acc ++ fired.map (alertOf event) := by
      intro acc
      obtain ⟨fired, hs, he⟩ := ih acc
      exact ⟨fired, hs.cons _, he⟩
    rw [evaluateLoop]
    split
    · exact skip alerts
    · split
      · exact skip alerts
      · split
        · exact skip alerts
        · exact skip alerts
        · obtain ⟨fired, hs, he⟩ := ih (alerts ++ [alertOf event rule])
          refine ⟨rule :: fired, hs.cons₂ _, ?_⟩
          rw [he]
          simp
        · exact skip alerts

/-- The document `json.Marshal` returns is the object `eventJSON`. -/
theorem Marshal_eq_ok (event : RuntimeEvent) (doc : Value) (h : Marshal event = .ok doc) :
    doc = eventJSON event := by
  unfold Marshal at h
  split at h
  · cases h
  · exact (Except.ok.inj h).symm

/-- On an event `json.Marshal` accepts, `Evaluate` returns what its loop builds. -/
theorem Evaluate_of_Marshal_ok {env : CelEnv} (re : RuleEngine env) (event : RuntimeEvent)
    (doc : Value) (h : Marshal event = .ok doc) :
    re.Evaluate event =
      .ok (evaluateLoop env re.programs (.map [("event", inputMap event)]) event
        re.rules []) := by
  have hd := Marshal_eq_ok event doc h
  subst hd
  unfold RuleEngine.Evaluate
  rw [h]
  rfl

/-- On an event `json.Marshal` refuses, `Evaluate` returns the error. -/
theorem Evaluate_of_Marshal_error {env : CelEnv} (re : RuleEngine env) (event : RuntimeEvent)
    (err : String) (h : Marshal event = .error err) :
    re.Evaluate event = .error err := by
  unfold RuleEngine.Evaluate
  rw [h]

/-- When `Evaluate` returns alerts, `json.Marshal` accepted the event and the alerts are
what the loop built. -/
theorem Evaluate_ok_inv {env : CelEnv} (re : RuleEngine env) (event : RuntimeEvent)
    (alerts : List Alert) (h : re.Evaluate event = .ok alerts) :
    Marshal event = .ok (eventJSON event) ∧
      alerts = evaluateLoop env re.programs (.map [("event", inputMap event)]) event
        re.rules [] := by
  cases hm : Marshal event with
  | error err =>
    rw [Evaluate_of_Marshal_error re event err hm] at h
    cases h
  | ok doc =>
    have hd := Marshal_eq_ok event doc hm
    subst hd
    rw [Evaluate_of_Marshal_ok re event _ hm] at h
    exact ⟨rfl, (Except.ok.inj h).symm⟩

/-- `json.Marshal` refuses every event stamped in the year 10000. -/
theorem Marshal_stampedLate (e : RuntimeEvent) :
    Marshal (stampedLate e) = .error ("json: error calling MarshalJSON for type time.Time: " ++
      "Time.MarshalJSON: year outside of range [0,9999]") := by
  rfl

/-- The result of `Evaluate`, on an event `json.Marshal` accepts, for an engine built from
rules with pairwise distinct ids. -/
theorem Evaluate_one_alert_filter (env : CelEnv) (rules : List Rule)
    (re : RuleEngine env) (event : RuntimeEvent) (doc : Value)
    (hnodup : (rules.map (fun r => r.ID)).Nodup)
    (hnew : NewRuleEngine env rules = .ok re)
    (hdoc : Marshal event = .ok doc) :
    re.Evaluate event =
      .ok ((rules.filter (fun r => r.Enabled && ruleHolds env event r)).map
        (alertOf event)) := by
  obtain ⟨hok, hre⟩ := (NewRuleEngine_ok_iff env rules re).1 hnew
  subst hre
  rw [Evaluate_of_Marshal_ok _ event doc hdoc]
  simp only
  rw [evaluateLoop_eq_filter env _ event rules []
    (compileLoop_lookup_own env rules [] hnodup hok)]
  simp

/-- C8, as stated, fails: the three benchmark rules have distinct ids and compile, and
all three are enabled and hold on the `/bin/bash` event of namespace `prod` stamped in the
year 10000; `json.Marshal` refuses that event, and `Evaluate` returns the error and no
alert. -/
theorem Evaluate_refused_event_no_alert :
    (benchRules.map (fun r => r.ID)).Nodup ∧
      NewRuleEngine benchEnv benchRules = .ok benchEngine ∧
      benchRules.filter (fun r => r.Enabled &&
        ruleHolds benchEnv (stampedLate (benchEvent "prod")) r) = benchRules ∧
      benchEngine.Evaluate (stampedLate (benchEvent "prod")) =
        .error ("json: error calling MarshalJSON for type time.Time: " ++
          "Time.MarshalJSON: year outside of range [0,9999]") :=
  ⟨by decide, rfl, by decide, rfl⟩

/-- C8 (amended): for a rule list with pairwise distinct ids from which `NewRuleEngine`
succeeds, and every event that `json.Marshal` accepts, `Evaluate` returns exactly the
alerts of the enabled rules whose own condition evaluates to `true` on the event, one
alert per such rule, in rule order; a rule that is disabled, whose condition is false or
not a boolean, or whose evaluation raises an error, gets no alert. For an event
`json.Marshal` refuses, `Evaluate` returns that error and no alert. -/
theorem Evaluate_one_alert_per_matching_rule (env : CelEnv) (rules : List Rule)
    (re : RuleEngine env) (event : RuntimeEvent)
    (hnodup : (rules.map (fun r => r.ID)).Nodup)
    (hnew : NewRuleEngine env rules = .ok re) :
    (∀ doc, Marshal event = .ok doc →
      re.Evaluate event =
        .ok ((rules.filter (fun r => r.Enabled && ruleHolds env event r)).map
          (alertOf event))) ∧
    (∀ err, Marshal event = .error err → re.Evaluate event = .error err) := by
  refine ⟨fun doc hdoc => ?_, fun err herr => Evaluate_of_Marshal_error re event err herr⟩
  obtain ⟨hok, hre⟩ := (NewRuleEngine_ok_iff env rules re).1 hnew
  subst hre
  rw [Evaluate_of_Marshal_ok _ event doc hdoc]
  simp only
  rw [evaluateLoop_eq_filter env _ event rules []
    (compileLoop_lookup_own env rules [] hnodup hok)]
  simp

/-- C8 witness: the three benchmark rules on a `/bin/bash` event in namespace `staging`,
which `json.Marshal` accepts. -/
theorem Evaluate_one_alert_per_matching_rule_witness :
    (benchRules.map (fun r => r.ID)).Nodup ∧
      NewRuleEngine benchEnv benchRules = .ok benchEngine ∧
      Marshal (benchEvent "staging") = .ok (eventJSON (benchEvent "staging")) ∧
      benchEngine.Evaluate (benchEvent "staging") =
        .ok ((benchRules.filter
          (fun r => r.Enabled && ruleHolds benchEnv (benchEvent "staging") r)).map
            (alertOf (benchEvent "staging"))) :=
  ⟨by decide, rfl, rfl,
    (Evaluate_one_alert_per_matching_rule benchEnv benchRules benchEngine
      (benchEvent "staging") (by decide) rfl).1 _ rfl⟩

/-- C9: for every rule list from which `NewRuleEngine` builds an engine, and every event,
the alerts `Evaluate` returns are the alerts of a subsequence of the rule list, in the
order of the rule list; and `Evaluate` does return alerts for every event `json.Marshal`
accepts. -/
theorem Evaluate_in_rule_order (env : CelEnv) (rules : List Rule) (re : RuleEngine env)
    (event : RuntimeEvent) (hnew : NewRuleEngine env rules = .ok re) :
    (∀ alerts, re.Evaluate event = .ok alerts →
      ∃ fired : List Rule, fired.Sublist rules ∧ alerts = fired.map (alertOf event)) ∧
    (∀ doc, Marshal event = .ok doc → ∃ alerts, re.Evaluate event = .ok alerts) := by
  obtain ⟨_, hre⟩ := (NewRuleEngine_ok_iff env rules re).1 hnew
  subst hre
  refine ⟨fun alerts h => ?_, fun doc hdoc => ⟨_, Evaluate_of_Marshal_ok _ event doc hdoc⟩⟩
  obtain ⟨_, ha⟩ := Evaluate_ok_inv _ event alerts h
  obtain ⟨fired, hs, he⟩ := evaluateLoop_sublist env (compileLoop env rules []).1
    (.map [("event", inputMap event)]) event rules []
  refine ⟨fired, hs, ?_⟩
  rw [ha]
  simp only at he ⊢
  rw [he]
  simp

/-- C9 witness: the benchmark engine on a `/bin/bash` event in namespace `prod`, where the
three rules fire in the order of the list. -/
theorem Evaluate_in_rule_order_witness :
    NewRuleEngine benchEnv benchRules = .ok benchEngine ∧
    benchEngine.Evaluate (benchEvent "prod") =
      .ok (benchRules.map (alertOf (benchEvent "prod"))) ∧
    ∃ fired : List Rule, fired.Sublist benchRules ∧
      benchRules.map (alertOf (benchEvent "prod")) = fired.map (alertOf (benchEvent "prod")) :=
  ⟨rfl, rfl,
    (Evaluate_in_rule_order benchEnv benchRules benchEngine (benchEvent "prod") rfl).1 _ rfl⟩

/-! ### `NewRuleEngine` -/

/-- C10: `NewRuleEngine` returns an error (and no engine) exactly when some enabled rule
has a condition that does not compile; when every enabled rule compiles it returns an
engine over the whole rule list whose programs map holds, under the id of every enabled
rule, the compiled condition of an enabled rule with that id, which is the rule's own
compiled condition when the ids are pairwise distinct. -/
theorem NewRuleEngine_all_or_nothing (env : CelEnv) (rules : List Rule) :
    ((∃ err, NewRuleEngine env rules = .error err) ↔
      ∃ r ∈ rules, r.Enabled = true ∧ compileRule env r.Condition = none) ∧
    ((∀ r ∈ rules, r.Enabled = true → (compileRule env r.Condition).isSome = true) →
      ∃ re, NewRuleEngine env rules = .ok re ∧ re.rules = rules ∧
        (∀ r ∈ rules, r.Enabled = true →
          ∃ prg, re.programs.lookup r.ID = some prg ∧
            ∃ r2 ∈ rules, r2.Enabled = true ∧ r2.ID = r.ID ∧
              compileRule env r2.Condition = some prg) ∧
        ((rules.map (fun r => r.ID)).Nodup → ∀ r ∈ rules, r.Enabled = true →
          re.programs.lookup r.ID = compileRule env r.Condition)) := by
  have hsucc : (∀ r ∈ rules, r.Enabled = true → (compileRule env r.Condition).isSome = true) →
      ∃ re, NewRuleEngine env rules = .ok re ∧ re.rules = rules ∧
        (∀ r ∈ rules, r.Enabled = true →
          ∃ prg, re.programs.lookup r.ID = some prg ∧
            ∃ r2 ∈ rules, r2.Enabled = true ∧ r2.ID = r.ID ∧
              compileRule env r2.Condition = some prg) ∧
        ((rules.map (fun r => r.ID)).Nodup → ∀ r ∈ rules, r.Enabled = true →
          re.programs.lookup r.ID = compileRule env r.Condition) := by
    intro hall
    have hok : (compileLoop env rules []).2 = none := (compileLoop_none_iff env rules []).2 hall
    refine ⟨{ rules := rules, programs := (compileLoop env rules []).1 },
      (NewRuleEngine_ok_iff env rules _).2 ⟨hok, rfl⟩, rfl, ?_, ?_⟩
    · intro r hr hen
      have hsome : ((compileLoop env rules []).1.lookup r.ID).isSome = true := by
        have key : ∀ (rs : List Rule) (ps : List (String × env.Prg)),
            (compileLoop env rs ps).2 = none → r ∈ rs →
            ((compileLoop env rs ps).1.lookup r.ID).isSome = true := by
          intro rs
          induction rs with
          | nil => intro ps _ h; cases h
          | cons rule rest ih =>
            intro ps hnone hmem
            cases hen2 : rule.Enabled with
            | false =>
              rw [compileLoop_cons_disabled env rule rest ps hen2] at hnone ⊢
              rcases List.mem_cons.1 hmem with h | h
              · subst h
                rw [hen] at hen2
                cases hen2
              · exact ih ps hnone h
            | true =>
              cases hc : compileRule env rule.Condition with
              | none => exact absurd hnone (compileLoop_cons_error env rule rest ps hen2 hc).2
              | some p =>
                rw [compileLoop_cons_ok env rule rest ps p hen2 hc] at hnone ⊢
                rcases List.mem_cons.1 hmem with h | h
                · subst h
                  apply compileLoop_lookup_isSome
                  rw [lookup_mapSet_self]
                  rfl
                · exact ih _ hnone h
        exact key rules [] hok hr
      obtain ⟨prg, hprg⟩ := Option.isSome_iff_exists.1 hsome
      refine ⟨prg, hprg, ?_⟩
      rcases compileLoop_lookup_origin env rules [] r.ID prg hprg with h | h
      · simp at h
      · exact h
    · intro hnodup
      exact compileLoop_lookup_own env rules [] hnodup hok
  refine ⟨?_, hsucc⟩
  constructor
  · rintro ⟨err, herr⟩
    by_contra hcon
    have hall : ∀ r ∈ rules, r.Enabled = true → (compileRule env r.Condition).isSome = true := by
      intro r hr hen
      by_contra hn
      apply hcon
      refine ⟨r, hr, hen, ?_⟩
      cases hc : compileRule env r.Condition with
      | none => rfl
      | some p => simp [hc] at hn
    obtain ⟨re, hre, _⟩ := hsucc hall
    rw [hre] at herr
    cases herr
  · rintro ⟨r, hr, hen, hc⟩
    cases hres : NewRuleEngine env rules with
    | error err => exact ⟨err, rfl⟩
    | ok re =>
      exfalso
      obtain ⟨hok, _⟩ := (NewRuleEngine_ok_iff env rules re).1 hres
      have := (compileLoop_none_iff env rules []).1 hok r hr hen
      simp [hc] at this

/-- C10 witness: the benchmark rules all compile, so an engine is returned; adding an
enabled rule with a text the environment rejects makes `NewRuleEngine` fail. -/
theorem NewRuleEngine_all_or_nothing_witness :
    (∀ r ∈ benchRules, r.Enabled = true → (compileRule benchEnv r.Condition).isSome = true) ∧
    (∃ re, NewRuleEngine benchEnv benchRules = .ok re ∧ re.rules = benchRules ∧
      (∀ r ∈ benchRules, r.Enabled = true →
        ∃ prg, re.programs.lookup r.ID = some prg ∧
          ∃ r2 ∈ benchRules, r2.Enabled = true ∧ r2.ID = r.ID ∧
            compileRule benchEnv r2.Condition = some prg) ∧
      ((benchRules.map (fun r => r.ID)).Nodup → ∀ r ∈ benchRules, r.Enabled = true →
        re.programs.lookup r.ID = compileRule benchEnv r.Condition)) ∧
    ∃ err, NewRuleEngine benchEnv (benchRules ++ [benchRule "r4" "Rule 4" "event.x ==" true])
      = .error err :=
  ⟨by decide,
    (NewRuleEngine_all_or_nothing benchEnv benchRules).2 (by decide),
    (NewRuleEngine_all_or_nothing benchEnv
      (benchRules ++ [benchRule "r4" "Rule 4" "event.x ==" true])).1.2
      ⟨benchRule "r4" "Rule 4" "event.x ==" true, by simp, rfl, rfl⟩⟩

/-! ### Failure isolation and the contents of an alert -/

/-- The loop of `Evaluate`, for any programs map: it appends the alerts of the rules that
fire, in order. -/
theorem evaluateLoop_eq_fires (env : CelEnv) (programs : List (String × env.Prg))
    (input : Value) (event : RuntimeEvent) (rules : List Rule) (alerts : List Alert) :
    evaluateLoop env programs input event rules alerts =
      alerts ++ (rules.filter (fires env programs input)).map (alertOf event) := by
  induction rules generalizing alerts with
  | nil => simp [evaluateLoop]
  | cons rule rest ih =>
    rw [evaluateLoop]
    cases hen : rule.Enabled with
    | false =>
      have hf : fires env programs input rule = false := by simp [fires, hen]
      simp [hf, ih]
    | true =>
      simp only [not_true_eq_false, if_false]
      cases hl : programs.lookup rule.ID with
      | none =>
        have hf : fires env programs input rule = false := by simp [fires, hl]
        simp [hf, ih]
      | some prg =>
        simp only
        cases he : env.Eval prg input with
        | error e =>
          have hf : fires env programs input rule = false := by simp [fires, hl, he]
          simp [hf, ih]
        | ok out =>
          cases out with
          | none =>
            have hf : fires env programs input rule = false := by simp [fires, hl, he]
            simp [hf, ih]
          | some v =>
            cases v with
            | bool b =>
              cases b with
              | true =>
                have hf : fires env programs input rule = true := by simp [fires, hen, hl, he]
                simp [hf, ih]
              | false =>
                have hf : fires env programs input rule = false := by simp [fires, hl, he]
                simp [hf, ih]
            | null =>
              have hf : fires env programs input rule = false := by simp [fires, hl, he]
              simp [hf, ih]
            | num n =>
              have hf : fires env programs input rule = false := by simp [fires, hl, he]
              simp [hf, ih]
            | str t =>
              have hf : fires env programs input rule = false := by simp [fires, hl, he]
              simp [hf, ih]
            | list xs =>
              have hf : fires env programs input rule = false := by simp [fires, hl, he]
              simp [hf, ih]
            | map kvs =>
              have hf : fires env programs input rule = false := by simp [fires, hl, he]
              simp [hf, ih]

/-- C12: every alert `Evaluate` returns was appended for a rule of the engine that fired
on the event; the alert carries that rule's name, severity, description and response, has
the evaluated event as its event, and has an empty id and an empty incident id. And
`Evaluate` does return its alerts for every event `json.Marshal` accepts: one for each
rule that fires. -/
theorem Evaluate_alert_fields (env : CelEnv) (re : RuleEngine env) (event : RuntimeEvent) :
    (∀ alerts, re.Evaluate event = .ok alerts →
      ∀ a ∈ alerts, ∃ r ∈ re.rules,
        fires env re.programs (.map [("event", inputMap event)]) r = true ∧
        a.RuleName = r.Name ∧ a.Severity = r.Severity ∧ a.Description = r.Description ∧
        a.Response = r.Response ∧ a.Event = some event ∧ a.ID = "" ∧ a.IncidentID = "") ∧
    (∀ doc, Marshal event = .ok doc →
      re.Evaluate event =
        .ok ((re.rules.filter
          (fires env re.programs (.map [("event", inputMap event)]))).map
            (alertOf event))) := by
  refine ⟨fun alerts h a ha => ?_, fun doc hdoc => ?_⟩
  · obtain ⟨_, hal⟩ := Evaluate_ok_inv re event alerts h
    rw [hal, evaluateLoop_eq_fires, List.nil_append, List.mem_map] at ha
    obtain ⟨r, hr, rfl⟩ := ha
    rw [List.mem_filter] at hr
    exact ⟨r, hr.1, hr.2, rfl, rfl, rfl, rfl, rfl, rfl, rfl⟩
  · rw [Evaluate_of_Marshal_ok re event doc hdoc, evaluateLoop_eq_fires, List.nil_append]

/-- C12 witness: the alert the benchmark engine returns for rule `r2` on the `/bin/bash`
event of namespace `prod`. -/
theorem Evaluate_alert_fields_witness :
    benchEngine.Evaluate (benchEvent "prod") =
        .ok (benchRules.map (alertOf (benchEvent "prod"))) ∧
      alertOf (benchEvent "prod")
          (benchRule "r2" "Rule 2" "event.container.namespace == 'prod'" true) ∈
        benchRules.map (alertOf (benchEvent "prod")) ∧
      ∃ r ∈ benchEngine.rules,
        fires benchEnv benchEngine.programs
          (.map [("event", inputMap (benchEvent "prod"))]) r = true ∧
        (alertOf (benchEvent "prod")
          (benchRule "r2" "Rule 2" "event.container.namespace == 'prod'" true)).RuleName =
            r.Name ∧
        (alertOf (benchEvent "prod")
          (benchRule "r2" "Rule 2" "event.container.namespace == 'prod'" true)).Severity =
            r.Severity ∧
        (alertOf (benchEvent "prod")
          (benchRule "r2" "Rule 2" "event.container.namespace == 'prod'" true)).Description =
            r.Description ∧
        (alertOf (benchEvent "prod")
          (benchRule "r2" "Rule 2" "event.container.namespace == 'prod'" true)).Response =
            r.Response ∧
        (alertOf (benchEvent "prod")
          (benchRule "r2" "Rule 2" "event.container.namespace == 'prod'" true)).Event =
            some (benchEvent "prod") ∧
        (alertOf (benchEvent "prod")
          (benchRule "r2" "Rule 2" "event.container.namespace == 'prod'" true)).ID = "" ∧
        (alertOf (benchEvent "prod")
          (benchRule "r2" "Rule 2" "event.container.namespace == 'prod'" true)).IncidentID =
            "" :=
  ⟨rfl, by decide,
    (Evaluate_alert_fields benchEnv benchEngine (benchEvent "prod")).1 _ rfl _ (by decide)⟩

/-- C11, as stated, fails: the benchmark rules have distinct ids and compile, and on the
event without a process sub-document stamped in the year 10000 the condition of rule `r1`
(`event.process.exe == ...`) raises an evaluation error; `json.Marshal` refuses that
event, and `Evaluate` returns an error. -/
theorem Evaluate_error_on_refused_event :
    (benchRules.map (fun r => r.ID)).Nodup ∧
      NewRuleEngine benchEnv benchRules = .ok benchEngine ∧
      compileRule benchEnv
          (benchRule "r1" "Rule 1" "event.process.exe == '/bin/bash'" true).Condition =
        some (.eq (eventField "process" "exe") (.lit (.str "/bin/bash"))) ∧
      benchEnv.Eval (.eq (eventField "process" "exe") (.lit (.str "/bin/bash")))
          (.map [("event", inputMap (stampedLate benchEventNoProcess))]) =
        .error "no such key: process" ∧
      benchEngine.Evaluate (stampedLate benchEventNoProcess) =
        .error ("json: error calling MarshalJSON for type time.Time: " ++
          "Time.MarshalJSON: year outside of range [0,9999]") :=
  ⟨by decide, rfl, rfl, rfl, rfl⟩

/-- C11 (amended): in a rule list with pairwise distinct ids from which `NewRuleEngine`
succeeds, and for an event that `json.Marshal` accepts, if the condition of rule `R`
raises an evaluation error on the event, then `Evaluate` returns without error, `R` is not
among the rules that get an alert, and the alerts returned are exactly those the engine
built from the list without `R` returns: one per enabled remaining rule whose own
condition holds, in order. -/
theorem Evaluate_error_isolated (env : CelEnv) (front back : List Rule) (R : Rule)
    (re : RuleEngine env) (event : RuntimeEvent) (doc : Value) (prg : env.Prg) (e : String)
    (hnodup : ((front ++ R :: back).map (fun r => r.ID)).Nodup)
    (hnew : NewRuleEngine env (front ++ R :: back) = .ok re)
    (hdoc : Marshal event = .ok doc)
    (hc : compileRule env R.Condition = some prg)
    (herr : env.Eval prg (.map [("event", doc.decoded)]) = .error e) :
    R ∉ front ++ back ∧
    re.Evaluate event =
      .ok (((front ++ back).filter (fun r => r.Enabled && ruleHolds env event r)).map
        (alertOf event)) ∧
    ∃ re2, NewRuleEngine env (front ++ back) = .ok re2 ∧
      re2.Evaluate event = re.Evaluate event := by
  have hd := Marshal_eq_ok event doc hdoc
  subst hd
  have hR : ruleHolds env event R = false := by
    simp only [ruleHolds, hc, inputMap, herr]
  have hnot : R ∉ front ++ back := by
    intro hmem
    rw [List.map_append, List.map_cons] at hnodup
    have h1 := List.nodup_middle.1 hnodup
    rw [List.nodup_cons] at h1
    apply h1.1
    rw [← List.map_append]
    exact List.mem_map_of_mem _ hmem
  have hnodup2 : ((front ++ back).map (fun r => r.ID)).Nodup := by
    rw [List.map_append, List.map_cons] at hnodup
    have h1 := List.nodup_middle.1 hnodup
    rw [List.nodup_cons] at h1
    rw [List.map_append]
    exact h1.2
  have hall := (compileLoop_none_iff env (front ++ R :: back) []).1
    ((NewRuleEngine_ok_iff env _ re).1 hnew).1
  have hok2 : (compileLoop env (front ++ back) []).2 = none := by
    rw [compileLoop_none_iff]
    intro r hr hen
    apply hall r _ hen
    rcases List.mem_append.1 hr with h | h
    · exact List.mem_append_left _ h
    · exact List.mem_append_right _ (List.mem_cons_of_mem _ h)
  have hnew2 : NewRuleEngine env (front ++ back) =
      .ok { rules := front ++ back, programs := (compileLoop env (front ++ back) []).1 } :=
    (NewRuleEngine_ok_iff env _ _).2 ⟨hok2, rfl⟩
  have hev : re.Evaluate event =
      .ok (((front ++ back).filter (fun r => r.Enabled && ruleHolds env event r)).map
        (alertOf event)) := by
    rw [Evaluate_one_alert_filter env (front ++ R :: back) re event _ hnodup hnew hdoc]
    simp [List.filter_append, List.filter_cons, hR]
  refine ⟨hnot, hev, _, hnew2, ?_⟩
  rw [hev]
  exact Evaluate_one_alert_filter env (front ++ back) _ event _ hnodup2 hnew2 hdoc

/-- C11 witness: on an event without a process sub-document the benchmark rule `r1`
(`event.process.exe == ...`) raises an evaluation error; the rules `r2`, `r3` are
evaluated as if `r1` were not in the list. -/
theorem Evaluate_error_isolated_witness :
    benchRule "r1" "Rule 1" "event.process.exe == '/bin/bash'" true ∉
        ([] : List Rule) ++ [benchRule "r2" "Rule 2" "event.container.namespace == 'prod'" true,
               benchRule "r3" "Rule 3" "event.process.uid == 0" true] ∧
    benchEngine.Evaluate benchEventNoProcess =
      .ok (((([] : List Rule) ++ [benchRule "r2" "Rule 2" "event.container.namespace == 'prod'" true,
                    benchRule "r3" "Rule 3" "event.process.uid == 0" true]).filter
          (fun r => r.Enabled && ruleHolds benchEnv benchEventNoProcess r)).map
        (alertOf benchEventNoProcess)) ∧
    ∃ re2, NewRuleEngine benchEnv
        (([] : List Rule) ++ [benchRule "r2" "Rule 2" "event.container.namespace == 'prod'" true,
                benchRule "r3" "Rule 3" "event.process.uid == 0" true]) = .ok re2 ∧
      re2.Evaluate benchEventNoProcess = benchEngine.Evaluate benchEventNoProcess :=
  Evaluate_error_isolated benchEnv ([] : List Rule)
    [benchRule "r2" "Rule 2" "event.container.namespace == 'prod'" true,
     benchRule "r3" "Rule 3" "event.process.uid == 0" true]
    (benchRule "r1" "Rule 1" "event.process.exe == '/bin/bash'" true)
    benchEngine benchEventNoProcess (eventJSON benchEventNoProcess)
    (.eq (eventField "process" "exe") (.lit (.str "/bin/bash"))) "no such key: process"
    (by decide) rfl rfl rfl rfl

end matcher

namespace correlator

/-! ### The field names `step_<i>` are pairwise distinct -/

theorem digitChar_value (d : Nat) (h : d < 10) : (Nat.digitChar d).toNat - 48 = d := by
  interval_cases d <;> rfl

theorem decodeDigits_toDigitsCore (fuel : Nat) : ∀ (n : Nat) (ds : List Char), n < fuel →
    (decodeDigits (Nat.toDigitsCore 10 fuel n ds)).1 = n * (decodeDigits ds).2 + (decodeDigits ds).1 := by
  induction fuel with
  | zero => intro n ds h; omega
  | succ fuel ih =>
    intro n ds h
    rw [Nat.toDigitsCore]
    have hd : (Nat.digitChar (n % 10)).toNat - 48 = n % 10 := digitChar_value _ (Nat.mod_lt _ (by decide))
    split
    · rename_i h0
      simp only [decodeDigits, hd]
      have : n = n % 10 := by omega
      rw [← this]
    · rename_i h0
      have hlt : n / 10 < fuel := by omega
      rw [ih (n / 10) _ hlt]
      simp only [decodeDigits, hd]
      have : n = (n / 10) * 10 + n % 10 := by omega
      generalize (decodeDigits ds).2 = p
      generalize (decodeDigits ds).1 = v
      nth_rewrite 3 [this]
      ring

theorem toDigits_injective (a b : Nat) (h : Nat.toDigits 10 a = Nat.toDigits 10 b) : a = b := by
  have ha := decodeDigits_toDigitsCore (a + 1) a [] (by omega)
  have hb := decodeDigits_toDigitsCore (b + 1) b [] (by omega)
  unfold Nat.toDigits at h
  rw [h, hb] at ha
  simpa [decodeDigits] using ha.symm

theorem repr_injective (a b : Nat) (h : Nat.repr a = Nat.repr b) : a = b := by
  unfold Nat.repr at h
  apply toDigits_injective
  have := congrArg String.data h
  simpa [List.asString] using this

theorem digitChar_ne_minus (d : Nat) (h : d < 10) : Nat.digitChar d ≠ '-' := by
  interval_cases d <;> decide

theorem toDigitsCore_head (fuel : Nat) : ∀ (n : Nat) (ds : List Char),
    ((∃ d, d < 10 ∧ ∃ rest, ds = Nat.digitChar d :: rest) ∨ 0 < fuel) →
    ∃ d, d < 10 ∧ ∃ rest, Nat.toDigitsCore 10 fuel n ds = Nat.digitChar d :: rest := by
  induction fuel with
  | zero =>
    intro n ds h
    rcases h with h | h
    · simpa [Nat.toDigitsCore] using h
    · omega
  | succ fuel ih =>
    intro n ds _
    rw [Nat.toDigitsCore]
    split
    · exact ⟨n % 10, Nat.mod_lt _ (by decide), _, rfl⟩
    · exact ih _ _ (Or.inl ⟨n % 10, Nat.mod_lt _ (by decide), _, rfl⟩)

theorem toString_int_injective (a b : Int) (h : toString a = toString b) : a = b := by
  have key : ∀ (m k : Nat), Nat.repr m ≠ "-" ++ Nat.repr k := by
    intro m k he
    obtain ⟨d, hd10, rest, hd⟩ := toDigitsCore_head (m + 1) m [] (Or.inr (by omega))
    have := congrArg String.data he
    simp only [Nat.repr, Nat.toDigits, List.asString, hd, String.data_append] at this
    have h2 : Nat.digitChar d = '-' := by
      have := congrArg List.head? this
      simpa using this
    exact digitChar_ne_minus d hd10 h2
  cases a with
  | ofNat m =>
    cases b with
    | ofNat k =>
      have : Nat.repr m = Nat.repr k := h
      rw [repr_injective m k this]
    | negSucc k => exact absurd h (key m (k + 1))
  | negSucc m =>
    cases b with
    | ofNat k => exact absurd h.symm (key k (m + 1))
    | negSucc k =>
      have h1 : "-" ++ Nat.repr (m + 1) = "-" ++ Nat.repr (k + 1) := h
      have h2 := congrArg String.data h1
      simp only [String.data_append, List.append_cancel_left_eq] at h2
      have h3 : Nat.repr (m + 1) = Nat.repr (k + 1) := String.ext h2
      have := repr_injective _ _ h3
      have hmk : m = k := by omega
      rw [hmk]

theorem stepField_injective (i j : Int) (h : stepField i = stepField j) : i = j := by
  unfold stepField at h
  have h2 := congrArg String.data h
  simp only [String.data_append, List.append_cancel_left_eq] at h2
  exact toString_int_injective i j (String.ext h2)

/-! ### The keyspace -/

theorem lookup_filter_self {β : Type} (m : List (String × β)) (key : String) :
    (m.filter (fun kv => kv.1 ≠ key)).lookup key = none := by
  induction m with
  | nil => rfl
  | cons kv rest ih =>
    obtain ⟨a, b⟩ := kv
    by_cases ha : a = key
    · subst ha
      rw [List.filter_cons_of_neg (by simp)]
      exact ih
    · rw [List.filter_cons_of_pos (by simpa using ha)]
      have hk : (key == a) = false := by simpa using fun h : key = a => ha h.symm
      simp only [List.lookup, hk]
      exact ih

theorem live_put_self (r : Redis) (now : Int) (key : String) (e : RedisEntry) :
    (r.put key e).live now key =
      match e.expireAt with
      | none => some e
      | some t => if t ≤ now then none else some e := by
  simp [Redis.live, Redis.put, matcher.lookup_mapSet_self]

theorem live_put_ne (r : Redis) (now : Int) (key k : String) (e : RedisEntry) (h : k ≠ key) :
    (r.put key e).live now k = r.live now k := by
  simp [Redis.live, Redis.put, matcher.lookup_mapSet_ne _ _ _ _ h]

theorem live_drop_self (r : Redis) (now : Int) (key : String) :
    (r.drop key).live now key = none := by
  unfold Redis.live Redis.drop
  simp only
  rw [lookup_filter_self]

theorem live_drop_ne (r : Redis) (now : Int) (key k : String) (h : k ≠ key) :
    (r.drop key).live now k = r.live now k := by
  unfold Redis.live Redis.drop
  simp only
  rw [matcher.lookup_filter_ne _ _ _ h]

/-! ### Threshold windows -/

theorem storedWindow_cases (rdb : Redis) (now : Int) (key : String)
    (ms : List (Int × RuntimeEvent)) (h : storedWindow rdb now key = some ms) :
    (rdb.live now key = none ∧ ms = []) ∨
      ∃ exp, rdb.live now key = some { value := .zset ms, expireAt := exp } := by
  unfold storedWindow at h
  cases hl : rdb.live now key with
  | none =>
    rw [hl] at h
    simp only [Option.some.injEq] at h
    exact Or.inl ⟨rfl, h.symm⟩
  | some e =>
    obtain ⟨v, exp⟩ := e
    cases v with
    | zset ms2 =>
      rw [hl] at h
      simp only [Option.some.injEq] at h
      subst h
      exact Or.inr ⟨exp, rfl⟩
    | hash fs =>
      rw [hl] at h
      cases h

/-- What `ZRangeByScore` answers on a reachable store holding the window `ms`. -/
theorem ZRangeByScore_window (rdb : Redis) (now : Int) (key : String) (lo hi : Int)
    (ms : List (Int × RuntimeEvent))
    (hup : rdb.fault = none) (hwin : storedWindow rdb now key = some ms) :
    rdb.ZRangeByScore now key lo hi =
      .ok (((ms.filter (fun x => lo ≤ x.1 ∧ x.1 ≤ hi)).insertionSort
              (fun a b => a.1 ≤ b.1)).map (fun x => x.2)) := by
  unfold Redis.ZRangeByScore
  rw [hup]
  rcases storedWindow_cases rdb now key ms hwin with ⟨hl, hms⟩ | ⟨exp, hl⟩
  · subst hms
    simp [hl]
  · simp [hl]

/-- The method `CheckThreshold` leaves the store as it found it. -/
theorem CheckThreshold_frame (rdb : Redis) (now : Int) (ruleID groupKey : String)
    (threshold windowSecs : Int) :
    (CheckThreshold rdb now ruleID groupKey threshold windowSecs).2 = rdb := by
  unfold CheckThreshold
  simp only
  split
  · rfl
  · split <;> rfl

theorem live_not_expired (rdb : Redis) (now : Int) (key : String) (e : RedisEntry)
    (h : rdb.live now key = some e) (t : Int) (ht : e.expireAt = some t) : now < t := by
  unfold Redis.live at h
  cases hl : rdb.keys.lookup key with
  | none => simp [hl] at h
  | some e2 =>
    rw [hl] at h
    simp only at h
    cases he : e2.expireAt with
    | none =>
      rw [he] at h
      simp only [Option.some.injEq] at h
      subst h
      rw [he] at ht
      cases ht
    | some t2 =>
      rw [he] at h
      simp only at h
      by_cases hexp : t2 ≤ now
      · simp [hexp] at h
      · simp only [hexp, if_false, Option.some.injEq] at h
        subst h
        rw [he] at ht
        cases ht
        omega

theorem live_put_of_fresh (r : Redis) (now : Int) (key : String) (e : RedisEntry)
    (h : ∀ t, e.expireAt = some t → now < t) : (r.put key e).live now key = some e := by
  rw [live_put_self]
  cases he : e.expireAt with
  | none => rfl
  | some t =>
    have := h t he
    simp only
    rw [if_neg (by omega)]

/-! ### Durations and bounds in `int64` -/

/-- An integer within the `int64` range is what the `int64` holds. -/
theorem wrap64_of_range (x : Int) (h1 : -9223372036854775808 ≤ x)
    (h2 : x < 9223372036854775808) : wrap64 x = x := by
  unfold wrap64
  omega

/-- A window from 1 to 9223372036 seconds is sent to the store as it is: the duration in
nanoseconds stays within the `int64` range. -/
theorem formatSec_windowDuration (w : Int) (h1 : 0 < w) (h2 : w ≤ 9223372036) :
    formatSec (windowDuration w) = w := by
  unfold windowDuration
  rw [wrap64_of_range _ (by omega) (by omega)]
  unfold formatSec
  rw [if_neg (by omega)]
  exact Int.mul_tdiv_cancel w (by decide)

/-- C15 (evaluation at the failing input): with window 60 s the store holds `a` (score 60)
and `b` (score 100); `TrackEvent` of `c` (stamped second 120) run at second 120 returns no
error and leaves only `b` and `c`: the entry `a`, whose score is exactly
`now - window_secs = 60`, is evicted, not retained. -/
theorem TrackEvent_evicts_boundary_entry :
    storedWindow boundaryStore 120 (corrKey "r1" "c1") =
        some [(60, eventAt "a" 60), (100, eventAt "b" 100)] ∧
      (TrackEvent boundaryStore 120 (eventAt "c" 120) "r1" "c1" 60).1 = none ∧
      storedWindow (TrackEvent boundaryStore 120 (eventAt "c" 120) "r1" "c1" 60).2 120
          (corrKey "r1" "c1") =
        some [(100, eventAt "b" 100), (120, eventAt "c" 120)] := by
  decide

/-- C17 (frame, and evaluation at the failing input): `CheckThreshold` leaves every store
unchanged, whether or not it fires; but firing again is not guaranteed. With window 60 s
and threshold 2 the store holds `a` and `b`, both of score 60; at second 120
`CheckThreshold` fires with both ids. After `TrackEvent` of `c` (stamped second 120, inside
the window) at second 120, `CheckThreshold` at second 120 no longer fires: tracking `c`
evicted `a` and `b`, whose score is exactly `now - window_secs`. -/
theorem CheckThreshold_frame_but_no_refire (rdb : Redis) (now : Int)
    (ruleID groupKey : String) (threshold windowSecs : Int) :
    (CheckThreshold rdb now ruleID groupKey threshold windowSecs).2 = rdb ∧
      (CheckThreshold lateStore 120 "r1" "c1" 2 60).1 = (true, ["a", "b"], none) ∧
      (CheckThreshold lateStore 120 "r1" "c1" 2 60).2 = lateStore ∧
      120 - 60 ≤ unixSeconds (eventAt "c" 120).Timestamp ∧
      unixSeconds (eventAt "c" 120).Timestamp ≤ 120 ∧
      (TrackEvent lateStore 120 (eventAt "c" 120) "r1" "c1" 60).1 = none ∧
      (CheckThreshold (TrackEvent lateStore 120 (eventAt "c" 120) "r1" "c1" 60).2 120
        "r1" "c1" 2 60).1 = (false, [], none) :=
  ⟨CheckThreshold_frame rdb now ruleID groupKey threshold windowSecs, by decide⟩

/-! ### Sequence progress -/

/-- C18 (evaluation at the failing input): after `TrackSequenceStep` recorded steps 1 and 2
only, step 0 has no recorded id, yet `CheckSequenceComplete` with 2 steps returns
fired = true, with the single id of step 1. -/
theorem CheckSequenceComplete_fires_without_step_zero :
    (storedProgress skippedStepStore 30 (seqKey "r1" "c1")).map
        (fun fs => fs.lookup (stepField 0)) = some none ∧
      (CheckSequenceComplete skippedStepStore 30 "r1" "c1" 2).1 = (true, ["e1"], none) := by
  decide

theorem lookup_normalize {β : Type} (m : List (String × β)) (k : String) :
    (normalize m).lookup k = m.lookup k := by
  induction m with
  | nil => rfl
  | cons kv rest ih =>
    obtain ⟨a, b⟩ := kv
    rw [normalize]
    by_cases hk : k = a
    · subst hk
      simp [List.lookup]
    · have hb : (k == a) = false := by simpa using hk
      simp only [List.lookup, hb]
      rw [matcher.lookup_filter_ne _ _ _ hk, ih]

theorem normalize_keys_nodup {β : Type} (m : List (String × β)) :
    ((normalize m).map (fun kv => kv.1)).Nodup := by
  induction m with
  | nil => simp [normalize]
  | cons kv rest ih =>
    rw [normalize, List.map_cons, List.nodup_cons]
    constructor
    · intro hmem
      rw [List.mem_map] at hmem
      obtain ⟨x, hx, hxk⟩ := hmem
      rw [List.mem_filter] at hx
      have := hx.2
      simp only [ne_eq, decide_not, Bool.not_eq_eq_eq_not, Bool.not_true,
        decide_eq_false_iff_not] at this
      exact this hxk
    · exact (ih.sublist ((List.filter_sublist _).map _))

theorem mem_keys_of_lookup {β : Type} (m : List (String × β)) (k : String)
    (h : (m.lookup k).isSome = true) : k ∈ m.map (fun kv => kv.1) := by
  induction m with
  | nil => simp [List.lookup] at h
  | cons kv rest ih =>
    obtain ⟨a, b⟩ := kv
    by_cases hk : k = a
    · subst hk
      simp
    · have hb : (k == a) = false := by simpa using hk
      simp only [List.lookup, hb] at h
      exact List.mem_cons_of_mem _ (ih h)

theorem storedProgress_cases (rdb : Redis) (now : Int) (key : String)
    (fs : List (String × String)) (h : storedProgress rdb now key = some fs) :
    (rdb.live now key = none ∧ fs = []) ∨
      ∃ exp, rdb.live now key = some { value := .hash fs, expireAt := exp } := by
  unfold storedProgress at h
  cases hl : rdb.live now key with
  | none =>
    rw [hl] at h
    simp only [Option.some.injEq] at h
    exact Or.inl ⟨rfl, h.symm⟩
  | some e =>
    obtain ⟨v, exp⟩ := e
    cases v with
    | hash fs2 =>
      rw [hl] at h
      simp only [Option.some.injEq] at h
      subst h
      exact Or.inr ⟨exp, rfl⟩
    | zset ms =>
      rw [hl] at h
      cases h

/-- What `HGetAll` answers on a reachable store holding the progress `fs`. -/
theorem HGetAll_progress (rdb : Redis) (now : Int) (key : String)
    (fs : List (String × String))
    (hup : rdb.fault = none) (hprog : storedProgress rdb now key = some fs) :
    rdb.HGetAll now key = .ok (normalize fs) := by
  unfold Redis.HGetAll
  rw [hup]
  rcases storedProgress_cases rdb now key fs hprog with ⟨hl, hfs⟩ | ⟨exp, hl⟩
  · subst hfs
    simp [hl, normalize]
  · simp [hl]

theorem filterMap_all_some {α β : Type} (f : α → Option β) (l : List α)
    (h : ∀ x ∈ l, (f x).isSome = true) : (l.filterMap f).map some = l.map f := by
  induction l with
  | nil => rfl
  | cons x rest ih =>
    have hx := h x (List.mem_cons_self _ _)
    obtain ⟨y, hy⟩ := Option.isSome_iff_exists.1 hx
    rw [List.filterMap_cons, hy]
    simp only [List.map_cons, hy, List.cons.injEq, true_and]
    exact ih (fun z hz => h z (List.mem_cons_of_mem _ hz))

/-- With every step `0..n-1` recorded, the hash holds at least `n` fields. -/
theorem steps_le_length (fs : List (String × String)) (n : Nat)
    (hall : ∀ i : Nat, i < n → (fs.lookup (stepField i)).isSome = true) :
    n ≤ (normalize fs).length := by
  have hnd : ((List.range n).map (fun i : Nat => stepField i)).Nodup := by
    apply List.Nodup.map _ (List.nodup_range n)
    intro a b hab
    have := stepField_injective _ _ hab
    exact_mod_cast this
  have hsub : (List.range n).map (fun i : Nat => stepField i) ⊆
      (normalize fs).map (fun kv => kv.1) := by
    intro k hk
    rw [List.mem_map] at hk
    obtain ⟨i, hi, rfl⟩ := hk
    apply mem_keys_of_lookup
    rw [lookup_normalize]
    exact hall i (List.mem_range.1 hi)
  have := (hnd.subperm hsub).length_le
  simpa using this

/-- C19: when the store answers, the key holds the progress `fs` and every step `0..n-1`
has a recorded id, `CheckSequenceComplete` with `n` steps returns fired = true, no error
and the list of the recorded ids of steps `0, …, n-1`, exactly `n` ids in step order; it
deletes the key, so that whenever looked at afterwards the key holds no progress and a
following `CheckSequenceComplete` with at least one step returns not fired with an empty
list. -/
theorem CheckSequenceComplete_fires_and_clears (rdb : Redis) (now : Int)
    (ruleID groupKey : String) (n : Nat) (fs : List (String × String))
    (hup : rdb.fault = none)
    (hprog : storedProgress rdb now (seqKey ruleID groupKey) = some fs)
    (hall : ∀ i : Nat, i < n → (fs.lookup (stepField i)).isSome = true) :
    (CheckSequenceComplete rdb now ruleID groupKey n).1 =
      (true, (List.range n).filterMap (fun i : Nat => fs.lookup (stepField i)), none) ∧
    ((List.range n).filterMap (fun i : Nat => fs.lookup (stepField i))).length = n ∧
    (∀ i : Nat, i < n →
      ((List.range n).filterMap (fun i : Nat => fs.lookup (stepField i)))[i]? =
        fs.lookup (stepField i)) ∧
    (∀ now2, storedProgress (CheckSequenceComplete rdb now ruleID groupKey n).2 now2
      (seqKey ruleID groupKey) = some []) ∧
    (∀ (now2 m : Int), 1 ≤ m →
      (CheckSequenceComplete (CheckSequenceComplete rdb now ruleID groupKey n).2 now2
        ruleID groupKey m).1 = (false, [], none)) := by
  have hmap := filterMap_all_some (fun i : Nat => fs.lookup (stepField i)) (List.range n)
    (fun i hi => hall i (List.mem_range.1 hi))
  have hlen : ((List.range n).filterMap (fun i : Nat => fs.lookup (stepField i))).length = n := by
    have := congrArg List.length hmap
    simpa using this
  have hidx : ∀ i : Nat, i < n →
      ((List.range n).filterMap (fun i : Nat => fs.lookup (stepField i)))[i]? =
        fs.lookup (stepField i) := by
    intro i hi
    have h1 := congrArg (fun l => l[i]?) hmap
    simp only [List.getElem?_map, List.getElem?_range hi, Option.map_some'] at h1
    cases hx : ((List.range n).filterMap (fun i : Nat => fs.lookup (stepField i)))[i]? with
    | none => rw [hx] at h1; cases h1
    | some y =>
      rw [hx] at h1
      simp only [Option.map_some', Option.some.injEq] at h1
      exact h1
  have hstate : (CheckSequenceComplete rdb now ruleID groupKey n).1 =
        (true, (List.range n).filterMap (fun i : Nat => fs.lookup (stepField i)), none) ∧
      (CheckSequenceComplete rdb now ruleID groupKey n).2 =
        rdb.drop (seqKey ruleID groupKey) := by
    unfold CheckSequenceComplete
    simp only
    rw [HGetAll_progress rdb now _ fs hup hprog]
    simp only
    have hge : ((normalize fs).length : Int) ≥ (n : Int) := by
      have := steps_le_length fs n hall
      exact_mod_cast this
    rw [if_pos hge]
    simp only [Int.toNat_ofNat, lookup_normalize, Redis.Del, hup, orKeep, and_self]
  refine ⟨hstate.1, hlen, hidx, ?_, ?_⟩
  · intro now2
    rw [hstate.2]
    simp only [storedProgress, live_drop_self]
  · intro now2 m hm
    rw [hstate.2]
    unfold CheckSequenceComplete
    simp only
    have hf : (rdb.drop (seqKey ruleID groupKey)).fault = none := hup
    have hg : (rdb.drop (seqKey ruleID groupKey)).HGetAll now2 (seqKey ruleID groupKey) =
        .ok [] := by
      unfold Redis.HGetAll
      rw [hf, live_drop_self]
    rw [hg]
    simp only
    rw [if_neg (by simp only [List.length_nil, Nat.cast_zero, ge_iff_le]; omega)]

/-- The count test of `CheckSequenceComplete` is sound when no field other than
`step_0 … step_(n-1)` was recorded under the key: then fired = true does mean that every
step `0..n-1` has a recorded id. -/
theorem CheckSequenceComplete_sound_in_range (rdb : Redis) (now : Int)
    (ruleID groupKey : String) (n : Nat) (fs : List (String × String))
    (hup : rdb.fault = none)
    (hprog : storedProgress rdb now (seqKey ruleID groupKey) = some fs)
    (hrange : ∀ k ∈ fs.map (fun kv => kv.1), ∃ i : Nat, i < n ∧ k = stepField i)
    (hfired : (CheckSequenceComplete rdb now ruleID groupKey n).1.1 = true) :
    ∀ i : Nat, i < n → (fs.lookup (stepField i)).isSome = true := by
  have hlen : n ≤ (normalize fs).length := by
    unfold CheckSequenceComplete at hfired
    simp only at hfired
    rw [HGetAll_progress rdb now _ fs hup hprog] at hfired
    simp only at hfired
    by_cases hge : ((normalize fs).length : Int) ≥ (n : Int)
    · exact_mod_cast hge
    · rw [if_neg hge] at hfired
      cases hfired
  have hsubl : ∀ (m : List (String × String)),
      (normalize m).map (fun kv => kv.1) ⊆ m.map (fun kv => kv.1) := by
    intro m
    induction m with
    | nil => simp [normalize]
    | cons kv rest ih =>
      intro k hk
      rw [normalize, List.map_cons, List.mem_cons] at hk
      rcases hk with hk | hk
      · rw [hk]; simp
      · have h2 : k ∈ (normalize rest).map (fun kv => kv.1) :=
          ((List.filter_sublist _).map _).subset hk
        exact List.mem_cons_of_mem _ (ih h2)
  have hsub : (normalize fs).map (fun kv => kv.1) ⊆
      (List.range n).map (fun i : Nat => stepField i) := by
    intro k hk
    obtain ⟨i, hi, hki⟩ := hrange k (hsubl fs hk)
    rw [List.mem_map]
    exact ⟨i, List.mem_range.2 hi, hki.symm⟩
  have hperm := ((normalize_keys_nodup fs).subperm hsub).perm_of_length_le
    (by simpa using hlen)
  intro i hi
  have hmem : stepField i ∈ (normalize fs).map (fun kv => kv.1) := by
    apply hperm.symm.subset
    rw [List.mem_map]
    exact ⟨i, List.mem_range.2 hi, rfl⟩
  have hkeys : ∀ (m : List (String × String)) (k : String),
      k ∈ m.map (fun kv => kv.1) → (m.lookup k).isSome = true := by
    intro m k
    induction m with
    | nil => intro h; simp at h
    | cons kv rest ih =>
      intro h
      obtain ⟨a, b⟩ := kv
      by_cases hk : k = a
      · subst hk
        simp [List.lookup]
      · have hb : (k == a) = false := by simpa using hk
        simp only [List.lookup, hb]
        apply ih
        simp only [List.map_cons, List.mem_cons] at h
        rcases h with h | h
        · exact absurd h hk
        · exact h
  have := hkeys (normalize fs) _ hmem
  rwa [lookup_normalize] at this

/-- C19 witness: with steps 0 and 1 recorded, a check for 2 steps fires with both ids. -/
theorem CheckSequenceComplete_fires_and_clears_witness :
    (CheckSequenceComplete twoStepStore 30 "r1" "c1" (2 : Nat)).1 =
      (true, (List.range 2).filterMap
        (fun i : Nat => [("step_1", "id1"), ("step_0", "id0")].lookup (stepField i)), none) ∧
    ((List.range 2).filterMap
      (fun i : Nat => [("step_1", "id1"), ("step_0", "id0")].lookup (stepField i))).length
        = 2 ∧
    (∀ i : Nat, i < 2 →
      ((List.range 2).filterMap
        (fun i : Nat => [("step_1", "id1"), ("step_0", "id0")].lookup (stepField i)))[i]? =
        [("step_1", "id1"), ("step_0", "id0")].lookup (stepField i)) ∧
    (∀ now2, storedProgress (CheckSequenceComplete twoStepStore 30 "r1" "c1" (2 : Nat)).2 now2
      (seqKey "r1" "c1") = some []) ∧
    (∀ (now2 m : Int), 1 ≤ m →
      (CheckSequenceComplete (CheckSequenceComplete twoStepStore 30 "r1" "c1" (2 : Nat)).2 now2
        "r1" "c1" m).1 = (false, [], none)) :=
  CheckSequenceComplete_fires_and_clears twoStepStore 30 "r1" "c1" 2
    [("step_1", "id1"), ("step_0", "id0")] (by decide) (by decide) (by decide)

theorem filter_ne_idem {β : Type} (m : List (String × β)) (key : String) :
    (m.filter (fun kv => kv.1 ≠ key)).filter (fun kv => kv.1 ≠ key) =
      m.filter (fun kv => kv.1 ≠ key) := by
  rw [List.filter_filter]
  apply List.filter_congr
  intro x _
  simp

theorem mapSet_mapSet {β : Type} (m : List (String × β)) (key : String) (v v2 : β) :
    matcher.mapSet (matcher.mapSet m key v) key v2 = matcher.mapSet m key v2 := by
  unfold matcher.mapSet
  rw [List.filter_cons_of_neg (by simp), filter_ne_idem]

theorem put_put (r : Redis) (key : String) (e e2 : RedisEntry) :
    (r.put key e).put key e2 = r.put key e2 := by
  unfold Redis.put
  simp only [mapSet_mapSet]

/-- The store `TrackSequenceStep` leaves when the store answers, the time to live sent
with `EXPIRE` is positive and the key holds the progress `fs`. -/
theorem TrackSequenceStep_eq (rdb : Redis) (now : Int) (ruleID groupKey : String)
    (step : Int) (eventID : String) (windowSecs : Int) (fs : List (String × String))
    (hup : rdb.fault = none) (hw : 0 < formatSec (windowDuration windowSecs))
    (hprog : storedProgress rdb now (seqKey ruleID groupKey) = some fs) :
    TrackSequenceStep rdb now ruleID groupKey step eventID windowSecs =
      (none, rdb.put (seqKey ruleID groupKey)
        { value := .hash (matcher.mapSet fs (stepField step) eventID),
          expireAt := some (now + formatSec (windowDuration windowSecs)) }) := by
  have hset : ∃ exp, rdb.HSet now (seqKey ruleID groupKey) (stepField step) eventID =
        .ok (rdb.put (seqKey ruleID groupKey)
          { value := .hash (matcher.mapSet fs (stepField step) eventID), expireAt := exp }) ∧
      ∀ t, exp = some t → now < t := by
    unfold Redis.HSet
    rw [hup]
    rcases storedProgress_cases rdb now _ fs hprog with ⟨hl, hfs⟩ | ⟨exp, hl⟩
    · subst hfs
      exact ⟨none, by simp [hl, matcher.mapSet], fun t ht => by cases ht⟩
    · exact ⟨exp, by simp [hl], fun t ht => live_not_expired rdb now _ _ hl t ht⟩
  obtain ⟨exp, hs, hexp⟩ := hset
  unfold TrackSequenceStep
  simp only [hs]
  have hl1 := live_put_of_fresh rdb now (seqKey ruleID groupKey)
    { value := .hash (matcher.mapSet fs (stepField step) eventID), expireAt := exp } hexp
  have hf : (rdb.put (seqKey ruleID groupKey)
      { value := .hash (matcher.mapSet fs (stepField step) eventID),
        expireAt := exp }).fault = none := hup
  unfold Redis.Expire
  rw [hf, hl1]
  simp only
  rw [if_neg (by omega)]
  simp only [orKeep, put_put]

/-- C20, as stated, fails: with window 0 the `EXPIRE` that follows the `HSET` deletes the
key, so after `TrackSequenceStep` for step 0 with id `id0` no id is recorded for step 0;
the same happens with window 9223372037, whose duration in nanoseconds wraps to a negative
`int64`. -/
theorem TrackSequenceStep_zero_window_records_nothing :
    TrackSequenceStep emptyStore 10 "r1" "c1" 0 "id0" 0 = (none, emptyStore) ∧
      (storedProgress (TrackSequenceStep emptyStore 10 "r1" "c1" 0 "id0" 0).2 10
          (seqKey "r1" "c1")).map (fun fs => fs.lookup (stepField 0)) = some none ∧
      formatSec (windowDuration 9223372037) = -9223372036 ∧
      (storedProgress (TrackSequenceStep emptyStore 10 "r1" "c1" 0 "id0" 9223372037).2 10
          (seqKey "r1" "c1")).map (fun fs => fs.lookup (stepField 0)) = some none := by
  decide

/-- C20 (amended): when the store answers, the key holds the progress `fs`, and the time
to live sent with `EXPIRE` for the window is positive (as it is for every window from 1 to
9223372036 seconds, which is sent as it is), `TrackSequenceStep` for step `i` with id `id`
returns no error and leaves a progress in which step `i` has the recorded id `id`
(whatever id it had before) and every other step, and every other field, has the id it
had in `fs`; recording the same step and id once more at the same second leaves the very
same store, and recording it once more at any second before the key expires leaves the
same progress. -/
theorem TrackSequenceStep_sets_step (rdb : Redis) (now : Int) (ruleID groupKey : String)
    (step : Int) (eventID : String) (windowSecs : Int) (fs : List (String × String))
    (hup : rdb.fault = none) (hw : 0 < formatSec (windowDuration windowSecs))
    (hprog : storedProgress rdb now (seqKey ruleID groupKey) = some fs) :
    (TrackSequenceStep rdb now ruleID groupKey step eventID windowSecs).1 = none ∧
    (∃ fs2, storedProgress (TrackSequenceStep rdb now ruleID groupKey step eventID
          windowSecs).2 now (seqKey ruleID groupKey) = some fs2 ∧
      fs2.lookup (stepField step) = some eventID ∧
      (∀ j : Int, j ≠ step → fs2.lookup (stepField j) = fs.lookup (stepField j)) ∧
      (∀ field : String, field ≠ stepField step → fs2.lookup field = fs.lookup field)) ∧
    TrackSequenceStep (TrackSequenceStep rdb now ruleID groupKey step eventID windowSecs).2
        now ruleID groupKey step eventID windowSecs =
      (none, (TrackSequenceStep rdb now ruleID groupKey step eventID windowSecs).2) ∧
    (∀ now2 : Int, now2 < now + formatSec (windowDuration windowSecs) →
      storedProgress
          (TrackSequenceStep
            (TrackSequenceStep rdb now ruleID groupKey step eventID windowSecs).2
            now2 ruleID groupKey step eventID windowSecs).2 now2 (seqKey ruleID groupKey) =
        storedProgress (TrackSequenceStep rdb now ruleID groupKey step eventID windowSecs).2
          now2 (seqKey ruleID groupKey)) ∧
    (∀ w : Int, 0 < w → w ≤ 9223372036 → formatSec (windowDuration w) = w) := by
  have h1 := TrackSequenceStep_eq rdb now ruleID groupKey step eventID windowSecs fs hup hw hprog
  have hliveAt : ∀ now2 : Int, now2 < now + formatSec (windowDuration windowSecs) →
      (rdb.put (seqKey ruleID groupKey)
        { value := .hash (matcher.mapSet fs (stepField step) eventID),
          expireAt := some (now + formatSec (windowDuration windowSecs)) }).live now2 (seqKey ruleID groupKey) =
      some { value := .hash (matcher.mapSet fs (stepField step) eventID),
             expireAt := some (now + formatSec (windowDuration windowSecs)) } :=
    fun now2 h2 => live_put_of_fresh _ _ _ _ (fun t ht => by cases ht; omega)
  have hprogAt : ∀ now2 : Int, now2 < now + formatSec (windowDuration windowSecs) →
      storedProgress (rdb.put (seqKey ruleID groupKey)
        { value := .hash (matcher.mapSet fs (stepField step) eventID),
          expireAt := some (now + formatSec (windowDuration windowSecs)) }) now2 (seqKey ruleID groupKey) =
      some (matcher.mapSet fs (stepField step) eventID) := by
    intro now2 h2
    simp only [storedProgress, hliveAt now2 h2]
  have hup2 : (rdb.put (seqKey ruleID groupKey)
      { value := .hash (matcher.mapSet fs (stepField step) eventID),
        expireAt := some (now + formatSec (windowDuration windowSecs)) }).fault = none := hup
  rw [h1]
  refine ⟨rfl, ⟨_, hprogAt now (by omega), matcher.lookup_mapSet_self _ _ _, ?_, ?_⟩, ?_, ?_,
    formatSec_windowDuration⟩
  · intro j hj
    exact matcher.lookup_mapSet_ne _ _ _ _ (fun h => hj (stepField_injective _ _ h))
  · intro field hfield
    exact matcher.lookup_mapSet_ne _ _ _ _ hfield
  · simp only
    rw [TrackSequenceStep_eq _ now ruleID groupKey step eventID windowSecs _ hup2 hw
      (hprogAt now (by omega))]
    simp only [put_put, mapSet_mapSet]
  · intro now2 h2
    simp only
    rw [TrackSequenceStep_eq _ now2 ruleID groupKey step eventID windowSecs _ hup2 hw
      (hprogAt now2 h2)]
    simp only [put_put, mapSet_mapSet]
    rw [hprogAt now2 h2]
    have hl : (rdb.put (seqKey ruleID groupKey)
        { value := .hash (matcher.mapSet fs (stepField step) eventID),
          expireAt := some (now2 + formatSec (windowDuration windowSecs)) }).live now2 (seqKey ruleID groupKey) =
        some { value := .hash (matcher.mapSet fs (stepField step) eventID),
               expireAt := some (now2 + formatSec (windowDuration windowSecs)) } :=
      live_put_of_fresh _ _ _ _ (fun t ht => by cases ht; omega)
    simp only [storedProgress, hl]

/-- C20 witness: recording step 1 again, with a new id and window 300 s, on the store that
holds steps 0 and 1. -/
theorem TrackSequenceStep_sets_step_witness :
    0 < formatSec (windowDuration 300) ∧
    (TrackSequenceStep twoStepStore 30 "r1" "c1" 1 "id9" 300).1 = none ∧
    (∃ fs2, storedProgress (TrackSequenceStep twoStepStore 30 "r1" "c1" 1 "id9" 300).2 30
          (seqKey "r1" "c1") = some fs2 ∧
      fs2.lookup (stepField 1) = some "id9" ∧
      (∀ j : Int, j ≠ 1 → fs2.lookup (stepField j) =
        [("step_1", "id1"), ("step_0", "id0")].lookup (stepField j)) ∧
      (∀ field : String, field ≠ stepField 1 → fs2.lookup field =
        [("step_1", "id1"), ("step_0", "id0")].lookup field)) ∧
    TrackSequenceStep (TrackSequenceStep twoStepStore 30 "r1" "c1" 1 "id9" 300).2
        30 "r1" "c1" 1 "id9" 300 =
      (none, (TrackSequenceStep twoStepStore 30 "r1" "c1" 1 "id9" 300).2) ∧
    (∀ now2 : Int, now2 < 30 + formatSec (windowDuration 300) →
      storedProgress
          (TrackSequenceStep (TrackSequenceStep twoStepStore 30 "r1" "c1" 1 "id9" 300).2
            now2 "r1" "c1" 1 "id9" 300).2 now2 (seqKey "r1" "c1") =
        storedProgress (TrackSequenceStep twoStepStore 30 "r1" "c1" 1 "id9" 300).2
          now2 (seqKey "r1" "c1")) ∧
    (∀ w : Int, 0 < w → w ≤ 9223372036 → formatSec (windowDuration w) = w) :=
  ⟨by decide,
    TrackSequenceStep_sets_step twoStepStore 30 "r1" "c1" 1 "id9" 300
      [("step_1", "id1"), ("step_0", "id0")] (by decide) (by decide) (by decide)⟩

/-! ### State is partitioned by key -/

/-- Two texts cut at the first occurrence of a separator character agree part by part. -/
theorem eq_of_sep_split (s : Char) : ∀ (a c x y : List Char), s ∉ a → s ∉ c →
    a ++ s :: x = c ++ s :: y → a = c ∧ x = y
  | [], [], _, _, _, _, h => by
    simp only [List.nil_append, List.cons.injEq, true_and] at h
    exact ⟨rfl, h⟩
  | [], d :: c, x, y, _, hc, h => by
    simp only [List.nil_append, List.cons_append, List.cons.injEq] at h
    exact absurd (h.1 ▸ List.mem_cons_self _ _) hc
  | b :: a, [], x, y, ha, _, h => by
    simp only [List.nil_append, List.cons_append, List.cons.injEq] at h
    exact absurd (h.1 ▸ List.mem_cons_self _ _) ha
  | b :: a, d :: c, x, y, ha, hc, h => by
    simp only [List.cons_append, List.cons.injEq] at h
    have ih := eq_of_sep_split s a c x y (fun m => ha (List.mem_cons_of_mem _ m))
      (fun m => hc (List.mem_cons_of_mem _ m)) h.2
    rw [h.1, ih.1]
    exact ⟨rfl, ih.2⟩

/-- Keys built from rule ids that hold no colon determine the rule id and the group key. -/
theorem key_injective (pre r g r2 g2 : String) (hr : ':' ∉ r.data) (hr2 : ':' ∉ r2.data)
    (h : pre ++ r ++ ":" ++ g = pre ++ r2 ++ ":" ++ g2) : r = r2 ∧ g = g2 := by
  have hd := congrArg String.data h
  simp only [String.data_append, List.append_assoc] at hd
  have hd2 := List.append_cancel_left hd
  have hsplit := eq_of_sep_split ':' r.data r2.data g.data g2.data hr hr2 hd2
  exact ⟨String.ext hsplit.1, String.ext hsplit.2⟩

theorem corrKey_ne_seqKey (r g r2 g2 : String) : corrKey r g ≠ seqKey r2 g2 := by
  intro h
  have hd := congrArg String.data h
  simp only [corrKey, seqKey, String.data_append, List.append_assoc] at hd
  have h0 := congrArg List.head? hd
  simp at h0

theorem ZAdd_frame (r : Redis) (now : Int) (key : String) (s : Int) (m : RuntimeEvent)
    (r1 : Redis) (h : r.ZAdd now key s m = .ok r1) :
    r1.fault = r.fault ∧ ∀ t k, k ≠ key → r1.live t k = r.live t k := by
  unfold Redis.ZAdd at h
  split at h
  · cases h
  · split at h
    · cases h
      exact ⟨rfl, fun t k hk => live_put_ne _ _ _ _ _ hk⟩
    · cases h
      exact ⟨rfl, fun t k hk => live_put_ne _ _ _ _ _ hk⟩
    · cases h

theorem Expire_frame (r : Redis) (now : Int) (key : String) (secs : Int)
    (r1 : Redis) (h : r.Expire now key secs = .ok r1) :
    r1.fault = r.fault ∧ ∀ t k, k ≠ key → r1.live t k = r.live t k := by
  unfold Redis.Expire at h
  split at h
  · cases h
  · split at h
    · cases h
      exact ⟨rfl, fun _ _ _ => rfl⟩
    · split at h
      · cases h
        exact ⟨rfl, fun t k hk => live_drop_ne _ _ _ _ hk⟩
      · cases h
        exact ⟨rfl, fun t k hk => live_put_ne _ _ _ _ _ hk⟩

theorem ZRemRangeByScore_frame (r : Redis) (now : Int) (key : String) (lo : Option Int)
    (hi : Int) (r1 : Redis) (h : r.ZRemRangeByScore now key lo hi = .ok r1) :
    r1.fault = r.fault ∧ ∀ t k, k ≠ key → r1.live t k = r.live t k := by
  unfold Redis.ZRemRangeByScore at h
  split at h
  · cases h
  · split at h
    · cases h
      exact ⟨rfl, fun _ _ _ => rfl⟩
    · simp only at h
      split at h
      · cases h
        exact ⟨rfl, fun t k hk => live_drop_ne _ _ _ _ hk⟩
      · cases h
        exact ⟨rfl, fun t k hk => live_put_ne _ _ _ _ _ hk⟩
    · cases h

theorem HSet_frame (r : Redis) (now : Int) (key field value : String)
    (r1 : Redis) (h : r.HSet now key field value = .ok r1) :
    r1.fault = r.fault ∧ ∀ t k, k ≠ key → r1.live t k = r.live t k := by
  unfold Redis.HSet at h
  split at h
  · cases h
  · split at h
    · cases h
      exact ⟨rfl, fun t k hk => live_put_ne _ _ _ _ _ hk⟩
    · cases h
      exact ⟨rfl, fun t k hk => live_put_ne _ _ _ _ _ hk⟩
    · cases h

/-- A fire-and-forget command that touches one key leaves the rest of the store alone. -/
theorem orKeep_frame (res : Except String Redis) (r : Redis) (key : String)
    (h : ∀ r1, res = .ok r1 →
      r1.fault = r.fault ∧ ∀ t k, k ≠ key → r1.live t k = r.live t k) :
    (orKeep res r).fault = r.fault ∧ ∀ t k, k ≠ key → (orKeep res r).live t k = r.live t k := by
  cases res with
  | error e => exact ⟨rfl, fun _ _ _ => rfl⟩
  | ok r1 => exact h r1 rfl

/-- The method `TrackEvent` reads and writes the key of its own pair only. -/
theorem TrackEvent_frame (rdb : Redis) (now : Int) (event : RuntimeEvent)
    (ruleID groupKey : String) (windowSecs : Int) :
    (TrackEvent rdb now event ruleID groupKey windowSecs).2.fault = rdb.fault ∧
    ∀ t k, k ≠ corrKey ruleID groupKey →
      (TrackEvent rdb now event ruleID groupKey windowSecs).2.live t k = rdb.live t k := by
  unfold TrackEvent
  simp only
  cases hm : matcher.Marshal event with
  | error e => exact ⟨rfl, fun _ _ _ => rfl⟩
  | ok doc =>
    simp only
    generalize formatSec (windowDuration windowSecs) = ttl
    generalize float64 (wrap64 (now - windowSecs)) = lo
    cases hz : rdb.ZAdd now (corrKey ruleID groupKey)
        (float64 (unixSeconds event.Timestamp)) event with
    | error e => exact ⟨rfl, fun _ _ _ => rfl⟩
    | ok r1 =>
      simp only
      have h1 := ZAdd_frame rdb now _ _ _ r1 hz
      have h2 := orKeep_frame (r1.Expire now (corrKey ruleID groupKey) ttl) r1
        (corrKey ruleID groupKey) (fun r2 h => Expire_frame r1 now _ _ r2 h)
      have h3 := orKeep_frame
        ((orKeep (r1.Expire now (corrKey ruleID groupKey) ttl) r1).ZRemRangeByScore now
          (corrKey ruleID groupKey) none lo)
        (orKeep (r1.Expire now (corrKey ruleID groupKey) ttl) r1)
        (corrKey ruleID groupKey) (fun r3 h => ZRemRangeByScore_frame _ now _ _ _ r3 h)
      refine ⟨h3.1.trans (h2.1.trans h1.1), fun t k hk => ?_⟩
      rw [h3.2 t k hk, h2.2 t k hk, h1.2 t k hk]

/-- The method `TrackSequenceStep` reads and writes the key of its own pair only. -/
theorem TrackSequenceStep_frame (rdb : Redis) (now : Int) (ruleID groupKey : String)
    (step : Int) (eventID : String) (windowSecs : Int) :
    (TrackSequenceStep rdb now ruleID groupKey step eventID windowSecs).2.fault = rdb.fault ∧
    ∀ t k, k ≠ seqKey ruleID groupKey →
      (TrackSequenceStep rdb now ruleID groupKey step eventID windowSecs).2.live t k =
        rdb.live t k := by
  unfold TrackSequenceStep
  simp only
  cases hz : rdb.HSet now (seqKey ruleID groupKey) (stepField step) eventID with
  | error e => exact ⟨rfl, fun _ _ _ => rfl⟩
  | ok r1 =>
    simp only
    have h1 := HSet_frame rdb now _ _ _ r1 hz
    have h2 := orKeep_frame (r1.Expire now (seqKey ruleID groupKey)
      (formatSec (windowDuration windowSecs))) r1
      (seqKey ruleID groupKey) (fun r2 h => Expire_frame r1 now _ _ r2 h)
    refine ⟨h2.1.trans h1.1, fun t k hk => ?_⟩
    rw [h2.2 t k hk, h1.2 t k hk]

/-- What `CheckThreshold` returns depends on the store through its reachability and the
entry under the key of the pair only. -/
theorem CheckThreshold_congr (r1 r2 : Redis) (now : Int) (ruleID groupKey : String)
    (threshold windowSecs : Int) (hf : r1.fault = r2.fault)
    (hl : r1.live now (corrKey ruleID groupKey) = r2.live now (corrKey ruleID groupKey)) :
    (CheckThreshold r1 now ruleID groupKey threshold windowSecs).1 =
      (CheckThreshold r2 now ruleID groupKey threshold windowSecs).1 := by
  have hz : r1.ZRangeByScore now (corrKey ruleID groupKey)
        (float64 (wrap64 (now - windowSecs))) (float64 now) =
      r2.ZRangeByScore now (corrKey ruleID groupKey)
        (float64 (wrap64 (now - windowSecs))) (float64 now) := by
    unfold Redis.ZRangeByScore
    rw [hf, hl]
  unfold CheckThreshold
  simp only [hz]
  split
  · rfl
  · split <;> rfl

/-- What `CheckSequenceComplete` returns depends on the store through its reachability and
the entry under the key of the pair only. -/
theorem CheckSequenceComplete_congr (r1 r2 : Redis) (now : Int) (ruleID groupKey : String)
    (totalSteps : Int) (hf : r1.fault = r2.fault)
    (hl : r1.live now (seqKey ruleID groupKey) = r2.live now (seqKey ruleID groupKey)) :
    (CheckSequenceComplete r1 now ruleID groupKey totalSteps).1 =
      (CheckSequenceComplete r2 now ruleID groupKey totalSteps).1 := by
  have hz : r1.HGetAll now (seqKey ruleID groupKey) = r2.HGetAll now (seqKey ruleID groupKey) := by
    unfold Redis.HGetAll
    rw [hf, hl]
  unfold CheckSequenceComplete
  simp only [hz]
  split
  · rfl
  · split <;> rfl

/-- C21 (the claim fails as stated): the pairs `("a:b", "c")` and `("a", "b:c")` differ and
are given the same key `corr:a:b:c`; on the empty store `CheckThreshold` for
`("a", "b:c")` with threshold 1 does not fire, and after `TrackEvent` for `("a:b", "c")` it
fires, with the id of the event tracked for the other pair. -/
theorem TrackEvent_changes_colliding_pair :
    (("a:b", "c") : String × String) ≠ ("a", "b:c") ∧
      corrKey "a:b" "c" = corrKey "a" "b:c" ∧
      (CheckThreshold emptyStore 10 "a" "b:c" 1 60).1 = (false, [], none) ∧
      (CheckThreshold (TrackEvent emptyStore 10 (eventAt "x" 10) "a:b" "c" 60).2 10
        "a" "b:c" 1 60).1 = (true, ["x"], none) := by
  decide

/-- C21 (amended): for two different pairs whose rule ids hold no colon, the window keys
differ and the sequence keys differ, and in every store, at all times and for all
arguments, `TrackEvent` and `TrackSequenceStep` on the first pair leave what
`CheckThreshold` and `CheckSequenceComplete` return for the second pair unchanged. -/
theorem state_partitioned_by_pair (r g r2 g2 : String)
    (hr : ':' ∉ r.data) (hr2 : ':' ∉ r2.data) (hne : (r, g) ≠ (r2, g2)) :
    corrKey r g ≠ corrKey r2 g2 ∧ seqKey r g ≠ seqKey r2 g2 ∧
    ∀ (rdb : Redis) (now now2 : Int) (event : RuntimeEvent) (step : Int) (eventID : String)
      (windowSecs threshold windowSecs2 totalSteps : Int),
      (CheckThreshold (TrackEvent rdb now event r g windowSecs).2 now2 r2 g2 threshold
          windowSecs2).1 = (CheckThreshold rdb now2 r2 g2 threshold windowSecs2).1 ∧
      (CheckSequenceComplete (TrackEvent rdb now event r g windowSecs).2 now2 r2 g2
          totalSteps).1 = (CheckSequenceComplete rdb now2 r2 g2 totalSteps).1 ∧
      (CheckThreshold (TrackSequenceStep rdb now r g step eventID windowSecs).2 now2 r2 g2
          threshold windowSecs2).1 = (CheckThreshold rdb now2 r2 g2 threshold windowSecs2).1 ∧
      (CheckSequenceComplete (TrackSequenceStep rdb now r g step eventID windowSecs).2 now2
          r2 g2 totalSteps).1 = (CheckSequenceComplete rdb now2 r2 g2 totalSteps).1 := by
  have hc : corrKey r g ≠ corrKey r2 g2 := by
    intro h
    have := key_injective "corr:" r g r2 g2 hr hr2 h
    exact hne (by rw [this.1, this.2])
  have hs : seqKey r g ≠ seqKey r2 g2 := by
    intro h
    have := key_injective "seq:" r g r2 g2 hr hr2 h
    exact hne (by rw [this.1, this.2])
  refine ⟨hc, hs, ?_⟩
  intro rdb now now2 event step eventID windowSecs threshold windowSecs2 totalSteps
  have hte := TrackEvent_frame rdb now event r g windowSecs
  have hts := TrackSequenceStep_frame rdb now r g step eventID windowSecs
  exact ⟨CheckThreshold_congr _ _ _ _ _ _ _ hte.1 (hte.2 _ _ (Ne.symm hc)),
    CheckSequenceComplete_congr _ _ _ _ _ _ hte.1
      (hte.2 _ _ (fun h => corrKey_ne_seqKey r g r2 g2 h.symm)),
    CheckThreshold_congr _ _ _ _ _ _ _ hts.1
      (hts.2 _ _ (fun h => corrKey_ne_seqKey r2 g2 r g h)),
    CheckSequenceComplete_congr _ _ _ _ _ _ hts.1 (hts.2 _ _ (Ne.symm hs))⟩

/-- C21 witness: rule `r1` with the groups `c1` and `c2`. -/
theorem state_partitioned_by_pair_witness :
    corrKey "r1" "c1" ≠ corrKey "r1" "c2" ∧ seqKey "r1" "c1" ≠ seqKey "r1" "c2" ∧
    ∀ (rdb : Redis) (now now2 : Int) (event : RuntimeEvent) (step : Int) (eventID : String)
      (windowSecs threshold windowSecs2 totalSteps : Int),
      (CheckThreshold (TrackEvent rdb now event "r1" "c1" windowSecs).2 now2 "r1" "c2"
          threshold windowSecs2).1 = (CheckThreshold rdb now2 "r1" "c2" threshold
            windowSecs2).1 ∧
      (CheckSequenceComplete (TrackEvent rdb now event "r1" "c1" windowSecs).2 now2 "r1" "c2"
          totalSteps).1 = (CheckSequenceComplete rdb now2 "r1" "c2" totalSteps).1 ∧
      (CheckThreshold (TrackSequenceStep rdb now "r1" "c1" step eventID windowSecs).2 now2
          "r1" "c2" threshold windowSecs2).1 =
        (CheckThreshold rdb now2 "r1" "c2" threshold windowSecs2).1 ∧
      (CheckSequenceComplete (TrackSequenceStep rdb now "r1" "c1" step eventID windowSecs).2
          now2 "r1" "c2" totalSteps).1 =
        (CheckSequenceComplete rdb now2 "r1" "c2" totalSteps).1 :=
  state_partitioned_by_pair "r1" "c1" "r1" "c2" (by decide) (by decide) (by decide)

/-! ### The store `TrackEvent` leaves -/

theorem drop_put (r : Redis) (key : String) (e : RedisEntry) :
    (r.put key e).drop key = r.drop key := by
  unfold Redis.put Redis.drop matcher.mapSet
  simp only
  rw [List.filter_cons_of_neg (by simp), filter_ne_idem]

theorem drop_drop (r : Redis) (key : String) : (r.drop key).drop key = r.drop key := by
  unfold Redis.drop
  simp only
  rw [filter_ne_idem]

/-- The result of `TrackEvent` when `json.Marshal` refuses the event: the error, and the
store as it was. -/
theorem TrackEvent_refused (rdb : Redis) (now : Int) (event : RuntimeEvent)
    (ruleID groupKey : String) (windowSecs : Int) (err : String)
    (hdoc : matcher.Marshal event = .error err) :
    TrackEvent rdb now event ruleID groupKey windowSecs = (some err, rdb) := by
  unfold TrackEvent
  simp only [hdoc]

/-- The result of `TrackEvent` when `json.Marshal` accepts the event, the store answers and
the key holds the window `ms`: no error, and the key holds the stored entries and the new
event (which replaces an equal stored member) whose score is strictly above the cleanup
bound, with the time to live sent with `EXPIRE`; the key is gone when no such entry is
left or that time to live is not positive. -/
theorem TrackEvent_eq (rdb : Redis) (now : Int) (event : RuntimeEvent)
    (ruleID groupKey : String) (windowSecs : Int) (ms : List (Int × RuntimeEvent))
    (doc : matcher.Value)
    (hup : rdb.fault = none) (hdoc : matcher.Marshal event = .ok doc)
    (hwin : storedWindow rdb now (corrKey ruleID groupKey) = some ms) :
    TrackEvent rdb now event ruleID groupKey windowSecs =
      (none,
        if formatSec (windowDuration windowSecs) ≤ 0 then rdb.drop (corrKey ruleID groupKey)
        else if (ms.filter (fun x => x.2 ≠ event) ++
            [(float64 (unixSeconds event.Timestamp), event)]).filter
              (fun x => float64 (wrap64 (now - windowSecs)) < x.1) = [] then
          rdb.drop (corrKey ruleID groupKey)
        else rdb.put (corrKey ruleID groupKey)
          { value := .zset ((ms.filter (fun x => x.2 ≠ event) ++
              [(float64 (unixSeconds event.Timestamp), event)]).filter
                (fun x => float64 (wrap64 (now - windowSecs)) < x.1)),
            expireAt := some (now + formatSec (windowDuration windowSecs)) }) := by
  generalize hms2 : (ms.filter (fun x => x.2 ≠ event) ++
            [(float64 (unixSeconds event.Timestamp), event)]) = ms2
  have hadd : ∃ exp, rdb.ZAdd now (corrKey ruleID groupKey)
        (float64 (unixSeconds event.Timestamp))
        event = .ok (rdb.put (corrKey ruleID groupKey)
          { value := .zset ms2, expireAt := exp }) ∧
      ∀ t, exp = some t → now < t := by
    unfold Redis.ZAdd
    rw [hup, ← hms2]
    rcases storedWindow_cases rdb now _ ms hwin with ⟨hl, hms⟩ | ⟨exp, hl⟩
    · subst hms
      refine ⟨none, by simp [hl], fun t ht => by cases ht⟩
    · exact ⟨exp, by simp [hl], fun t ht => live_not_expired rdb now _ _ hl t ht⟩
  obtain ⟨exp, hz, hexp⟩ := hadd
  unfold TrackEvent
  simp only [hdoc, hz]
  generalize formatSec (windowDuration windowSecs) = ttl
  generalize float64 (wrap64 (now - windowSecs)) = lo
  have hl1 := live_put_of_fresh rdb now (corrKey ruleID groupKey)
    { value := .zset ms2, expireAt := exp } hexp
  have hf : (rdb.put (corrKey ruleID groupKey)
      { value := .zset ms2, expireAt := exp }).fault = none := hup
  by_cases hw : ttl ≤ 0
  · have hexpire : (rdb.put (corrKey ruleID groupKey)
          { value := .zset ms2, expireAt := exp }).Expire now
          (corrKey ruleID groupKey) ttl = .ok (rdb.drop (corrKey ruleID groupKey)) := by
      unfold Redis.Expire
      rw [hf, hl1]
      simp only
      rw [if_pos hw, drop_put]
    rw [hexpire, if_pos hw]
    simp only [orKeep]
    have hrem : (rdb.drop (corrKey ruleID groupKey)).ZRemRangeByScore now
        (corrKey ruleID groupKey) none lo =
          .ok (rdb.drop (corrKey ruleID groupKey)) := by
      unfold Redis.ZRemRangeByScore
      have hf0 : (rdb.drop (corrKey ruleID groupKey)).fault = none := hup
      rw [hf0, live_drop_self]
    rw [hrem]
  · have hexpire : (rdb.put (corrKey ruleID groupKey)
          { value := .zset ms2, expireAt := exp }).Expire now
          (corrKey ruleID groupKey) ttl =
        .ok (rdb.put (corrKey ruleID groupKey)
          { value := .zset ms2, expireAt := some (now + ttl) }) := by
      unfold Redis.Expire
      rw [hf, hl1]
      simp only
      rw [if_neg hw, put_put]
    rw [hexpire, if_neg hw]
    simp only [orKeep]
    have hl2 : (rdb.put (corrKey ruleID groupKey)
        { value := .zset ms2, expireAt := some (now + ttl) }).live now
        (corrKey ruleID groupKey) =
          some { value := .zset ms2, expireAt := some (now + ttl) } :=
      live_put_of_fresh _ _ _ _ (fun t ht => by cases ht; omega)
    have hkept : ms2.filter (fun x => ¬ (Redis.aboveMin none x.1 ∧ x.1 ≤ lo)) =
        ms2.filter (fun x => lo < x.1) := by
      apply List.filter_congr
      intro x _
      simp [Redis.aboveMin]
    unfold Redis.ZRemRangeByScore
    have hf2 : (rdb.put (corrKey ruleID groupKey)
        { value := .zset ms2, expireAt := some (now + ttl) }).fault = none := hup
    rw [hf2, hl2]
    simp only [hkept]
    by_cases hk : ms2.filter (fun x => lo < x.1) = []
    · rw [if_pos hk, if_pos hk, drop_put]
    · rw [if_neg hk, if_neg hk, put_put]

/-- The result of `TrackEvent` when `json.Marshal` accepts the event, the store answers and
the key holds a hash. -/
theorem TrackEvent_wrongType (rdb : Redis) (now : Int) (event : RuntimeEvent)
    (ruleID groupKey : String) (windowSecs : Int) (doc : matcher.Value)
    (hup : rdb.fault = none) (hdoc : matcher.Marshal event = .ok doc)
    (hwin : storedWindow rdb now (corrKey ruleID groupKey) = none) :
    TrackEvent rdb now event ruleID groupKey windowSecs = (some Redis.wrongType, rdb) := by
  unfold storedWindow at hwin
  unfold TrackEvent Redis.ZAdd
  rw [hup]
  simp only [hdoc]
  cases hl : rdb.live now (corrKey ruleID groupKey) with
  | none => rw [hl] at hwin; cases hwin
  | some e =>
    obtain ⟨v, exp⟩ := e
    cases v with
    | zset ms => rw [hl] at hwin; cases hwin
    | hash fs => rfl

/-- The result of `TrackEvent` when `json.Marshal` accepts the event and the store does
not answer. -/
theorem TrackEvent_fault (rdb : Redis) (now : Int) (event : RuntimeEvent)
    (ruleID groupKey : String) (windowSecs : Int) (err : String) (doc : matcher.Value)
    (hup : rdb.fault = some err) (hdoc : matcher.Marshal event = .ok doc) :
    TrackEvent rdb now event ruleID groupKey windowSecs = (some err, rdb) := by
  unfold TrackEvent Redis.ZAdd
  rw [hup]
  simp only [hdoc]

/-- The window `TrackEvent` leaves when the time to live is positive: the stored entries
and the new event (which replaces an equal stored member) whose score is strictly above
the cleanup bound. -/
theorem TrackEvent_window (rdb : Redis) (now : Int) (event : RuntimeEvent)
    (ruleID groupKey : String) (windowSecs : Int) (ms : List (Int × RuntimeEvent))
    (doc : matcher.Value)
    (hup : rdb.fault = none) (hdoc : matcher.Marshal event = .ok doc)
    (hw : 0 < formatSec (windowDuration windowSecs))
    (hwin : storedWindow rdb now (corrKey ruleID groupKey) = some ms) :
    (TrackEvent rdb now event ruleID groupKey windowSecs).1 = none ∧
    (TrackEvent rdb now event ruleID groupKey windowSecs).2.fault = none ∧
    storedWindow (TrackEvent rdb now event ruleID groupKey windowSecs).2 now
        (corrKey ruleID groupKey) =
      some ((ms.filter (fun x => x.2 ≠ event) ++
          [(float64 (unixSeconds event.Timestamp), event)]).filter
        (fun x => float64 (wrap64 (now - windowSecs)) < x.1)) := by
  rw [TrackEvent_eq rdb now event ruleID groupKey windowSecs ms doc hup hdoc hwin,
    if_neg (by omega)]
  generalize (ms.filter (fun x => x.2 ≠ event) ++
      [(float64 (unixSeconds event.Timestamp), event)]).filter
        (fun x => float64 (wrap64 (now - windowSecs)) < x.1) = kept
  by_cases hk : kept = []
  · rw [if_pos hk]
    refine ⟨rfl, hup, ?_⟩
    simp only [storedWindow, live_drop_self, hk]
  · rw [if_neg hk]
    refine ⟨rfl, hup, ?_⟩
    have hl := live_put_of_fresh rdb now (corrKey ruleID groupKey)
      { value := .zset kept, expireAt := some (now + formatSec (windowDuration windowSecs)) }
      (fun t ht => by cases ht; omega)
    simp only [storedWindow, hl]

/-- What `CheckThreshold` returns on a store that answers and holds the window `ms`. -/
theorem CheckThreshold_of_window (rdb : Redis) (now : Int) (ruleID groupKey : String)
    (threshold windowSecs : Int) (ms : List (Int × RuntimeEvent))
    (hup : rdb.fault = none)
    (hwin : storedWindow rdb now (corrKey ruleID groupKey) = some ms) :
    (CheckThreshold rdb now ruleID groupKey threshold windowSecs).1 =
      if ((((inWindow now windowSecs ms).insertionSort (fun a b => a.1 ≤ b.1)).map
          (fun x => x.2)).length : Int) ≥ threshold then
        (true, (((inWindow now windowSecs ms).insertionSort (fun a b => a.1 ≤ b.1)).map
          (fun x => x.2)).map (fun e => e.EventID), none)
      else (false, [], none) := by
  unfold CheckThreshold
  simp only
  rw [ZRangeByScore_window rdb now _ _ _ ms hup hwin]
  simp only [inWindow]
  split <;> rfl

/-- Replacing a member and evicting below a bound, done twice, is the same as done once. -/
theorem kept_idem (ms : List (Int × RuntimeEvent)) (s lo : Int) (event : RuntimeEvent) :
    (((ms.filter (fun x => x.2 ≠ event) ++ [(s, event)]).filter (fun x => lo < x.1)).filter
        (fun x => x.2 ≠ event) ++ [(s, event)]).filter (fun x => lo < x.1) =
      (ms.filter (fun x => x.2 ≠ event) ++ [(s, event)]).filter (fun x => lo < x.1) := by
  have h1 : ((ms.filter (fun x => x.2 ≠ event) ++ [(s, event)]).filter
        (fun x => lo < x.1)).filter (fun x => x.2 ≠ event) =
      (ms.filter (fun x => x.2 ≠ event)).filter (fun x => lo < x.1) := by
    rw [List.filter_append, List.filter_append]
    have h2 : ([(s, event)].filter (fun x => lo < x.1)).filter (fun x => x.2 ≠ event) = [] := by
      by_cases hp : lo < s
      · rw [List.filter_cons_of_pos (by simpa using hp), List.filter_nil,
          List.filter_cons_of_neg (by simp), List.filter_nil]
      · rw [List.filter_cons_of_neg (by simpa using hp), List.filter_nil, List.filter_nil]
    rw [h2, List.append_nil]
    apply List.filter_eq_self.2
    intro x hx
    exact (List.mem_filter.1 (List.mem_filter.1 hx).1).2
  rw [h1, List.filter_append, List.filter_append]
  congr 1
  apply List.filter_eq_self.2
  intro x hx
  exact (List.mem_filter.1 hx).2

/-- Moving a stored member to the end of a window set whose members are pairwise distinct
rearranges the set. -/
theorem readd_perm (s : Int) (event : RuntimeEvent) : ∀ (ms : List (Int × RuntimeEvent)),
    (ms.map (fun x => x.2)).Nodup → (s, event) ∈ ms →
    (ms.filter (fun x => x.2 ≠ event) ++ [(s, event)]).Perm ms
  | [], _, hmem => by cases hmem
  | x :: rest, hnd, hmem => by
    rw [List.map_cons, List.nodup_cons] at hnd
    rcases List.mem_cons.1 hmem with hx | hx
    · subst hx
      have hall : rest.filter (fun x => x.2 ≠ event) = rest := by
        apply List.filter_eq_self.2
        intro y hy
        have : y.2 ≠ event := fun h => hnd.1 (h ▸ List.mem_map_of_mem (fun x => x.2) hy)
        simpa using this
      rw [List.filter_cons_of_neg (by simp), hall]
      exact List.perm_append_singleton _ _
    · have hne : x.2 ≠ event := fun h =>
        hnd.1 (h ▸ List.mem_map_of_mem (fun x => x.2) hx)
      rw [List.filter_cons_of_pos (by simpa using hne), List.cons_append]
      exact (readd_perm s event rest hnd.2 hx).cons x

/-- C30: in every store, for every event and every window, `TrackEvent` of the same event
for the same pair at the same second with the same window, run a second time, returns what
the first run returned and leaves the store the first run left, so `CheckThreshold`
returns the same with or without the redelivery, at all times and for every threshold and
window. More generally, when `json.Marshal` accepts the event, the store answers, the time
to live sent with `EXPIRE` is positive, and the key holds a window set of pairwise
distinct members, none of them at or below the cleanup bound at second `now`, in which the
event is already stored under its score, `TrackEvent` returns no error and leaves a window
set that is a rearrangement of the one it found: `CheckThreshold` compares the same count
with the threshold as before and returns the same ids. -/
theorem TrackEvent_idempotent (rdb : Redis) (now : Int) (event : RuntimeEvent)
    (ruleID groupKey : String) (windowSecs : Int) :
    TrackEvent (TrackEvent rdb now event ruleID groupKey windowSecs).2 now event ruleID
        groupKey windowSecs = TrackEvent rdb now event ruleID groupKey windowSecs ∧
    (∀ (now2 threshold windowSecs2 : Int),
      CheckThreshold (TrackEvent (TrackEvent rdb now event ruleID groupKey windowSecs).2 now
          event ruleID groupKey windowSecs).2 now2 ruleID groupKey threshold windowSecs2 =
        CheckThreshold (TrackEvent rdb now event ruleID groupKey windowSecs).2 now2 ruleID
          groupKey threshold windowSecs2) ∧
    (∀ (ms : List (Int × RuntimeEvent)) (doc : matcher.Value), rdb.fault = none →
      matcher.Marshal event = .ok doc → 0 < formatSec (windowDuration windowSecs) →
      storedWindow rdb now (corrKey ruleID groupKey) = some ms →
      (ms.map (fun x => x.2)).Nodup → (∀ x ∈ ms, float64 (wrap64 (now - windowSecs)) < x.1) →
      (float64 (unixSeconds event.Timestamp), event) ∈ ms →
      (TrackEvent rdb now event ruleID groupKey windowSecs).1 = none ∧
      (∃ ms2, storedWindow (TrackEvent rdb now event ruleID groupKey windowSecs).2 now
          (corrKey ruleID groupKey) = some ms2 ∧ ms2.Perm ms) ∧
      ∀ (threshold windowSecs2 : Int),
        (CheckThreshold (TrackEvent rdb now event ruleID groupKey windowSecs).2 now ruleID
            groupKey threshold windowSecs2).1.1 =
          (CheckThreshold rdb now ruleID groupKey threshold windowSecs2).1.1 ∧
        ((CheckThreshold (TrackEvent rdb now event ruleID groupKey windowSecs).2 now ruleID
            groupKey threshold windowSecs2).1.2.1).Perm
          (CheckThreshold rdb now ruleID groupKey threshold windowSecs2).1.2.1) := by
  have hidem : TrackEvent (TrackEvent rdb now event ruleID groupKey windowSecs).2 now event
      ruleID groupKey windowSecs = TrackEvent rdb now event ruleID groupKey windowSecs := by
    cases hdoc : matcher.Marshal event with
    | error err =>
      rw [TrackEvent_refused rdb now event ruleID groupKey windowSecs err hdoc]
      exact TrackEvent_refused rdb now event ruleID groupKey windowSecs err hdoc
    | ok doc =>
    cases hup : rdb.fault with
    | some err =>
      rw [TrackEvent_fault rdb now event ruleID groupKey windowSecs err doc hup hdoc]
      exact TrackEvent_fault rdb now event ruleID groupKey windowSecs err doc hup hdoc
    | none =>
      cases hwin : storedWindow rdb now (corrKey ruleID groupKey) with
      | none =>
        rw [TrackEvent_wrongType rdb now event ruleID groupKey windowSecs doc hup hdoc hwin]
        exact TrackEvent_wrongType rdb now event ruleID groupKey windowSecs doc hup hdoc hwin
      | some ms =>
        rw [TrackEvent_eq rdb now event ruleID groupKey windowSecs ms doc hup hdoc hwin]
        simp only
        have hdrop : TrackEvent (rdb.drop (corrKey ruleID groupKey)) now event ruleID groupKey
            windowSecs =
            (none,
              if formatSec (windowDuration windowSecs) ≤ 0 then rdb.drop (corrKey ruleID groupKey)
              else if (([] : List (Int × RuntimeEvent)).filter (fun x => x.2 ≠ event) ++
                  [(float64 (unixSeconds event.Timestamp), event)]).filter
                    (fun x => float64 (wrap64 (now - windowSecs)) < x.1) = [] then
                rdb.drop (corrKey ruleID groupKey)
              else rdb.put (corrKey ruleID groupKey)
                { value := .zset ((([] : List (Int × RuntimeEvent)).filter
                    (fun x => x.2 ≠ event) ++ [(float64 (unixSeconds event.Timestamp), event)]).filter
                      (fun x => float64 (wrap64 (now - windowSecs)) < x.1)),
                  expireAt := some (now + formatSec (windowDuration windowSecs)) }) := by
          have hw0 : storedWindow (rdb.drop (corrKey ruleID groupKey)) now
              (corrKey ruleID groupKey) = some [] := by
            simp only [storedWindow, live_drop_self]
          have hup0 : (rdb.drop (corrKey ruleID groupKey)).fault = none := hup
          rw [TrackEvent_eq _ now event ruleID groupKey windowSecs [] doc hup0 hdoc hw0,
            drop_drop]
          by_cases hw : formatSec (windowDuration windowSecs) ≤ 0
          · rw [if_pos hw, if_pos hw]
          · rw [if_neg hw, if_neg hw]
            split
            · rfl
            · unfold Redis.put Redis.drop matcher.mapSet
              simp only [filter_ne_idem]
        by_cases hw : formatSec (windowDuration windowSecs) ≤ 0
        · rw [if_pos hw, hdrop, if_pos hw]
        · rw [if_neg hw]
          by_cases hk : (ms.filter (fun x => x.2 ≠ event) ++
              [(float64 (unixSeconds event.Timestamp), event)]).filter
                (fun x => float64 (wrap64 (now - windowSecs)) < x.1) = []
          · rw [if_pos hk, hdrop, if_neg hw]
            have hp : ¬ (float64 (wrap64 (now - windowSecs)) <
                float64 (unixSeconds event.Timestamp)) := by
              intro hp
              rw [List.filter_append, List.filter_cons_of_pos (by simpa using hp)] at hk
              simp at hk
            rw [if_pos (by
              rw [List.filter_nil, List.nil_append,
                List.filter_cons_of_neg (by simpa using hp), List.filter_nil])]
          · generalize hkept : (ms.filter (fun x => x.2 ≠ event) ++
                [(float64 (unixSeconds event.Timestamp), event)]).filter
                  (fun x => float64 (wrap64 (now - windowSecs)) < x.1) = kept at hk
            have hl : (rdb.put (corrKey ruleID groupKey)
                { value := .zset kept, expireAt := some (now + formatSec (windowDuration windowSecs)) }).live now
                  (corrKey ruleID groupKey) =
                some { value := .zset kept, expireAt := some (now + formatSec (windowDuration windowSecs)) } :=
              live_put_of_fresh _ _ _ _ (fun t ht => by cases ht; omega)
            have hw1 : storedWindow (rdb.put (corrKey ruleID groupKey)
                { value := .zset kept, expireAt := some (now + formatSec (windowDuration windowSecs)) }) now
                  (corrKey ruleID groupKey) = some kept := by
              simp only [storedWindow, hl]
            have hup1 : (rdb.put (corrKey ruleID groupKey)
                { value := .zset kept, expireAt := some (now + formatSec (windowDuration windowSecs)) }).fault = none := hup
            have hki := kept_idem ms (float64 (unixSeconds event.Timestamp))
              (float64 (wrap64 (now - windowSecs))) event
            rw [hkept] at hki
            rw [if_neg hk,
              TrackEvent_eq _ now event ruleID groupKey windowSecs kept doc hup1 hdoc hw1,
              if_neg hw, hki, if_neg hk, put_put]
  refine ⟨hidem, fun now2 threshold windowSecs2 => by rw [hidem], ?_⟩
  intro ms doc hup hdoc hw hwin hnd hfresh hmem
  have hperm := readd_perm (float64 (unixSeconds event.Timestamp)) event ms hnd hmem
  have hkeep : (ms.filter (fun x => x.2 ≠ event) ++
      [(float64 (unixSeconds event.Timestamp), event)]).filter (fun x => float64 (wrap64 (now - windowSecs)) < x.1) =
      ms.filter (fun x => x.2 ≠ event) ++ [(float64 (unixSeconds event.Timestamp), event)] := by
    apply List.filter_eq_self.2
    intro y hy
    have := hfresh y (hperm.subset hy)
    simpa using this
  have hw2 := (TrackEvent_window rdb now event ruleID groupKey windowSecs ms doc hup hdoc hw
    hwin)
  rw [hkeep] at hw2
  refine ⟨hw2.1, ⟨_, hw2.2.2, hperm⟩, fun threshold windowSecs2 => ?_⟩
  rw [CheckThreshold_of_window _ now ruleID groupKey threshold windowSecs2 _ hw2.2.1 hw2.2.2,
    CheckThreshold_of_window rdb now ruleID groupKey threshold windowSecs2 ms hup hwin]
  have hin : (inWindow now windowSecs2 (ms.filter (fun x => x.2 ≠ event) ++
      [(float64 (unixSeconds event.Timestamp), event)])).Perm (inWindow now windowSecs2 ms) :=
    hperm.filter _
  have hlen : ((((inWindow now windowSecs2 (ms.filter (fun x => x.2 ≠ event) ++
        [(float64 (unixSeconds event.Timestamp), event)])).insertionSort (fun a b => a.1 ≤ b.1)).map
          (fun x => x.2)).length : Int) =
      ((((inWindow now windowSecs2 ms).insertionSort (fun a b => a.1 ≤ b.1)).map
          (fun x => x.2)).length : Int) := by
    rw [List.length_map, List.length_insertionSort, List.length_map,
      List.length_insertionSort, hin.length_eq]
  have hids : ((((inWindow now windowSecs2 (ms.filter (fun x => x.2 ≠ event) ++
        [(float64 (unixSeconds event.Timestamp), event)])).insertionSort (fun a b => a.1 ≤ b.1)).map
          (fun x => x.2)).map (fun e => e.EventID)).Perm
      ((((inWindow now windowSecs2 ms).insertionSort (fun a b => a.1 ≤ b.1)).map
          (fun x => x.2)).map (fun e => e.EventID)) :=
    ((((List.perm_insertionSort _ _).trans hin).trans
      (List.perm_insertionSort _ _).symm).map _).map _
  rw [hlen]
  split
  · exact ⟨rfl, hids⟩
  · exact ⟨rfl, List.Perm.refl _⟩

/-- C30 witness: the store holds `a` and `b` (score 60, tracked at second 100 with window
60 s); `a` is delivered again at second 100. -/
theorem TrackEvent_idempotent_witness :
    (TrackEvent lateStore 100 (eventAt "a" 60) "r1" "c1" 60).1 = none ∧
    (∃ ms2, storedWindow (TrackEvent lateStore 100 (eventAt "a" 60) "r1" "c1" 60).2 100
        (corrKey "r1" "c1") = some ms2 ∧
      ms2.Perm [(60, eventAt "a" 60), (60, eventAt "b" 60)]) ∧
    ∀ (threshold windowSecs2 : Int),
      (CheckThreshold (TrackEvent lateStore 100 (eventAt "a" 60) "r1" "c1" 60).2 100 "r1"
          "c1" threshold windowSecs2).1.1 =
        (CheckThreshold lateStore 100 "r1" "c1" threshold windowSecs2).1.1 ∧
      ((CheckThreshold (TrackEvent lateStore 100 (eventAt "a" 60) "r1" "c1" 60).2 100 "r1"
          "c1" threshold windowSecs2).1.2.1).Perm
        (CheckThreshold lateStore 100 "r1" "c1" threshold windowSecs2).1.2.1 :=
  (TrackEvent_idempotent lateStore 100 (eventAt "a" 60) "r1" "c1" 60).2.2
    [(60, eventAt "a" 60), (60, eventAt "b" 60)] (matcher.eventJSON (eventAt "a" 60))
    (by decide) rfl (by decide) (by decide) (by decide) (by decide) (by decide)

end correlator

namespace matcher

/-! ### The two rules of the tests, on the predicate language -/

theorem eval_event (event : RuntimeEvent) :
    (CelExpr.ident "event").eval [("event", inputMap event)] = .ok (inputMap event) := by
  simp [CelExpr.eval, List.lookup]

theorem eval_event_process (event : RuntimeEvent) (p : ProcessInfo)
    (hp : event.Process = some p) :
    (CelExpr.select (.ident "event") "process").eval [("event", inputMap event)] =
      .ok (processJSON p).decoded := by
  simp [CelExpr.eval, List.lookup, inputMap, eventJSON, Value.decoded, Value.decodedMap, hp]

theorem eval_event_container (event : RuntimeEvent) (c : ContainerInfo)
    (hc : event.Container = some c) :
    (CelExpr.select (.ident "event") "container").eval [("event", inputMap event)] =
      .ok (containerJSON c).decoded := by
  cases hp : event.Process <;>
    simp [CelExpr.eval, List.lookup, inputMap, eventJSON, Value.decoded, Value.decodedMap,
      hp, hc]

theorem eval_process_exe (event : RuntimeEvent) (p : ProcessInfo)
    (hp : event.Process = some p) :
    (CelExpr.select (.select (.ident "event") "process") "exe").eval
        [("event", inputMap event)] = .ok (.str p.Exe) := by
  rw [CelExpr.eval, eval_event_process event p hp]
  simp [processJSON, List.lookup, Value.decoded, Value.decodedMap]

theorem eval_container_namespace (event : RuntimeEvent) (c : ContainerInfo)
    (hc : event.Container = some c) :
    (CelExpr.select (.select (.ident "event") "container") "namespace").eval
        [("event", inputMap event)] = .ok (.str c.Namespace) := by
  rw [CelExpr.eval, eval_event_container event c hc]
  simp [containerJSON, List.lookup, Value.decoded, Value.decodedMap]

theorem celAnd_bool (a b : Bool) :
    celAnd (.ok (.bool a)) (.ok (.bool b)) = .ok (.bool (a && b)) := by
  cases a <;> cases b <;> rfl

theorem celOr_bool (a b : Bool) :
    celOr (.ok (.bool a)) (.ok (.bool b)) = .ok (.bool (a || b)) := by
  cases a <;> cases b <;> rfl

/-- The engine built from one enabled rule whose condition compiles, on an event
`json.Marshal` accepts and on one it refuses. -/
theorem single_rule_engine (env : CelEnv) (rule : Rule) (prg : env.Prg) (event : RuntimeEvent)
    (henabled : rule.Enabled = true) (hc : compileRule env rule.Condition = some prg) :
    ∃ re, NewRuleEngine env [rule] = .ok re ∧
      (∀ doc, Marshal event = .ok doc →
        re.Evaluate event =
          .ok (if ruleHolds env event rule = true then [alertOf event rule] else [])) ∧
      (∀ err, Marshal event = .error err → re.Evaluate event = .error err) := by
  have hok : (compileLoop env [rule] []).2 = none := by
    rw [compileLoop_none_iff]
    intro r hr _
    rw [List.mem_singleton] at hr
    subst hr
    rw [hc]
    rfl
  have hnew : NewRuleEngine env [rule] =
      .ok { rules := [rule], programs := (compileLoop env [rule] []).1 } :=
    (NewRuleEngine_ok_iff env _ _).2 ⟨hok, rfl⟩
  refine ⟨_, hnew, fun doc hdoc => ?_, fun err herr => Evaluate_of_Marshal_error _ event err herr⟩
  rw [Evaluate_one_alert_filter env [rule] _ event doc (by simp) hnew hdoc]
  by_cases hh : ruleHolds env event rule = true
  · simp [List.filter, henabled, hh]
  · simp [List.filter, henabled, hh]

/-- The value of the shell-spawn condition on an event with a process and a container. -/
theorem ruleHolds_shell_spawn (rule : Rule) (event : RuntimeEvent) (p : ProcessInfo)
    (c : ContainerInfo) (hcond : rule.Condition = shellSpawnCondition)
    (hp : event.Process = some p) (hc : event.Container = some c) :
    ruleHolds celEnv event rule = true ↔
      (p.Exe = "/bin/bash" ∨ p.Exe = "/bin/sh") ∧ c.Namespace = "prod" := by
  have hcomp : compileRule celEnv rule.Condition = some (.and
      (.isIn (.select (.select (.ident "event") "process") "exe")
        (.lit (.list [.str "/bin/bash", .str "/bin/sh"])))
      (.eq (.select (.select (.ident "event") "container") "namespace")
        (.lit (.str "prod")))) := by
    rw [hcond]
    rfl
  have hin : (CelExpr.isIn (.select (.select (.ident "event") "process") "exe")
        (.lit (.list [.str "/bin/bash", .str "/bin/sh"]))).eval [("event", inputMap event)] =
      .ok (.bool (p.Exe == "/bin/bash" || p.Exe == "/bin/sh")) := by
    rw [CelExpr.eval, eval_process_exe event p hp]
    simp [CelExpr.eval, Value.beq, List.any]
  have heq : (CelExpr.eq (.select (.select (.ident "event") "container") "namespace")
        (.lit (.str "prod"))).eval [("event", inputMap event)] =
      .ok (.bool (c.Namespace == "prod")) := by
    rw [CelExpr.eval, eval_container_namespace event c hc]
    simp [CelExpr.eval, Value.beq]
  have heval : celEnv.Eval (.and
      (.isIn (.select (.select (.ident "event") "process") "exe")
        (.lit (.list [.str "/bin/bash", .str "/bin/sh"])))
      (.eq (.select (.select (.ident "event") "container") "namespace")
        (.lit (.str "prod")))) (.map [("event", inputMap event)]) =
      .ok (some (.bool ((p.Exe == "/bin/bash" || p.Exe == "/bin/sh") &&
        c.Namespace == "prod"))) := by
    show (Except.map some (CelExpr.eval _ _)) = _
    rw [CelExpr.eval, hin, heq, celAnd_bool]
    rfl
  unfold ruleHolds
  rw [hcomp]
  simp only [heval]
  cases hb : ((p.Exe == "/bin/bash" || p.Exe == "/bin/sh") && c.Namespace == "prod")
  · simp only [Bool.false_eq_true, false_iff]
    intro hcon
    have : ((p.Exe == "/bin/bash" || p.Exe == "/bin/sh") && c.Namespace == "prod") = true := by
      simp [hcon.2, hcon.1]
    rw [hb] at this
    cases this
  · simp only [true_iff]
    simpa using hb

/-- C13, as stated, fails: the event of the test (`/bin/bash` in namespace `prod`, process
and container present) stamped in the year 10000 is refused by `json.Marshal`, and the
engine built from the single shell-spawn rule returns the error and no alert for it. -/
theorem Evaluate_shell_spawn_refused_event :
    (stampedLate (processEvent "/bin/bash" [] "prod")).Process.isSome = true ∧
      (stampedLate (processEvent "/bin/bash" [] "prod")).Container.isSome = true ∧
      ∃ re, NewRuleEngine celEnv [shellSpawnRule] = .ok re ∧
        re.Evaluate (stampedLate (processEvent "/bin/bash" [] "prod")) =
          .error ("json: error calling MarshalJSON for type time.Time: " ++
            "Time.MarshalJSON: year outside of range [0,9999]") := by
  have hcomp : (compileRule celEnv shellSpawnRule.Condition).isSome = true := rfl
  obtain ⟨prg, hprg⟩ := Option.isSome_iff_exists.1 hcomp
  obtain ⟨re, hnew, _, herr⟩ := single_rule_engine celEnv shellSpawnRule prg
    (stampedLate (processEvent "/bin/bash" [] "prod")) rfl hprg
  exact ⟨rfl, rfl, re, hnew, herr _ (Marshal_stampedLate _)⟩

/-- C13 (amended): for every enabled rule whose condition is
`event.process.exe in ['/bin/bash', '/bin/sh'] && event.container.namespace == 'prod'`
and every event that `json.Marshal` accepts and whose process and container sub-documents
are present, `NewRuleEngine` builds an engine from the single rule, and `Evaluate` returns
exactly one alert (the rule's) when the process exe is one of the two paths and the
container namespace is `prod`, and no alert otherwise. -/
theorem Evaluate_shell_spawn (rule : Rule) (event : RuntimeEvent) (doc : Value)
    (p : ProcessInfo)
    (c : ContainerInfo) (henabled : rule.Enabled = true)
    (hcond : rule.Condition = shellSpawnCondition)
    (hdoc : Marshal event = .ok doc)
    (hp : event.Process = some p) (hc : event.Container = some c) :
    ∃ re, NewRuleEngine celEnv [rule] = .ok re ∧
      re.Evaluate event =
        .ok (if (p.Exe = "/bin/bash" ∨ p.Exe = "/bin/sh") ∧ c.Namespace = "prod"
             then [alertOf event rule] else []) := by
  have hcomp : (compileRule celEnv rule.Condition).isSome = true := by
    rw [hcond]
    rfl
  obtain ⟨prg, hprg⟩ := Option.isSome_iff_exists.1 hcomp
  obtain ⟨re, hnew, hev, _⟩ := single_rule_engine celEnv rule prg event henabled hprg
  refine ⟨re, hnew, ?_⟩
  rw [hev doc hdoc]
  by_cases hh : (p.Exe = "/bin/bash" ∨ p.Exe = "/bin/sh") ∧ c.Namespace = "prod"
  · rw [if_pos hh, if_pos ((ruleHolds_shell_spawn rule event p c hcond hp hc).2 hh)]
  · rw [if_neg hh, if_neg (fun h => hh ((ruleHolds_shell_spawn rule event p c hcond hp hc).1 h))]

/-- C13 witness: the rule of the test on a `/bin/bash` event in namespace `staging`. -/
theorem Evaluate_shell_spawn_witness :
    ∃ re, NewRuleEngine celEnv [shellSpawnRule] = .ok re ∧
      re.Evaluate (processEvent "/bin/bash" [] "staging") =
        .ok (if ("/bin/bash" = "/bin/bash" ∨ "/bin/bash" = "/bin/sh") ∧ "staging" = "prod"
             then [alertOf (processEvent "/bin/bash" [] "staging") shellSpawnRule] else []) :=
  Evaluate_shell_spawn shellSpawnRule (processEvent "/bin/bash" [] "staging")
    (eventJSON (processEvent "/bin/bash" [] "staging"))
    { PID := 12345, PPID := 0, UID := 0, GID := 0, Exe := "/bin/bash",
      Cmdline := "", Cwd := "", HasTTY := false, CapabilitiesAdded := [] }
    { ContainerID := "containerd://abc123", Image := "", ImageDigest := "",
      Pod := "test-pod", Namespace := "staging", ServiceAccount := "", Labels := none }
    rfl rfl rfl rfl rfl

/-- Decoding leaves a list of strings as it is. -/
theorem decodedList_strs (xs : List String) :
    Value.decodedList (xs.map Value.str) = xs.map Value.str := by
  induction xs with
  | nil => rfl
  | cons x rest ih => simp [Value.decodedList, Value.decoded, ih]

theorem eval_process_caps (event : RuntimeEvent) (p : ProcessInfo)
    (hp : event.Process = some p) :
    (CelExpr.select (.select (.ident "event") "process") "capabilities_added").eval
        [("event", inputMap event)] =
      if p.CapabilitiesAdded = [] then .error "no such key: capabilities_added"
      else .ok (.list (p.CapabilitiesAdded.map Value.str)) := by
  rw [CelExpr.eval, eval_event_process event p hp]
  by_cases hcaps : p.CapabilitiesAdded = []
  · simp [processJSON, List.lookup, hcaps, Value.decoded, Value.decodedMap]
  · simp [processJSON, List.lookup, hcaps, Value.decoded, Value.decodedMap, decodedList_strs]

theorem exists_sys_admin_fold (vars : List (String × Value)) (xs : List String) (b : Bool) :
    (xs.map Value.str).foldl
        (fun acc x => celOr acc
          ((CelExpr.eq (.ident "c") (.lit (.str "SYS_ADMIN"))).eval (("c", x) :: vars)))
        (.ok (.bool b)) =
      .ok (.bool (b || xs.any (fun s => s == "SYS_ADMIN"))) := by
  induction xs generalizing b with
  | nil => simp
  | cons x rest ih =>
    have hbody : (CelExpr.eq (.ident "c") (.lit (.str "SYS_ADMIN"))).eval
        (("c", Value.str x) :: vars) = .ok (.bool (x == "SYS_ADMIN")) := by
      simp [CelExpr.eval, List.lookup, Value.beq]
    rw [List.map_cons, List.foldl_cons, hbody, celOr_bool, ih]
    simp [Bool.or_assoc]

/-- The value of the privilege-escalation condition on an event with a process. -/
theorem ruleHolds_priv_esc (rule : Rule) (event : RuntimeEvent) (p : ProcessInfo)
    (hcond : rule.Condition = privEscCondition) (hp : event.Process = some p) :
    ruleHolds celEnv event rule = true ↔ "SYS_ADMIN" ∈ p.CapabilitiesAdded := by
  have hcomp : compileRule celEnv rule.Condition = some (.exists
      (.select (.select (.ident "event") "process") "capabilities_added") "c"
      (.eq (.ident "c") (.lit (.str "SYS_ADMIN")))) := by
    rw [hcond]
    rfl
  unfold ruleHolds
  rw [hcomp]
  simp only
  by_cases hcaps : p.CapabilitiesAdded = []
  · have heval : celEnv.Eval (.exists
        (.select (.select (.ident "event") "process") "capabilities_added") "c"
        (.eq (.ident "c") (.lit (.str "SYS_ADMIN")))) (.map [("event", inputMap event)]) =
        .error "no such key: capabilities_added" := by
      show (Except.map some (CelExpr.eval _ _)) = _
      rw [CelExpr.eval, eval_process_caps event p hp, if_pos hcaps]
      rfl
    rw [heval, hcaps]
    simp
  · have heval : celEnv.Eval (.exists
        (.select (.select (.ident "event") "process") "capabilities_added") "c"
        (.eq (.ident "c") (.lit (.str "SYS_ADMIN")))) (.map [("event", inputMap event)]) =
        .ok (some (.bool (p.CapabilitiesAdded.any (fun s => s == "SYS_ADMIN")))) := by
      show (Except.map some (CelExpr.eval _ _)) = _
      rw [CelExpr.eval, eval_process_caps event p hp, if_neg hcaps]
      simp only
      rw [exists_sys_admin_fold]
      rfl
    rw [heval]
    cases hb : p.CapabilitiesAdded.any (fun s => s == "SYS_ADMIN")
    · simp only [Bool.false_eq_true, false_iff]
      intro hmem
      have : p.CapabilitiesAdded.any (fun s => s == "SYS_ADMIN") = true := by
        rw [List.any_eq_true]
        exact ⟨_, hmem, by simp⟩
      rw [hb] at this
      cases this
    · simp only [true_iff]
      rw [List.any_eq_true] at hb
      obtain ⟨x, hx, hxe⟩ := hb
      have : x = "SYS_ADMIN" := by simpa using hxe
      rw [← this]
      exact hx

/-- C14, as stated, fails: the event of the test (capabilities `SYS_ADMIN` and
`NET_ADMIN` added, process present) stamped in the year 10000 is refused by
`json.Marshal`, and the engine built from the single privilege-escalation rule returns the
error and no alert for it. -/
theorem Evaluate_privilege_escalation_refused_event :
    (stampedLate (processEvent "/bin/mount" ["SYS_ADMIN", "NET_ADMIN"]
        "attacker-lab")).Process.isSome = true ∧
      ∃ re, NewRuleEngine celEnv [privEscRule] = .ok re ∧
        re.Evaluate (stampedLate (processEvent "/bin/mount" ["SYS_ADMIN", "NET_ADMIN"]
            "attacker-lab")) =
          .error ("json: error calling MarshalJSON for type time.Time: " ++
            "Time.MarshalJSON: year outside of range [0,9999]") := by
  have hcomp : (compileRule celEnv privEscRule.Condition).isSome = true := rfl
  obtain ⟨prg, hprg⟩ := Option.isSome_iff_exists.1 hcomp
  obtain ⟨re, hnew, _, herr⟩ := single_rule_engine celEnv privEscRule prg
    (stampedLate (processEvent "/bin/mount" ["SYS_ADMIN", "NET_ADMIN"] "attacker-lab"))
    rfl hprg
  exact ⟨rfl, re, hnew, herr _ (Marshal_stampedLate _)⟩

/-- C14 (amended): for every enabled rule whose condition is
`event.process.capabilities_added.exists(c, c == 'SYS_ADMIN')` and every event that
`json.Marshal` accepts and whose process sub-document is present, `NewRuleEngine` builds
an engine from the single rule, and `Evaluate` returns exactly one alert (the rule's) when
the list `capabilities_added` contains `SYS_ADMIN` and no alert when it does not; the
empty list is among the latter (its field is left out of the event document, reading it
is an evaluation error and the rule is skipped). -/
theorem Evaluate_privilege_escalation (rule : Rule) (event : RuntimeEvent) (doc : Value)
    (p : ProcessInfo)
    (henabled : rule.Enabled = true) (hcond : rule.Condition = privEscCondition)
    (hdoc : Marshal event = .ok doc)
    (hp : event.Process = some p) :
    ∃ re, NewRuleEngine celEnv [rule] = .ok re ∧
      re.Evaluate event =
        .ok (if "SYS_ADMIN" ∈ p.CapabilitiesAdded then [alertOf event rule] else []) ∧
      (p.CapabilitiesAdded = [] → re.Evaluate event = .ok []) := by
  have hcomp : (compileRule celEnv rule.Condition).isSome = true := by
    rw [hcond]
    rfl
  obtain ⟨prg, hprg⟩ := Option.isSome_iff_exists.1 hcomp
  obtain ⟨re, hnew, hev, _⟩ := single_rule_engine celEnv rule prg event henabled hprg
  have hres : re.Evaluate event =
      .ok (if "SYS_ADMIN" ∈ p.CapabilitiesAdded then [alertOf event rule] else []) := by
    rw [hev doc hdoc]
    by_cases hh : "SYS_ADMIN" ∈ p.CapabilitiesAdded
    · rw [if_pos hh, if_pos ((ruleHolds_priv_esc rule event p hcond hp).2 hh)]
    · rw [if_neg hh, if_neg (fun h => hh ((ruleHolds_priv_esc rule event p hcond hp).1 h))]
  refine ⟨re, hnew, hres, ?_⟩
  intro hempty
  rw [hres, hempty]
  simp

/-- C14 witness: the rule of the test on an event that adds `SYS_ADMIN` and `NET_ADMIN`. -/
theorem Evaluate_privilege_escalation_witness :
    ∃ re, NewRuleEngine celEnv [privEscRule] = .ok re ∧
      re.Evaluate (processEvent "/bin/mount" ["SYS_ADMIN", "NET_ADMIN"] "attacker-lab") =
        .ok (if "SYS_ADMIN" ∈ ["SYS_ADMIN", "NET_ADMIN"]
             then [alertOf (processEvent "/bin/mount" ["SYS_ADMIN", "NET_ADMIN"] "attacker-lab")
                    privEscRule]
             else []) ∧
      (["SYS_ADMIN", "NET_ADMIN"] = [] →
        re.Evaluate (processEvent "/bin/mount" ["SYS_ADMIN", "NET_ADMIN"] "attacker-lab") =
          .ok []) :=
  Evaluate_privilege_escalation privEscRule
    (processEvent "/bin/mount" ["SYS_ADMIN", "NET_ADMIN"] "attacker-lab")
    (eventJSON (processEvent "/bin/mount" ["SYS_ADMIN", "NET_ADMIN"] "attacker-lab"))
    { PID := 12345, PPID := 0, UID := 0, GID := 0, Exe := "/bin/mount",
      Cmdline := "", Cwd := "", HasTTY := false,
      CapabilitiesAdded := ["SYS_ADMIN", "NET_ADMIN"] }
    rfl rfl rfl rfl

/-! ### Rules that share an id -/

/-- The loop of `CompileAll` leaves alone every id that no enabled rule carries. -/
theorem compileLoop_lookup_frame_enabled (env : CelEnv) (rules : List Rule)
    (programs : List (String × env.Prg)) (id : String)
    (hid : ∀ r ∈ rules, r.Enabled = true → r.ID ≠ id) :
    (compileLoop env rules programs).1.lookup id = programs.lookup id := by
  induction rules generalizing programs with
  | nil => simp [compileLoop]
  | cons rule rest ih =>
    have hrest : ∀ r ∈ rest, r.Enabled = true → r.ID ≠ id :=
      fun r hr => hid r (List.mem_cons_of_mem _ hr)
    cases hen : rule.Enabled with
    | false => rw [compileLoop_cons_disabled env rule rest programs hen, ih _ hrest]
    | true =>
      have hne : id ≠ rule.ID := fun h => hid rule (List.mem_cons_self _ _) hen h.symm
      cases hc : compileRule env rule.Condition with
      | none => rw [(compileLoop_cons_error env rule rest programs hen hc).1]
      | some prg =>
        rw [compileLoop_cons_ok env rule rest programs prg hen hc, ih _ hrest,
          lookup_mapSet_ne _ _ _ _ hne]

/-- An error-free run of the loop of `CompileAll` over a list in two parts is the run over
the second part started from the map the first part leaves. -/
theorem compileLoop_append (env : CelEnv) (pre rest : List Rule)
    (programs : List (String × env.Prg))
    (hok : (compileLoop env (pre ++ rest) programs).2 = none) :
    compileLoop env (pre ++ rest) programs =
      compileLoop env rest (compileLoop env pre programs).1 := by
  induction pre generalizing programs with
  | nil => simp [compileLoop]
  | cons rule pre ih =>
    rw [List.cons_append] at hok ⊢
    cases hen : rule.Enabled with
    | false =>
      rw [compileLoop_cons_disabled env rule _ programs hen] at hok ⊢
      rw [compileLoop_cons_disabled env rule _ programs hen]
      exact ih programs hok
    | true =>
      cases hc : compileRule env rule.Condition with
      | none => exact absurd hok (compileLoop_cons_error env rule _ programs hen hc).2
      | some prg =>
        rw [compileLoop_cons_ok env rule _ programs prg hen hc] at hok ⊢
        rw [compileLoop_cons_ok env rule _ programs prg hen hc]
        exact ih _ hok

/-- After an error-free run of the loop of `CompileAll`, the entry under an id is the
compiled condition of the last enabled rule that carries the id. -/
theorem compileLoop_lookup_last (env : CelEnv) (pre back : List Rule) (r2 : Rule)
    (programs : List (String × env.Prg))
    (hok : (compileLoop env (pre ++ r2 :: back) programs).2 = none)
    (h2 : r2.Enabled = true) (hlast : ∀ r ∈ back, r.Enabled = true → r.ID ≠ r2.ID) :
    (compileLoop env (pre ++ r2 :: back) programs).1.lookup r2.ID =
        compileRule env r2.Condition ∧
      (compileRule env r2.Condition).isSome = true := by
  have hsome := (compileLoop_none_iff env _ programs).1 hok r2 (by simp) h2
  rw [compileLoop_append env pre (r2 :: back) programs hok]
  cases hc : compileRule env r2.Condition with
  | none => simp [hc] at hsome
  | some prg =>
    rw [compileLoop_cons_ok env r2 back _ prg h2 hc,
      compileLoop_lookup_frame_enabled env back _ _ hlast, lookup_mapSet_self]
    exact ⟨rfl, rfl⟩

/-- C28, as stated, fails: on the `/bin/bash` event of namespace `staging` stamped in the
year 10000 the condition of the later of the two rules of `dupRules` holds, yet the
earlier rule produces no alert: `json.Marshal` refuses the event and `Evaluate` returns
the error. -/
theorem Evaluate_shared_id_refused_event :
    NewRuleEngine benchEnv dupRules = .ok dupEngine ∧
      ruleHolds benchEnv (stampedLate (benchEvent "staging"))
        (benchRule "dup" "Later" "event.process.exe == '/bin/bash'" true) = true ∧
      dupEngine.Evaluate (stampedLate (benchEvent "staging")) =
        .error ("json: error calling MarshalJSON for type time.Time: " ++
          "Time.MarshalJSON: year outside of range [0,9999]") :=
  ⟨rfl, by decide, rfl⟩

/-- C28 (amended): when `NewRuleEngine` builds an engine from a rule list in which the
enabled rules `r1` and, later, `r2` share an id that no enabled rule after `r2` carries,
then on every event that `json.Marshal` accepts `Evaluate` tests both with the compiled
condition of `r2`: in the returned list, between the alerts of the rules before, between
and after them, the alert of `r1` (with the name, severity, description and response of
`r1`) is present exactly when the condition of `r2` holds on the event, and so is the
alert of `r2`; the condition of `r1` plays no part. -/
theorem Evaluate_shared_id_uses_last (env : CelEnv) (front mid back : List Rule)
    (r1 r2 : Rule) (re : RuleEngine env) (event : RuntimeEvent) (doc : Value)
    (hnew : NewRuleEngine env (front ++ r1 :: (mid ++ r2 :: back)) = .ok re)
    (hdoc : Marshal event = .ok doc)
    (h1 : r1.Enabled = true) (h2 : r2.Enabled = true) (hid : r1.ID = r2.ID)
    (hlast : ∀ r ∈ back, r.Enabled = true → r.ID ≠ r2.ID) :
    re.Evaluate event =
      .ok ((front.filter (fires env re.programs (.map [("event", inputMap event)]))).map
            (alertOf event) ++
          (if ruleHolds env event r2 = true then [alertOf event r1] else []) ++
          (mid.filter (fires env re.programs (.map [("event", inputMap event)]))).map
            (alertOf event) ++
          (if ruleHolds env event r2 = true then [alertOf event r2] else []) ++
          (back.filter (fires env re.programs (.map [("event", inputMap event)]))).map
            (alertOf event)) ∧
      (alertOf event r1).RuleName = r1.Name ∧ (alertOf event r1).Severity = r1.Severity ∧
      (alertOf event r1).Description = r1.Description ∧
      (alertOf event r1).Response = r1.Response := by
  obtain ⟨hok, hre⟩ := (NewRuleEngine_ok_iff env _ re).1 hnew
  have hok2 : (compileLoop env ((front ++ r1 :: mid) ++ r2 :: back) []).2 = none := by
    rw [List.append_assoc, List.cons_append]
    exact hok
  have hlook := (compileLoop_lookup_last env (front ++ r1 :: mid) back r2 [] hok2 h2 hlast).1
  rw [List.append_assoc, List.cons_append] at hlook
  have hprog : re.programs = (compileLoop env (front ++ r1 :: (mid ++ r2 :: back)) []).1 := by
    rw [hre]
  have hf2 : fires env re.programs (.map [("event", inputMap event)]) r2 =
      ruleHolds env event r2 := by
    unfold fires ruleHolds
    rw [hprog, hlook, h2]
    cases compileRule env r2.Condition <;> simp
  have hf1 : fires env re.programs (.map [("event", inputMap event)]) r1 =
      ruleHolds env event r2 := by
    unfold fires ruleHolds
    rw [hprog, hid, hlook, h1]
    cases compileRule env r2.Condition <;> simp
  refine ⟨?_, rfl, rfl, rfl, rfl⟩
  have hrules : re.rules = front ++ r1 :: (mid ++ r2 :: back) := by rw [hre]
  rw [Evaluate_of_Marshal_ok re event doc hdoc, evaluateLoop_eq_fires, hrules]
  simp only [List.nil_append, List.filter_append, List.filter_cons, hf1, hf2, List.map_append]
  cases ruleHolds env event r2 <;> simp

/-- C28 witness: the two rules of `dupRules` on a `/bin/bash` event in namespace
`staging`: the earlier rule tests the namespace `prod`, which does not hold, and still
gets its alert, because the later rule's condition holds. -/
theorem Evaluate_shared_id_uses_last_witness :
    ruleHolds benchEnv (benchEvent "staging")
        (benchRule "dup" "Earlier" "event.container.namespace == 'prod'" true) = false ∧
    (dupEngine.Evaluate (benchEvent "staging") =
      .ok ((([] : List Rule).filter
            (fires benchEnv dupEngine.programs
              (.map [("event", inputMap (benchEvent "staging"))]))).map
            (alertOf (benchEvent "staging")) ++
          (if ruleHolds benchEnv (benchEvent "staging")
              (benchRule "dup" "Later" "event.process.exe == '/bin/bash'" true) = true then
            [alertOf (benchEvent "staging")
              (benchRule "dup" "Earlier" "event.container.namespace == 'prod'" true)]
           else []) ++
          (([] : List Rule).filter
            (fires benchEnv dupEngine.programs
              (.map [("event", inputMap (benchEvent "staging"))]))).map
            (alertOf (benchEvent "staging")) ++
          (if ruleHolds benchEnv (benchEvent "staging")
              (benchRule "dup" "Later" "event.process.exe == '/bin/bash'" true) = true then
            [alertOf (benchEvent "staging")
              (benchRule "dup" "Later" "event.process.exe == '/bin/bash'" true)]
           else []) ++
          (([] : List Rule).filter
            (fires benchEnv dupEngine.programs
              (.map [("event", inputMap (benchEvent "staging"))]))).map
            (alertOf (benchEvent "staging"))) ∧
      (alertOf (benchEvent "staging")
        (benchRule "dup" "Earlier" "event.container.namespace == 'prod'" true)).RuleName =
          (benchRule "dup" "Earlier" "event.container.namespace == 'prod'" true).Name ∧
      (alertOf (benchEvent "staging")
        (benchRule "dup" "Earlier" "event.container.namespace == 'prod'" true)).Severity =
          (benchRule "dup" "Earlier" "event.container.namespace == 'prod'" true).Severity ∧
      (alertOf (benchEvent "staging")
        (benchRule "dup" "Earlier" "event.container.namespace == 'prod'" true)).Description =
          (benchRule "dup" "Earlier" "event.container.namespace == 'prod'" true).Description ∧
      (alertOf (benchEvent "staging")
        (benchRule "dup" "Earlier" "event.container.namespace == 'prod'" true)).Response =
          (benchRule "dup" "Earlier" "event.container.namespace == 'prod'" true).Response) :=
  ⟨by decide,
    Evaluate_shared_id_uses_last benchEnv [] [] []
      (benchRule "dup" "Earlier" "event.container.namespace == 'prod'" true)
      (benchRule "dup" "Later" "event.process.exe == '/bin/bash'" true)
      dupEngine (benchEvent "staging") (eventJSON (benchEvent "staging")) rfl rfl rfl rfl
      rfl (fun r hr => by cases hr)⟩

end matcher

namespace enrich

/-! ### `enrichEvent` -/

/-- What `enrichEvent` publishes for a decoded event while the connection is up. -/
theorem enrichEvent_published (index : Index) (event : RuntimeEvent) (bus : Bus)
    (hbus : bus.fault = none) :
    (enrichEvent index (.ok event) bus).published =
      bus.published ++ [("events.enriched",
        match event.Container with
        | none => event
        | some c =>
          if c.ContainerID ≠ "" then
            match index.lookup c.ContainerID with
            | some pod =>
              { event with
                Container := some { c with
                  Pod := pod.Name, Namespace := pod.Namespace,
                  ServiceAccount := pod.Spec.ServiceAccountName, Labels := pod.Labels } }
            | none => event
          else event)] := by
  unfold enrichEvent Bus.Publish
  simp only [hbus]

/-- C22: while the connection is up, for every index and every decoded event `enrichEvent`
appends exactly one message to what was published, on the subject `events.enriched`; the
published event has the input's timestamp, cluster id, node id, event type, event id,
process, network and raw reference; when the input has a container with a non-empty id
that the index holds, the published container has the pod name, namespace, service account
and labels of the indexed pod and the input's container id, image and image digest;
otherwise (no container, empty id, or id not in the index) the published event is the
input. An undecodable message publishes nothing. -/
theorem enrichEvent_publishes_one (index : Index) (event : RuntimeEvent) (bus : Bus)
    (hbus : bus.fault = none) :
    (∃ out : RuntimeEvent,
      (enrichEvent index (.ok event) bus).published =
        bus.published ++ [("events.enriched", out)] ∧
      out.Timestamp = event.Timestamp ∧ out.ClusterID = event.ClusterID ∧
      out.NodeID = event.NodeID ∧ out.EventType = event.EventType ∧
      out.EventID = event.EventID ∧ out.Process = event.Process ∧
      out.Network = event.Network ∧ out.RawRef = event.RawRef ∧
      (∀ c pod, event.Container = some c → c.ContainerID ≠ "" →
        index.lookup c.ContainerID = some pod →
        out.Container = some
          { ContainerID := c.ContainerID, Image := c.Image, ImageDigest := c.ImageDigest,
            Pod := pod.Name, Namespace := pod.Namespace,
            ServiceAccount := pod.Spec.ServiceAccountName, Labels := pod.Labels }) ∧
      (event.Container = none → out = event) ∧
      (∀ c, event.Container = some c → c.ContainerID = "" → out = event) ∧
      (∀ c, event.Container = some c → index.lookup c.ContainerID = none → out = event)) ∧
    ∀ err : String, enrichEvent index (.error err) bus = bus := by
  refine ⟨?_, fun err => rfl⟩
  rw [enrichEvent_published index event bus hbus]
  cases hc : event.Container with
  | none =>
    refine ⟨event, rfl, rfl, rfl, rfl, rfl, rfl, rfl, rfl, rfl, ?_, fun _ => rfl, ?_, ?_⟩
    · intro c pod h
      cases h
    · intro c h
      cases h
    · intro c h
      cases h
  | some c =>
    by_cases hid : c.ContainerID = ""
    · simp only [hid, ne_eq, not_true_eq_false, if_false]
      refine ⟨event, rfl, rfl, rfl, rfl, rfl, rfl, rfl, rfl, rfl, ?_, fun _ => rfl,
        fun _ _ _ => rfl, fun _ _ _ => rfl⟩
      intro c2 pod h hne
      simp only [Option.some.injEq] at h
      subst h
      exact absurd hid hne
    · simp only [ne_eq, hid, not_false_eq_true, if_true]
      cases hl : index.lookup c.ContainerID with
      | none =>
        refine ⟨event, rfl, rfl, rfl, rfl, rfl, rfl, rfl, rfl, rfl, ?_, fun _ => rfl,
          fun _ _ _ => rfl, fun _ _ _ => rfl⟩
        intro c2 pod h _ hl2
        simp only [Option.some.injEq] at h
        subst h
        rw [hl] at hl2
        cases hl2
      | some pod =>
        refine ⟨_, rfl, rfl, rfl, rfl, rfl, rfl, rfl, rfl, rfl, ?_, ?_, ?_, ?_⟩
        · intro c2 pod2 h _ hl2
          simp only [Option.some.injEq] at h
          subst h
          rw [hl] at hl2
          simp only [Option.some.injEq] at hl2
          subst hl2
          rfl
        · intro h
          cases h
        · intro c2 h h2
          simp only [Option.some.injEq] at h
          subst h
          exact absurd h2 hid
        · intro c2 h h2
          simp only [Option.some.injEq] at h
          subst h
          rw [hl] at h2
          cases h2

/-- C22 witness: the index built from the pod `web-0`, and an event that reports the short
id of its container. -/
theorem enrichEvent_publishes_one_witness :
    (∃ out : RuntimeEvent,
      (enrichEvent (updateCache (webPod "containerd://0123456789abcdef0123") [])
          (.ok (rawEvent "0123456789ab")) {}).published =
        ({} : Bus).published ++ [("events.enriched", out)] ∧
      out.Timestamp = (rawEvent "0123456789ab").Timestamp ∧
      out.ClusterID = (rawEvent "0123456789ab").ClusterID ∧
      out.NodeID = (rawEvent "0123456789ab").NodeID ∧
      out.EventType = (rawEvent "0123456789ab").EventType ∧
      out.EventID = (rawEvent "0123456789ab").EventID ∧
      out.Process = (rawEvent "0123456789ab").Process ∧
      out.Network = (rawEvent "0123456789ab").Network ∧
      out.RawRef = (rawEvent "0123456789ab").RawRef ∧
      (∀ c pod, (rawEvent "0123456789ab").Container = some c → c.ContainerID ≠ "" →
        (updateCache (webPod "containerd://0123456789abcdef0123") []).lookup c.ContainerID =
          some pod →
        out.Container = some
          { ContainerID := c.ContainerID, Image := c.Image, ImageDigest := c.ImageDigest,
            Pod := pod.Name, Namespace := pod.Namespace,
            ServiceAccount := pod.Spec.ServiceAccountName, Labels := pod.Labels }) ∧
      ((rawEvent "0123456789ab").Container = none → out = rawEvent "0123456789ab") ∧
      (∀ c, (rawEvent "0123456789ab").Container = some c → c.ContainerID = "" →
        out = rawEvent "0123456789ab") ∧
      (∀ c, (rawEvent "0123456789ab").Container = some c →
        (updateCache (webPod "containerd://0123456789abcdef0123") []).lookup c.ContainerID =
          none → out = rawEvent "0123456789ab")) ∧
    ∀ err : String,
      enrichEvent (updateCache (webPod "containerd://0123456789abcdef0123") [])
        (.error err) {} = {} :=
  enrichEvent_publishes_one (updateCache (webPod "containerd://0123456789abcdef0123") [])
    (rawEvent "0123456789ab") {} rfl

/-- C23: for a fixed index, while the connection is up, the event `enrichEvent` publishes
for an event `E` is published unchanged when it is enriched again: enriching the enriched
event gives the event that enriching once gives. -/
theorem enrichEvent_idempotent (index : Index) (event : RuntimeEvent) (bus bus2 : Bus)
    (hbus : bus.fault = none) (hbus2 : bus2.fault = none) :
    ∃ once : RuntimeEvent,
      (enrichEvent index (.ok event) bus).published =
        bus.published ++ [("events.enriched", once)] ∧
      (enrichEvent index (.ok once) bus2).published =
        bus2.published ++ [("events.enriched", once)] := by
  rw [enrichEvent_published index event bus hbus]
  refine ⟨_, rfl, ?_⟩
  rw [enrichEvent_published index _ bus2 hbus2]
  cases hc : event.Container with
  | none => simp only [hc]
  | some c =>
    by_cases hid : c.ContainerID = ""
    · simp [hid, hc]
    · cases hl : index.lookup c.ContainerID with
      | none => simp [hid, hc, hl]
      | some pod => simp [hid, hl]

/-- C23 witness: the index built from the pod `web-0`, and an event that reports the short
id of its container. -/
theorem enrichEvent_idempotent_witness :
    ∃ once : RuntimeEvent,
      (enrichEvent (updateCache (webPod "containerd://0123456789abcdef0123") [])
          (.ok (rawEvent "0123456789ab")) {}).published =
        ({} : Bus).published ++ [("events.enriched", once)] ∧
      (enrichEvent (updateCache (webPod "containerd://0123456789abcdef0123") [])
          (.ok once) {}).published =
        ({} : Bus).published ++ [("events.enriched", once)] :=
  enrichEvent_idempotent (updateCache (webPod "containerd://0123456789abcdef0123") [])
    (rawEvent "0123456789ab") {} {} rfl rfl

/-! ### `updateCache` -/

theorem cut_none : ∀ (s : List Char), ¬ "://".data <:+: s → cut "://".data s = none
  | [], _ => rfl
  | c :: rest, h => by
    have hpre : List.isPrefixOf "://".data (c :: rest) = false := by
      cases hp : List.isPrefixOf "://".data (c :: rest) with
      | false => rfl
      | true => exact absurd (List.isPrefixOf_iff_prefix.1 hp).isInfix h
    have hrest : ¬ "://".data <:+: rest := fun hi => h (List.infix_cons hi)
    rw [cut, hpre, cut_none rest hrest]
    rfl

theorem cut_first : ∀ (r h : List Char), ¬ "://".data <:+: r →
    cut "://".data (r ++ "://".data ++ h) = some (r, h)
  | [], h, _ => by
    simp [cut]
  | c :: r, h, hfree => by
    have hrest : ¬ "://".data <:+: r := fun hi => hfree (List.infix_cons hi)
    have hpre : List.isPrefixOf "://".data (c :: r ++ "://".data ++ h) = false := by
      cases hp : List.isPrefixOf "://".data (c :: r ++ "://".data ++ h) with
      | false => rfl
      | true =>
        exfalso
        rcases r with _ | ⟨d, _ | ⟨e, r2⟩⟩
        · simp at hp
        · simp at hp
        · simp at hp
          apply hfree
          rw [← hp.1, ← hp.2.1, ← hp.2.2]
          exact (List.prefix_append [':', '/', '/'] r2).isInfix
    rw [List.cons_append, List.cons_append] at hpre ⊢
    rw [cut, hpre]
    have ih := cut_first r h hrest
    rw [ih]
    rfl

theorem splitFuel_none (fuel : Nat) (s : List Char) (h : cut "://".data s = none) :
    splitFuel "://".data fuel s = [s] := by
  cases fuel with
  | zero => rfl
  | succ n => rw [splitFuel, h]

/-- The call `strings.Split(id, "://")` on an id with one separator. -/
theorem Split_form (runtime hex : String)
    (hr : ¬ "://".data <:+: runtime.data) (hh : ¬ "://".data <:+: hex.data) :
    Split (runtime ++ "://" ++ hex) "://" = [runtime, hex] := by
  unfold Split
  have hlen : (runtime ++ "://" ++ hex).length = (runtime.length + hex.length + 2) + 1 := by
    rw [String.length_append, String.length_append]
    have h3 : "://".length = 3 := rfl
    omega
  rw [hlen, splitFuel]
  simp only [String.data_append]
  rw [cut_first runtime.data hex.data hr]
  simp only
  rw [splitFuel_none _ _ (cut_none hex.data hh)]
  rfl

theorem len_ascii : ∀ (cs : List Char), (∀ c ∈ cs, c.toNat < 128) →
    len (String.mk cs) = cs.length
  | [], _ => rfl
  | c :: rest, h => by
    have ih := len_ascii rest (fun x hx => h x (List.mem_cons_of_mem _ hx))
    have hc : utf8Len c = 1 := by
      unfold utf8Len
      rw [if_pos (h c (List.mem_cons_self _ _))]
    unfold len at ih ⊢
    simp only [List.map_cons, List.sum_cons, List.length_cons, hc] at ih ⊢
    omega

theorem bytePrefix_ascii : ∀ (n : Nat) (cs : List Char), (∀ c ∈ cs, c.toNat < 128) →
    bytePrefix n cs = cs.take n
  | n, [], _ => by simp [bytePrefix]
  | 0, c :: rest, h => by
    have hc : utf8Len c = 1 := by
      unfold utf8Len
      rw [if_pos (h c (List.mem_cons_self _ _))]
    simp [bytePrefix, hc]
  | n + 1, c :: rest, h => by
    have hc : utf8Len c = 1 := by
      unfold utf8Len
      rw [if_pos (h c (List.mem_cons_self _ _))]
    have ih := bytePrefix_ascii n rest (fun x hx => h x (List.mem_cons_of_mem _ hx))
    simp [bytePrefix, hc, ih]

/-- A map write of the value `v` keeps every key that was bound to `v` bound to `v`. -/
theorem lookup_mapSet_value {β : Type} (m : List (String × β)) (key k : String) (v : β)
    (h : k = key ∨ m.lookup k = some v) : (matcher.mapSet m key v).lookup k = some v := by
  by_cases hk : k = key
  · rw [hk, matcher.lookup_mapSet_self]
  · rw [matcher.lookup_mapSet_ne _ _ _ _ hk]
    rcases h with h | h
    · exact absurd h hk
    · exact h

/-- One step of the loop of `updateCache` keeps every id bound to the pod bound to it. -/
theorem updateCacheStatus_keeps (pod : Pod) (index : Index) (status : ContainerStatus)
    (k : String) (h : index.lookup k = some pod) :
    (updateCacheStatus pod index status).lookup k = some pod := by
  unfold updateCacheStatus
  simp only
  split
  · apply lookup_mapSet_value
    right
    split
    · split
      · exact lookup_mapSet_value _ _ _ _ (Or.inr (lookup_mapSet_value _ _ _ _ (Or.inr h)))
      · exact lookup_mapSet_value _ _ _ _ (Or.inr h)
    · exact h
  · exact h

theorem updateCache_keeps (pod : Pod) (k : String) : ∀ (statuses : List ContainerStatus)
    (index : Index), index.lookup k = some pod →
    (statuses.foldl (updateCacheStatus pod) index).lookup k = some pod
  | [], _, h => h
  | st :: rest, index, h => by
    rw [List.foldl_cons]
    exact updateCache_keeps pod k rest _ (updateCacheStatus_keeps pod index st k h)

/-- One step of the loop of `updateCache` on an id with one separator binds the full id and
the first 12 characters of the part after the separator. -/
theorem updateCacheStatus_stores (pod : Pod) (index : Index) (runtime hex : String)
    (hr : ¬ "://".data <:+: runtime.data) (hh : ¬ "://".data <:+: hex.data)
    (hascii : ∀ c ∈ hex.data, c.toNat < 128) :
    (updateCacheStatus pod index { ContainerID := runtime ++ "://" ++ hex }).lookup
        (runtime ++ "://" ++ hex) = some pod ∧
      (updateCacheStatus pod index { ContainerID := runtime ++ "://" ++ hex }).lookup
        (String.mk (hex.data.take 12)) = some pod := by
  have hne : runtime ++ "://" ++ hex ≠ "" := by
    intro h0
    have hl := congrArg String.length h0
    rw [String.length_append, String.length_append] at hl
    have h3 : "://".length = 3 := rfl
    have h0 : "".length = 0 := rfl
    omega
  unfold updateCacheStatus
  simp only [hne, ne_eq, not_false_eq_true, if_true, Split_form runtime hex hr hh]
  refine ⟨matcher.lookup_mapSet_self _ _ _, ?_⟩
  apply lookup_mapSet_value
  right
  have hlen : len hex = hex.data.length := len_ascii hex.data hascii
  by_cases h12 : len hex > 12
  · rw [if_pos h12, bytePrefix_ascii 12 hex.data hascii]
    exact matcher.lookup_mapSet_self _ _ _
  · rw [if_neg h12]
    have htake : hex.data.take 12 = hex.data := List.take_of_length_le (by omega)
    rw [htake]
    exact matcher.lookup_mapSet_self _ _ _

/-- C24: after `updateCache(pod)`, from any index, for every container status of the pod
whose id is `<runtime>://<hex>`, with no further `://` in `<runtime>` or in `<hex>` and
`<hex>` an ASCII text, the full id and the first 12 characters of `<hex>` (all of `<hex>`
when it is shorter) are both bound to that pod. -/
theorem updateCache_indexes_full_and_short (pod : Pod) (index : Index) (runtime hex : String)
    (hmem : ({ ContainerID := runtime ++ "://" ++ hex } : ContainerStatus) ∈
      pod.Status.ContainerStatuses)
    (hr : ¬ "://".data <:+: runtime.data) (hh : ¬ "://".data <:+: hex.data)
    (hascii : ∀ c ∈ hex.data, c.toNat < 128) :
    (updateCache pod index).lookup (runtime ++ "://" ++ hex) = some pod ∧
      (updateCache pod index).lookup (String.mk (hex.data.take 12)) = some pod := by
  unfold updateCache
  generalize pod.Status.ContainerStatuses = statuses at hmem
  induction statuses generalizing index with
  | nil => cases hmem
  | cons st rest ih =>
    rw [List.foldl_cons]
    rcases List.mem_cons.1 hmem with h | h
    · rw [← h]
      have hs := updateCacheStatus_stores pod index runtime hex hr hh hascii
      exact ⟨updateCache_keeps pod _ rest _ hs.1, updateCache_keeps pod _ rest _ hs.2⟩
    · exact ih _ h

/-- C24 witness: the pod `web-0` with the container `containerd://0123456789abcdef0123`. -/
theorem updateCache_indexes_full_and_short_witness :
    (updateCache (webPod "containerd://0123456789abcdef0123") []).lookup
        ("containerd" ++ "://" ++ "0123456789abcdef0123") =
      some (webPod "containerd://0123456789abcdef0123") ∧
    (updateCache (webPod "containerd://0123456789abcdef0123") []).lookup
        (String.mk ("0123456789abcdef0123".data.take 12)) =
      some (webPod "containerd://0123456789abcdef0123") :=
  updateCache_indexes_full_and_short (webPod "containerd://0123456789abcdef0123") []
    "containerd" "0123456789abcdef0123" (by decide) (by decide) (by decide) (by decide)

end enrich

namespace incident

/-! ### `updateIncident` -/

/-- The four statuses are the keys of `validStatuses`. -/
theorem validStatuses_iff (t : String) :
    (validStatuses.lookup t).getD false = true ↔
      t ∈ ["open", "investigating", "contained", "resolved"] := by
  by_cases h1 : t = "open"
  · subst h1; decide
  by_cases h2 : t = "investigating"
  · subst h2; decide
  by_cases h3 : t = "contained"
  · subst h3; decide
  by_cases h4 : t = "resolved"
  · subst h4; decide
  have hb1 : (t == "open") = false := by simpa using h1
  have hb2 : (t == "investigating") = false := by simpa using h2
  have hb3 : (t == "contained") = false := by simpa using h3
  have hb4 : (t == "resolved") = false := by simpa using h4
  simp [validStatuses, List.lookup, hb1, hb2, hb3, hb4, h1, h2, h3, h4]

/-- C26 (the claim fails as stated): the incident `i1` is stored as `resolved`; the request
to set it to `open` is answered 200 and the stored status of `i1` becomes `open`. -/
theorem updateIncident_reopens_resolved :
    lifecycleDB.incidents.map (fun row => (row.id, row.status)) =
        [("i1", "resolved"), ("i2", "open")] ∧
      (updateIncident "i1" (.ok "open") 5 lifecycleDB).1 = (200, .h "status" "updated") ∧
      (updateIncident "i1" (.ok "open") 5 lifecycleDB).2.incidents.map
          (fun row => (row.id, row.status)) =
        [("i1", "open"), ("i2", "open")] := by
  decide

/-- C26 (amended): while the database answers, `updateIncident` applies every request whose
status is one of `open`, `investigating`, `contained`, `resolved`, whatever status is
stored: it answers 200, the incident with the requested id gets the requested status and
the clock reading as its update time, and every other incident and table is left as it
was. A request with any other status is answered 400 and leaves the database unchanged, and
so does a request whose body does not decode. -/
theorem updateIncident_applies_any_valid_status (id t : String) (now : Int) (db : DB)
    (hup : db.fault = none) :
    (t ∈ ["open", "investigating", "contained", "resolved"] →
      (updateIncident id (.ok t) now db).1 = (200, .h "status" "updated") ∧
      (updateIncident id (.ok t) now db).2 =
        { db with
          incidents := db.incidents.map
            (fun row => if row.id = id then { row with status := t, updated_at := now }
                        else row) } ∧
      (updateIncident id (.ok t) now db).2.incidents.map (fun row => (row.id, row.status)) =
        db.incidents.map (fun row => (row.id, if row.id = id then t else row.status))) ∧
    (t ∉ ["open", "investigating", "contained", "resolved"] →
      (updateIncident id (.ok t) now db).1 = (400, .h "error" "invalid status") ∧
      (updateIncident id (.ok t) now db).2 = db) ∧
    (∀ err : String,
      updateIncident id (.error err) now db = ((400, .h "error" err), db)) := by
  refine ⟨fun hvalid => ?_, fun hinvalid => ?_, fun err => rfl⟩
  · have hv := (validStatuses_iff t).2 hvalid
    unfold updateIncident execUpdateStatus
    simp only [hv, not_true_eq_false, if_false, hup]
    refine ⟨trivial, trivial, ?_⟩
    rw [List.map_map]
    apply List.map_congr_left
    intro row _
    by_cases hid : row.id = id <;> simp [hid]
  · have hv : (validStatuses.lookup t).getD false = false := by
      cases h : (validStatuses.lookup t).getD false with
      | false => rfl
      | true => exact absurd ((validStatuses_iff t).1 h) hinvalid
    unfold updateIncident
    simp only [hv, Bool.false_eq_true, not_false_eq_true, if_true]
    exact ⟨trivial, trivial⟩

/-- C26 witness: the request to move the open incident `i2` to `contained`. -/
theorem updateIncident_applies_any_valid_status_witness :
    ("contained" ∈ ["open", "investigating", "contained", "resolved"] →
      (updateIncident "i2" (.ok "contained") 7 lifecycleDB).1 = (200, .h "status" "updated") ∧
      (updateIncident "i2" (.ok "contained") 7 lifecycleDB).2 =
        { lifecycleDB with
          incidents := lifecycleDB.incidents.map
            (fun row => if row.id = "i2" then { row with status := "contained", updated_at := 7 }
                        else row) } ∧
      (updateIncident "i2" (.ok "contained") 7 lifecycleDB).2.incidents.map
          (fun row => (row.id, row.status)) =
        lifecycleDB.incidents.map
          (fun row => (row.id, if row.id = "i2" then "contained" else row.status))) ∧
    ("contained" ∉ ["open", "investigating", "contained", "resolved"] →
      (updateIncident "i2" (.ok "contained") 7 lifecycleDB).1 =
        (400, .h "error" "invalid status") ∧
      (updateIncident "i2" (.ok "contained") 7 lifecycleDB).2 = lifecycleDB) ∧
    (∀ err : String,
      updateIncident "i2" (.error err) 7 lifecycleDB = ((400, .h "error" err), lifecycleDB)) :=
  updateIncident_applies_any_valid_status "i2" "contained" 7 lifecycleDB rfl

/-! ### `getIncidentTimeline` -/

/-- C27 (the claim fails as stated): for the incident `i1`, whose action was logged at
second 10 and whose alert is stamped second 20, the timeline holds the alert first and the
action second; it is not sorted by timestamp. -/
theorem getIncidentTimeline_action_after_later_alert :
    getIncidentTimeline "i1" timelineDB =
        (200, .data [.alert "a1" 20 "Shell" "high" "" none,
                     .action "l1" 10 "kill_pod" "prod/web-0" "success" ""]) ∧
      ¬ ([TimelineEntry.alert "a1" 20 "Shell" "high" "" none,
          TimelineEntry.action "l1" 10 "kill_pod" "prod/web-0" "success" ""].map
            TimelineEntry.timestamp).Sorted (fun a b => a ≤ b) := by
  decide

/-- C27 (amended): while the database answers, `getIncidentTimeline` answers 200 with a list
made of two runs: the entries of exactly the stored alerts of the incident, in
non-decreasing order of timestamp, followed by the entries of exactly the stored action
logs of the incident, in non-decreasing order of creation time. -/
theorem getIncidentTimeline_alerts_then_actions (id : String) (db : DB)
    (hup : db.fault = none) :
    ∃ (alerts : List AlertRow) (actions : List ActionLogRow),
      getIncidentTimeline id db =
        (200, .data (alerts.map alertEntry ++ actions.map actionEntry)) ∧
      alerts.Perm (db.alerts.filter (fun row => row.incident_id = some id)) ∧
      alerts.Sorted (fun a b => a.timestamp ≤ b.timestamp) ∧
      ((alerts.map alertEntry).map TimelineEntry.timestamp).Sorted (fun a b => a ≤ b) ∧
      actions.Perm (db.action_logs.filter (fun row => row.incident_id = some id)) ∧
      actions.Sorted (fun a b => a.created_at ≤ b.created_at) ∧
      ((actions.map actionEntry).map TimelineEntry.timestamp).Sorted (fun a b => a ≤ b) := by
  haveI : IsTotal AlertRow (fun a b => a.timestamp ≤ b.timestamp) :=
    ⟨fun a b => le_total a.timestamp b.timestamp⟩
  haveI : IsTrans AlertRow (fun a b => a.timestamp ≤ b.timestamp) :=
    ⟨fun _ _ _ h1 h2 => le_trans h1 h2⟩
  haveI : IsTotal ActionLogRow (fun a b => a.created_at ≤ b.created_at) :=
    ⟨fun a b => le_total a.created_at b.created_at⟩
  haveI : IsTrans ActionLogRow (fun a b => a.created_at ≤ b.created_at) :=
    ⟨fun _ _ _ h1 h2 => le_trans h1 h2⟩
  have hs1 := List.sorted_insertionSort (fun a b : AlertRow => a.timestamp ≤ b.timestamp)
    (db.alerts.filter (fun row => row.incident_id = some id))
  have hs2 := List.sorted_insertionSort (fun a b : ActionLogRow => a.created_at ≤ b.created_at)
    (db.action_logs.filter (fun row => row.incident_id = some id))
  refine ⟨_, _, ?_, List.perm_insertionSort _ _, hs1, ?_, List.perm_insertionSort _ _, hs2, ?_⟩
  · unfold getIncidentTimeline queryAlerts queryActions
    simp only [hup]
  · rw [List.map_map]
    exact (List.pairwise_map.2 hs1)
  · rw [List.map_map]
    exact (List.pairwise_map.2 hs2)

/-- C27 witness: the timeline of the incident `i1`. -/
theorem getIncidentTimeline_alerts_then_actions_witness :
    ∃ (alerts : List AlertRow) (actions : List ActionLogRow),
      getIncidentTimeline "i1" timelineDB =
        (200, .data (alerts.map alertEntry ++ actions.map actionEntry)) ∧
      alerts.Perm (timelineDB.alerts.filter (fun row => row.incident_id = some "i1")) ∧
      alerts.Sorted (fun a b => a.timestamp ≤ b.timestamp) ∧
      ((alerts.map alertEntry).map TimelineEntry.timestamp).Sorted (fun a b => a ≤ b) ∧
      actions.Perm (timelineDB.action_logs.filter (fun row => row.incident_id = some "i1")) ∧
      actions.Sorted (fun a b => a.created_at ≤ b.created_at) ∧
      ((actions.map actionEntry).map TimelineEntry.timestamp).Sorted (fun a b => a ≤ b) :=
  getIncidentTimeline_alerts_then_actions "i1" timelineDB rfl

end incident

namespace models

/-! ### Strings -/

theorem ofText_text_cons (r : Rune) (s : GoString) :
    ofText (text (r :: s)) =
      Rune.char (match r with
        | .char c => c
        | .byte _ => Char.ofNat 65533) :: ofText (text s) := rfl

/-- A Go string comes back from its JSON text exactly when it is valid UTF-8. -/
theorem ofText_text_iff (s : GoString) : ofText (text s) = s ↔ validUTF8 s = true := by
  induction s with
  | nil => exact ⟨fun _ => rfl, fun _ => rfl⟩
  | cons r rest ih =>
    rw [ofText_text_cons]
    cases r with
    | char c => simp [validUTF8] at ih ⊢; exact ih
    | byte b => simp [validUTF8]

theorem ofText_text_of_valid (s : GoString) (h : validUTF8 s = true) : ofText (text s) = s :=
  (ofText_text_iff s).2 h

theorem validUTF8_ofText (s : String) : validUTF8 (ofText s) = true := by
  simp [validUTF8, ofText]

/-! ### Timestamps -/

theorem tdiv_mul_eq_iff (o : Int) : Int.tdiv o 60 * 60 = o ↔ o % 60 = 0 := by
  rcases Int.le_total 0 o with h | h
  · rw [Int.tdiv_eq_ediv h (by decide)]
    omega
  · obtain ⟨n, rfl⟩ : ∃ n : Int, o = -n := ⟨-o, by omega⟩
    rw [Int.neg_tdiv, Int.tdiv_eq_ediv (by omega) (by decide)]
    omega

/-- The text the document of a timestamp stands for is the RFC 3339 text of the time. -/
theorem timeText_timeDoc (z : LocalZone) (t : Time) :
    timeText (t.unixNano + t.offset z * 1000000000)
        (PodWatch.Time.zoneMinutes (t.offset z)) =
      (t.abstract z).formatRFC3339 := by
  have h1 : (t.unixNano + t.offset z * 1000000000) / 1000000000 =
      t.unixNano / 1000000000 + t.offset z := by omega
  have h2 : (t.unixNano + t.offset z * 1000000000) % 1000000000 =
      t.unixNano % 1000000000 := by omega
  simp only [timeText, PodWatch.Time.formatRFC3339, PodWatch.Time.localSeconds,
    PodWatch.Time.Unix, PodWatch.Time.Nanosecond, PodWatch.Time.zoneText, Time.abstract, h1, h2]

theorem parseTime_whole (z : LocalZone) (u o : Int) (ho : o ≠ 0) (hm : o % 60 = 0) :
    parseTime z (u + o * 1000000000) (PodWatch.Time.zoneMinutes o) =
      if z.offsetAt (u / 1000000000) = o then { unixNano := u, mono := none, loc := .local }
      else { unixNano := u, mono := none, loc := .fixed "" o } := by
  have hmul := (tdiv_mul_eq_iff o).2 hm
  have hu : u + o * 1000000000 - o * 1000000000 = u := by omega
  simp only [PodWatch.Time.zoneMinutes, if_neg ho, parseTime, hmul, hu]

theorem parseTime_cut (z : LocalZone) (u o : Int) (ho : o ≠ 0) (hm : o % 60 ≠ 0) :
    (parseTime z (u + o * 1000000000) (PodWatch.Time.zoneMinutes o)).unixNano ≠ u := by
  have hmul : Int.tdiv o 60 * 60 ≠ o := fun h => hm ((tdiv_mul_eq_iff o).1 h)
  have hu : u + o * 1000000000 - Int.tdiv o 60 * 60 * 1000000000 ≠ u := by
    intro h
    apply hmul
    omega
  simp only [PodWatch.Time.zoneMinutes, if_neg ho, parseTime]
  split <;> exact hu

theorem parseTime_zero (z : LocalZone) (u : Int) :
    parseTime z (u + 0 * 1000000000) (PodWatch.Time.zoneMinutes 0) =
      { unixNano := u, mono := none, loc := .utc } := by
  simp [PodWatch.Time.zoneMinutes, parseTime]

theorem parseTime_local (z : LocalZone) (u : Int) (mono : Option Int) (o : Int)
    (hz : z.offsetAt (u / 1000000000) = o) :
    parseTime z (u + o * 1000000000) (PodWatch.Time.zoneMinutes o) =
        { unixNano := u, mono := mono, loc := .local } ↔
      (decide (mono = none) && (decide (o ≠ 0) && decide (o % 60 = 0))) = true := by
  by_cases ho : o = 0
  · subst ho
    rw [parseTime_zero]
    simp
  · by_cases hm : o % 60 = 0
    · rw [parseTime_whole z u _ ho hm, if_pos hz]
      simp [ho, hm]
      exact eq_comm
    · have h := parseTime_cut z u _ ho hm
      simp only [hm, decide_False, Bool.and_false, Bool.false_eq_true, iff_false]
      intro heq
      exact h (congrArg Time.unixNano heq)

/-- Decoding the timestamp string of a time gives the time back exactly when the time is
restored. -/
theorem timeDecoded_eq_iff (z : LocalZone) (t : Time) :
    t.decoded z = t ↔ t.restored z = true := by
  obtain ⟨u, mono, loc⟩ := t
  cases loc
  · simp [Time.decoded, Time.restored, Time.offset, PodWatch.Time.zoneMinutes, parseTime]
    exact eq_comm
  · exact parseTime_local z u mono _ rfl
  · rename_i name o
    simp only [Time.decoded, Time.restored, Time.offset]
    by_cases ho : o = 0
    · subst ho
      rw [parseTime_zero]
      simp
    · by_cases hm : o % 60 = 0
      · rw [parseTime_whole z u _ ho hm]
        by_cases hz : z.offsetAt (u / 1000000000) = o
        · simp [hz]
        · simp [ho, hm, hz]
          constructor
          · rintro ⟨h1, h2⟩
            exact ⟨h1.symm, h2.symm⟩
          · rintro ⟨h1, h2⟩
            exact ⟨h1.symm, h2.symm⟩
      · have h := parseTime_cut z u _ ho hm
        simp only [hm, decide_False, Bool.and_false, Bool.false_and, Bool.false_eq_true,
          iff_false]
        intro heq
        exact h (congrArg Time.unixNano heq)
  · rename_i name first trs
    simp only [Time.decoded, Time.restored, Time.offset, Bool.and_false, Bool.false_eq_true,
      iff_false]
    intro heq
    have hl := congrArg Time.loc heq
    simp only at hl
    generalize zoneAt first trs (u / 1000000000) = o at hl
    unfold parseTime PodWatch.Time.zoneMinutes at hl
    by_cases ho : o = 0
    · simp [ho] at hl
    · simp only [if_neg ho] at hl
      split at hl <;> simp at hl

/-! ### Slices and maps -/

theorem decodeStrings_map (cs : List GoString) :
    decodeStrings (cs.map (fun s => Doc.str (text s))) =
      .ok (cs.map (fun s => ofText (text s))) := by
  induction cs with
  | nil => rfl
  | cons c rest ih => simp [decodeStrings, ih]

theorem map_ofText_text_iff (cs : List GoString) :
    cs.map (fun s => ofText (text s)) = cs ↔ cs.all validUTF8 = true := by
  induction cs with
  | nil => simp
  | cons c rest ih =>
    simp only [List.map_cons, List.cons.injEq, List.all_cons, Bool.and_eq_true, ih,
      ofText_text_iff]

theorem decodeStringMap_map (kvs : List (GoString × GoString)) :
    ∀ m, decodeStringMap (kvs.map (fun kv => (text kv.1, Doc.str (text kv.2)))) m =
      .ok (kvs.foldl storeEntry m) := by
  induction kvs with
  | nil => intro m; rfl
  | cons kv rest ih =>
    intro m
    simp only [List.map_cons, decodeStringMap, List.foldl_cons, ih]
    rfl

theorem decodedLabels_eq (kvs : List (GoString × GoString)) :
    decodedLabels kvs = kvs.foldl storeEntry [] := rfl

theorem mapStore_length_le (m : List (GoString × GoString)) (k v : GoString) :
    (mapStore m k v).length ≤ m.length + 1 := by
  unfold mapStore
  split <;> simp

theorem mapStore_of_length (m : List (GoString × GoString)) (k v : GoString)
    (h : m.length + 1 ≤ (mapStore m k v).length) :
    mapStore m k v = m ++ [(k, v)] ∧ ∀ a ∈ m, a.1 ≠ k := by
  unfold mapStore at h ⊢
  by_cases hany : m.any (fun kv => decide (kv.1 = k)) = true
  · rw [if_pos hany] at h
    simp at h
  · rw [if_neg hany]
    refine ⟨rfl, ?_⟩
    intro a ha hk
    apply hany
    rw [List.any_eq_true]
    exact ⟨a, ha, by simp [hk]⟩

theorem mapStore_of_fresh (m : List (GoString × GoString)) (k v : GoString)
    (h : ∀ a ∈ m, a.1 ≠ k) : mapStore m k v = m ++ [(k, v)] := by
  unfold mapStore
  rw [if_neg]
  intro hany
  rw [List.any_eq_true] at hany
  obtain ⟨a, ha, hk⟩ := hany
  exact h a ha (by simpa using hk)

theorem foldl_storeEntry_length_le (kvs : List (GoString × GoString)) :
    ∀ m, (kvs.foldl storeEntry m).length ≤ m.length + kvs.length := by
  induction kvs with
  | nil => intro m; simp
  | cons kv rest ih =>
    intro m
    have h1 := ih (storeEntry m kv)
    have h2 := mapStore_length_le m (ofText (text kv.1)) (ofText (text kv.2))
    simp only [List.foldl_cons, List.length_cons]
    unfold storeEntry at h1 ⊢
    omega

theorem foldl_storeEntry_of_length (kvs : List (GoString × GoString)) :
    ∀ m, m.length + kvs.length ≤ (kvs.foldl storeEntry m).length →
      kvs.foldl storeEntry m = m ++ kvs.map decodedEntry ∧
      ((kvs.map decodedEntry).map (fun kv => kv.1)).Nodup ∧
      ∀ kv ∈ kvs.map decodedEntry, ∀ a ∈ m, a.1 ≠ kv.1 := by
  induction kvs with
  | nil =>
    intro m _
    simp
  | cons kv rest ih =>
    intro m h
    simp only [List.foldl_cons, List.length_cons] at h
    have h1 := foldl_storeEntry_length_le rest (storeEntry m kv)
    have h2 : m.length + 1 ≤ (mapStore m (ofText (text kv.1)) (ofText (text kv.2))).length := by
      unfold storeEntry at h1 h
      omega
    obtain ⟨happ, hfresh⟩ := mapStore_of_length _ _ _ h2
    have hstep : storeEntry m kv = m ++ [decodedEntry kv] := happ
    have h3 : (storeEntry m kv).length + rest.length ≤
        (rest.foldl storeEntry (storeEntry m kv)).length := by
      rw [hstep] at h ⊢
      simp only [List.length_append, List.length_singleton]
      omega
    obtain ⟨heq, hnd, hdis⟩ := ih _ h3
    refine ⟨?_, ?_, ?_⟩
    · rw [List.foldl_cons, heq, hstep]
      simp
    · simp only [List.map_cons, List.nodup_cons]
      refine ⟨?_, hnd⟩
      intro hmem
      rw [List.mem_map] at hmem
      obtain ⟨b, hb, hbk⟩ := hmem
      refine hdis b hb (decodedEntry kv) ?_ hbk.symm
      rw [hstep]
      simp
    · intro b hb a ha
      rw [List.map_cons, List.mem_cons] at hb
      rcases hb with rfl | hb
      · exact hfresh a ha
      · refine hdis b hb a ?_
        rw [hstep]
        simp [ha]

theorem foldl_storeEntry_of_plain (kvs : List (GoString × GoString)) :
    ∀ m, (∀ kv ∈ kvs, validUTF8 kv.1 = true ∧ validUTF8 kv.2 = true) →
      (kvs.map (fun kv => kv.1)).Nodup → (∀ kv ∈ kvs, ∀ a ∈ m, a.1 ≠ kv.1) →
      kvs.foldl storeEntry m = m ++ kvs := by
  induction kvs with
  | nil =>
    intro m _ _ _
    simp
  | cons kv rest ih =>
    intro m hv hnd hdis
    have hkv := hv kv (List.mem_cons_self _ _)
    have hstep : storeEntry m kv = m ++ [kv] := by
      unfold storeEntry
      rw [ofText_text_of_valid _ hkv.1, ofText_text_of_valid _ hkv.2]
      exact mapStore_of_fresh _ _ _ (fun a ha => hdis kv (List.mem_cons_self _ _) a ha)
    rw [List.map_cons, List.nodup_cons] at hnd
    rw [List.foldl_cons, hstep, ih (m ++ [kv]) (fun b hb => hv b (List.mem_cons_of_mem _ hb))
      hnd.2]
    · simp
    · intro b hb a ha
      rw [List.mem_append, List.mem_singleton] at ha
      rcases ha with ha | rfl
      · exact hdis b (List.mem_cons_of_mem _ hb) a ha
      · intro hk
        exact hnd.1 (List.mem_map.2 ⟨b, hb, hk.symm⟩)

theorem map_decodedEntry_eq (kvs : List (GoString × GoString))
    (h : kvs.map decodedEntry = kvs) :
    ∀ kv ∈ kvs, validUTF8 kv.1 = true ∧ validUTF8 kv.2 = true := by
  induction kvs with
  | nil => intro kv hkv; cases hkv
  | cons b rest ih =>
    rw [List.map_cons, List.cons.injEq] at h
    intro kv hkv
    rw [List.mem_cons] at hkv
    rcases hkv with rfl | hkv
    · have h1 : ofText (text kv.1) = kv.1 := congrArg Prod.fst h.1
      have h2 : ofText (text kv.2) = kv.2 := congrArg Prod.snd h.1
      exact ⟨(ofText_text_iff _).1 h1, (ofText_text_iff _).1 h2⟩
    · exact ih h.2 kv hkv

/-- A map comes back from its JSON object exactly when its keys and values are valid
UTF-8 (and its keys are pairwise distinct). -/
theorem decodedLabels_eq_iff (kvs : List (GoString × GoString)) :
    decodedLabels kvs = kvs ↔
      (kvs.all (fun kv => validUTF8 kv.1 && validUTF8 kv.2) &&
        decide ((kvs.map (fun kv => kv.1)).Nodup)) = true := by
  rw [decodedLabels_eq]
  simp only [Bool.and_eq_true, List.all_eq_true, decide_eq_true_eq]
  constructor
  · intro h
    have hlen : ([] : List (GoString × GoString)).length + kvs.length ≤
        (kvs.foldl storeEntry []).length := by
      rw [h]
      simp
    obtain ⟨heq, hnd, _⟩ := foldl_storeEntry_of_length kvs [] hlen
    rw [h, List.nil_append] at heq
    have hv := map_decodedEntry_eq kvs heq.symm
    rw [← heq] at hnd
    exact ⟨hv, hnd⟩
  · rintro ⟨hv, hnd⟩
    have := foldl_storeEntry_of_plain kvs [] hv hnd (fun _ _ a ha => by cases ha)
    simpa using this

/-! ### The sub-documents -/

theorem getPointer_process (kvs : List (String × Doc)) (key : String) (p : ProcessInfo)
    (h : kvs.lookup key = some (processDoc p)) :
    getPointer decodeProcess kvs key = .ok (some p.decoded) := by
  obtain ⟨pid, ppid, uid, gid, exe, cmdline, cwd, tty, caps⟩ := p
  unfold getPointer
  rw [h]
  unfold processDoc
  rcases caps with _ | _ | ⟨c, cs⟩
  · simp [decodeProcess, getInt, getString, getBool, getStrings, List.lookup, bind,
      Except.bind, pure, Except.pure, ProcessInfo.decoded]
  · simp [decodeProcess, getInt, getString, getBool, getStrings, List.lookup, bind,
      Except.bind, pure, Except.pure, ProcessInfo.decoded]
  · have hd := decodeStrings_map (c :: cs)
    simp only [List.map_cons] at hd
    simp [decodeProcess, getInt, getString, getBool, getStrings, List.lookup, bind,
      Except.bind, pure, Except.pure, ProcessInfo.decoded, hd]

theorem getPointer_container (kvs : List (String × Doc)) (key : String) (c : ContainerInfo)
    (h : kvs.lookup key = some (containerDoc c)) :
    getPointer decodeContainer kvs key = .ok (some c.decoded) := by
  obtain ⟨cid, image, digest, pod, ns, sa, labels⟩ := c
  unfold getPointer
  rw [h]
  unfold containerDoc
  cases labels with
  | none =>
    simp [decodeContainer, getString, getStringMap, List.lookup, bind, Except.bind, pure,
      Except.pure, ContainerInfo.decoded]
  | some m =>
    simp [decodeContainer, getString, getStringMap, List.lookup, bind, Except.bind, pure,
      Except.pure, ContainerInfo.decoded, decodeStringMap_map, decodedLabels]

theorem getPointer_network (kvs : List (String × Doc)) (key : String) (n : NetworkInfo)
    (h : kvs.lookup key = some (networkDoc n)) :
    getPointer decodeNetwork kvs key = .ok (some n.decoded) := by
  obtain ⟨ip, port, proto, domain⟩ := n
  unfold getPointer
  rw [h]
  unfold networkDoc
  simp [decodeNetwork, getString, getInt, List.lookup, bind, Except.bind, pure, Except.pure,
    NetworkInfo.decoded]

theorem getPointer_absent {α : Type} (decode : List (String × Doc) → Except String α)
    (kvs : List (String × Doc)) (key : String) (h : kvs.lookup key = none) :
    getPointer decode kvs key = .ok none := by
  unfold getPointer
  rw [h]

theorem processDecoded_eq_iff (p : ProcessInfo) : p.decoded = p ↔ p.plain = true := by
  obtain ⟨pid, ppid, uid, gid, exe, cmdline, cwd, tty, caps⟩ := p
  rcases caps with _ | _ | ⟨c, cs⟩
  · simp [ProcessInfo.decoded, ProcessInfo.plain, ofText_text_iff]
    tauto
  · simp [ProcessInfo.decoded, ProcessInfo.plain]
  · have hm := map_ofText_text_iff (c :: cs)
    simp only [List.map_cons, List.all_cons, Bool.and_eq_true] at hm
    simp only [ProcessInfo.decoded, ProcessInfo.plain, ProcessInfo.mk.injEq, true_and,
      ofText_text_iff, List.map_cons, Option.some.injEq, hm, List.all_cons, Bool.and_eq_true]
    tauto

theorem containerDecoded_eq_iff (c : ContainerInfo) : c.decoded = c ↔ c.plain = true := by
  obtain ⟨cid, image, digest, pod, ns, sa, labels⟩ := c
  cases labels with
  | none => simp [ContainerInfo.decoded, ContainerInfo.plain, ofText_text_iff]; tauto
  | some kvs =>
    simp only [ContainerInfo.decoded, ContainerInfo.plain, ContainerInfo.mk.injEq,
      ofText_text_iff, Option.map_some', Option.some.injEq, decodedLabels_eq_iff,
      Bool.and_eq_true]
    tauto

theorem networkDecoded_eq_iff (n : NetworkInfo) : n.decoded = n ↔ n.plain = true := by
  obtain ⟨ip, port, proto, domain⟩ := n
  simp [NetworkInfo.decoded, NetworkInfo.plain, ofText_text_iff]
  tauto

/-! ### The event -/

/-- The keys of the document `json.Marshal` writes for an event, with their values: the
three sub-documents and `raw_ref` have no key when they are nil or empty. -/
theorem eventDoc_fields (z : LocalZone) (e : RuntimeEvent) :
    ∃ kvs, eventDoc z e = .map kvs ∧
      kvs.lookup "ts" = some (timeDoc z e.Timestamp) ∧
      kvs.lookup "cluster_id" = some (.str (text e.ClusterID)) ∧
      kvs.lookup "node_id" = some (.str (text e.NodeID)) ∧
      kvs.lookup "event_type" = some (.str (text e.EventType)) ∧
      kvs.lookup "event_id" = some (.str (text e.EventID)) ∧
      kvs.lookup "process" = e.Process.map processDoc ∧
      kvs.lookup "container" = e.Container.map containerDoc ∧
      kvs.lookup "network" = e.Network.map networkDoc ∧
      kvs.lookup "raw_ref" = (if e.RawRef = [] then none else some (.str (text e.RawRef))) := by
  obtain ⟨ts, cl, nd, ty, id, p, c, n, raw⟩ := e
  unfold eventDoc
  refine ⟨_, rfl, ?_, ?_, ?_, ?_, ?_, ?_, ?_, ?_, ?_⟩
  · simp [List.lookup]
  · simp [List.lookup]
  · simp [List.lookup]
  · simp [List.lookup]
  · simp [List.lookup]
  · cases p <;> cases c <;> cases n <;> by_cases hraw : raw = [] <;> simp [List.lookup, hraw]
  · cases p <;> cases c <;> cases n <;> by_cases hraw : raw = [] <;> simp [List.lookup, hraw]
  · cases p <;> cases c <;> cases n <;> by_cases hraw : raw = [] <;> simp [List.lookup, hraw]
  · cases p <;> cases c <;> cases n <;> by_cases hraw : raw = [] <;> simp [List.lookup, hraw]

/-- Decoding the document written for an event gives the event `decoded` describes. -/
theorem Unmarshal_eventDoc (z : LocalZone) (e : RuntimeEvent) :
    Unmarshal z (eventDoc z e) = .ok (e.decoded z) := by
  obtain ⟨kvs, hk, hts, hcl, hnd, hty, hid, hp, hc, hn, hraw⟩ := eventDoc_fields z e
  rw [hk]
  have h1 : getTime z kvs "ts" = .ok (e.Timestamp.decoded z) := by
    unfold getTime
    rw [hts]
    rfl
  have h2 : getString kvs "cluster_id" = .ok (ofText (text e.ClusterID)) := by
    unfold getString
    rw [hcl]
  have h3 : getString kvs "node_id" = .ok (ofText (text e.NodeID)) := by
    unfold getString
    rw [hnd]
  have h4 : getString kvs "event_type" = .ok (ofText (text e.EventType)) := by
    unfold getString
    rw [hty]
  have h5 : getString kvs "event_id" = .ok (ofText (text e.EventID)) := by
    unfold getString
    rw [hid]
  have h6 : getPointer decodeProcess kvs "process" = .ok (e.Process.map ProcessInfo.decoded) := by
    cases hpe : e.Process with
    | none =>
      rw [hpe] at hp
      exact getPointer_absent _ _ _ hp
    | some p =>
      rw [hpe] at hp
      exact getPointer_process _ _ p hp
  have h7 : getPointer decodeContainer kvs "container" =
      .ok (e.Container.map ContainerInfo.decoded) := by
    cases hce : e.Container with
    | none =>
      rw [hce] at hc
      exact getPointer_absent _ _ _ hc
    | some c =>
      rw [hce] at hc
      exact getPointer_container _ _ c hc
  have h8 : getPointer decodeNetwork kvs "network" = .ok (e.Network.map NetworkInfo.decoded) := by
    cases hne : e.Network with
    | none =>
      rw [hne] at hn
      exact getPointer_absent _ _ _ hn
    | some n =>
      rw [hne] at hn
      exact getPointer_network _ _ n hn
  have h9 : getString kvs "raw_ref" = .ok (ofText (text e.RawRef)) := by
    unfold getString
    rw [hraw]
    by_cases hr : e.RawRef = []
    · rw [if_pos hr, hr]
      rfl
    · rw [if_neg hr]
  unfold Unmarshal
  simp only [h1, h2, h3, h4, h5, h6, h7, h8, h9, bind, Except.bind, pure, Except.pure]
  rfl

/-- The event `decoded` describes is the event itself exactly when the event is plain. -/
theorem eventDecoded_eq_iff (z : LocalZone) (e : RuntimeEvent) :
    e.decoded z = e ↔ e.plain z = true := by
  obtain ⟨ts, cl, nd, ty, id, p, c, n, raw⟩ := e
  cases p <;> cases c <;> cases n <;>
    simp only [RuntimeEvent.decoded, RuntimeEvent.plain, RuntimeEvent.mk.injEq,
      timeDecoded_eq_iff, ofText_text_iff, Bool.and_eq_true, Option.map_none',
      Option.map_some', Option.some.injEq, processDecoded_eq_iff,
      containerDecoded_eq_iff, networkDecoded_eq_iff, and_true, true_and] <;>
    tauto

theorem Marshal_ok_eq_eventDoc (z : LocalZone) (e : RuntimeEvent) (doc : Doc)
    (h : Marshal z e = .ok doc) : doc = eventDoc z e := by
  unfold Marshal at h
  split at h
  · cases h
  · cases h
    rfl

theorem eventDoc_no_null (z : LocalZone) (e : RuntimeEvent) (kvs : List (String × Doc))
    (h : eventDoc z e = .map kvs) : ∀ kv ∈ kvs, kv.2 ≠ .null := by
  obtain ⟨ts, cl, nd, ty, id, p, c, n, raw⟩ := e
  unfold eventDoc at h
  cases h
  have hall : ∀ kv ∈ ([("ts", timeDoc z ts), ("cluster_id", .str (text cl)),
      ("node_id", .str (text nd)), ("event_type", .str (text ty)),
      ("event_id", .str (text id))] ++
      (match p with
       | none => []
       | some p => [("process", processDoc p)]) ++
      (match c with
       | none => []
       | some c => [("container", containerDoc c)]) ++
      (match n with
       | none => []
       | some n => [("network", networkDoc n)]) ++
      (if raw = [] then [] else [("raw_ref", .str (text raw))]) : List (String × Doc)),
      (match kv.2 with
        | .null => false
        | _ => true) = true := by
    rw [← List.all_eq_true]
    cases p <;> cases c <;> cases n <;> by_cases hraw : raw = [] <;>
      simp [hraw, timeDoc, processDoc, containerDoc, networkDoc]
  intro kv hkv hnull
  have hk := hall kv hkv
  rw [hnull] at hk
  cases hk

/-- C25 (the claim fails as stated), six events whose JSON text does not decode to an equal
event: one stamped in the year 10000 has no JSON text at all; an `event_id` holding the
byte 0xFF comes back holding U+FFFD; an empty `capabilities_added` slice comes back nil; a
timestamp with a monotonic reading comes back without it; on a machine whose zone is UTC a
timestamp in the zone of the machine comes back in UTC; a timestamp in a zone named CET
comes back in the zone of the machine when that is one hour east of UTC as well. -/
theorem roundTrip_not_equal :
    roundTrip utcMachine (bareEvent { unixNano := 253402300800000000000 } (ofText "e-7")) =
      .error ("json: error calling MarshalJSON for type time.Time: " ++
        "Time.MarshalJSON: year outside of range [0,9999]") ∧
    (roundTrip utcMachine (bareEvent { unixNano := 1700000000000000000 } [.byte 255]) =
        .ok (bareEvent { unixNano := 1700000000000000000 } [.char (Char.ofNat 65533)]) ∧
      bareEvent { unixNano := 1700000000000000000 } [.char (Char.ofNat 65533)] ≠
        bareEvent { unixNano := 1700000000000000000 } [.byte 255]) ∧
    (roundTrip utcMachine (capsEvent (some [])) = .ok (capsEvent none) ∧
      capsEvent none ≠ capsEvent (some [])) ∧
    (roundTrip utcMachine
        (bareEvent { unixNano := 1700000000000000000, mono := some 5000 } (ofText "e-7")) =
        .ok (bareEvent { unixNano := 1700000000000000000 } (ofText "e-7")) ∧
      bareEvent { unixNano := 1700000000000000000 } (ofText "e-7") ≠
        bareEvent { unixNano := 1700000000000000000, mono := some 5000 } (ofText "e-7")) ∧
    (roundTrip utcMachine
        (bareEvent { unixNano := 1700000000000000000, loc := .local } (ofText "e-7")) =
        .ok (bareEvent { unixNano := 1700000000000000000, loc := .utc } (ofText "e-7")) ∧
      bareEvent { unixNano := 1700000000000000000, loc := .utc } (ofText "e-7") ≠
        bareEvent { unixNano := 1700000000000000000, loc := .local } (ofText "e-7")) ∧
    (roundTrip cetMachine
        (bareEvent { unixNano := 1700000000000000000, loc := .fixed "CET" 3600 }
          (ofText "e-7")) =
        .ok (bareEvent { unixNano := 1700000000000000000, loc := .local } (ofText "e-7")) ∧
      bareEvent { unixNano := 1700000000000000000, loc := .local } (ofText "e-7") ≠
        bareEvent { unixNano := 1700000000000000000, loc := .fixed "CET" 3600 }
          (ofText "e-7")) :=
  ⟨rfl, ⟨rfl, by decide⟩, ⟨rfl, by decide⟩, ⟨rfl, by decide⟩, ⟨rfl, by decide⟩,
    ⟨rfl, by decide⟩⟩

/-- C25 (amended): for every event `json.Marshal` accepts, decoding the JSON encoding
succeeds and gives the event `decoded` describes, which is structurally equal to the event
exactly when the event is plain: every string is valid UTF-8, `capabilities_added` is not
an empty slice, and the timestamp has no monotonic reading and a location the decoder
restores. The encoding is an object in which the keys `process`, `container` and `network`
are absent exactly when the sub-document is absent in the event, and in which no key holds
`null`; each sub-document is absent after the round trip exactly when it was absent
before. -/
theorem roundTrip_equal_iff_plain (z : LocalZone) (e : RuntimeEvent) (doc : Doc)
    (hdoc : Marshal z e = .ok doc) :
    roundTrip z e = .ok (e.decoded z) ∧
    (e.decoded z = e ↔ e.plain z = true) ∧
    (∃ kvs, doc = .map kvs ∧
      (kvs.lookup "process" = none ↔ e.Process = none) ∧
      (kvs.lookup "container" = none ↔ e.Container = none) ∧
      (kvs.lookup "network" = none ↔ e.Network = none) ∧
      ∀ kv ∈ kvs, kv.2 ≠ .null) ∧
    ((e.decoded z).Process = none ↔ e.Process = none) ∧
    ((e.decoded z).Container = none ↔ e.Container = none) ∧
    ((e.decoded z).Network = none ↔ e.Network = none) := by
  have hd := Marshal_ok_eq_eventDoc z e doc hdoc
  subst hd
  obtain ⟨kvs, hk, _, _, _, _, _, hp, hc, hn, _⟩ := eventDoc_fields z e
  refine ⟨?_, eventDecoded_eq_iff z e, ⟨kvs, hk, ?_, ?_, ?_, eventDoc_no_null z e kvs hk⟩,
    ?_, ?_, ?_⟩
  · unfold roundTrip
    rw [hdoc]
    exact Unmarshal_eventDoc z e
  · rw [hp]
    cases e.Process <;> simp
  · rw [hc]
    cases e.Container <;> simp
  · rw [hn]
    cases e.Network <;> simp
  · simp only [RuntimeEvent.decoded]
    cases e.Process <;> simp
  · simp only [RuntimeEvent.decoded]
    cases e.Container <;> simp
  · simp only [RuntimeEvent.decoded]
    cases e.Network <;> simp

/-- C25 witness: the event with every sub-document is accepted and plain, and comes back
as it was. -/
theorem roundTrip_equal_iff_plain_witness :
    Marshal utcMachine fullEvent = .ok (eventDoc utcMachine fullEvent) ∧
      fullEvent.plain utcMachine = true ∧
      roundTrip utcMachine fullEvent = .ok (fullEvent.decoded utcMachine) ∧
      fullEvent.decoded utcMachine = fullEvent :=
  ⟨rfl, by decide,
    (roundTrip_equal_iff_plain utcMachine fullEvent (eventDoc utcMachine fullEvent) rfl).1,
    (roundTrip_equal_iff_plain utcMachine fullEvent (eventDoc utcMachine fullEvent) rfl).2.1.2
      (by decide)⟩

end models

end PodWatch
